import Mathlib

/-!
# Verification of the Task Coach change-synchronization and persistence layer

Shallow embedding of `taskcoachlib/changes/sync.py` (`ChangeSynchronizer`),
the composite-collection layer of `taskcoachlib/patterns/composite.py` it
relies on, and the persistence operations of
`taskcoachlib/persistence/taskfile.py` (`SafeWriteFile`, `TaskFile.save`,
`TaskFile.load`, `TaskFile.mergeDiskChanges`).

Python objects are modelled by a heap `Addr → ObjData` (an address plays the
role of Python object identity; distinct addresses are distinct Python
objects).  Domain-object ids (`DomainObject.id()`), which are strings in the
source, are modelled as naturals, as are device guids and attribute values.
Python dictionaries are modelled either as functions to `Option` or as
association lists; a failed `dict[...]` access (Python `KeyError`) or a failed
`list.remove` (Python `ValueError`) is modelled by an error flag `err` on the
synchronizer state: once set, all further operations are skipped, which
models the exception propagating out of `sync`.
-/

namespace TaskCoach

/-- Domain-object identifier: the value of `DomainObject.id()`. -/
abbrev OId := Nat

/-- Heap address: Python object identity. -/
abbrev Addr := Nat

/-- Device guid. -/
abbrev Guid := Nat

/-- Association-list lookup (model of Python `dict.get(k)` /  `k in d`). -/
def alGet {α β : Type} [DecidableEq α] : List (α × β) → α → Option β
  | [], _ => none
  | (k, v) :: t, k2 => if k2 = k then some v else alGet t k2

/-- Association-list update (model of Python `d[k] = v`: replace in place or
append). -/
def alPut {α β : Type} [DecidableEq α] : List (α × β) → α → β → List (α × β)
  | [], k, v => [(k, v)]
  | (k1, v1) :: t, k, v => if k1 = k then (k, v) :: t else (k1, v1) :: alPut t k v

/-- Association-list deletion (model of Python `del d[k]`; the `KeyError` on a
missing key is checked by callers). -/
def alDel {α β : Type} [DecidableEq α] (l : List (α × β)) (k : α) : List (α × β) :=
  l.filter (fun p => decide (p.1 ≠ k))

/-- Functional map used for the four id→object dicts of the synchronizer. -/
def mput (m : OId → Option Addr) (k : OId) (v : Addr) : OId → Option Addr :=
  fun k2 => if k2 = k then some v else m k2

/-- Remove a key from a functional map (`del d[k]`). -/
def mdel (m : OId → Option Addr) (k : OId) : OId → Option Addr :=
  fun k2 => if k2 = k then none else m k2

/-- The kind of a domain object.  The five domain classes that take part in
the merge: categories, tasks and notes are the composite classes handled by
the three list pairs; attachments and efforts are non-composite. -/
inductive ObjKind
  | category
  | task
  | note
  | attachment
  | effort
deriving DecidableEq, Repr

/-- `isinstance(obj, CompositeObject)`.  Modelled from the spec: the domain
classes themselves (`taskcoachlib/domain/{category,task,note}`) are not among
the sources; per the spec, tasks, categories and notes are composite tree
objects and attachments and efforts are not. -/
def isComposite : ObjKind → Bool
  | .category => true
  | .task => true
  | .note => true
  | _ => false

/-- `isinstance(obj, NoteOwner)`.  Modelled from the spec: owned collections
of notes belong to tasks, categories and attachments. -/
def isNoteOwner : ObjKind → Bool
  | .task => true
  | .category => true
  | .attachment => true
  | _ => false

/-- `isinstance(obj, AttachmentOwner)`.  Modelled from the spec: owned
collections of attachments belong to tasks, categories and notes. -/
def isAttachmentOwner : ObjKind → Bool
  | .task => true
  | .category => true
  | .note => true
  | _ => false

/-- The state of one domain object (the fields of the Python object that the
synchronizer touches).  `parent` is the composite back-reference, `children`
the composite child list (`Composite.__children`), `notes`/`attachments`/
`efforts` the owned collections, `attrs` the named scalar attributes accessed
through the `getter`/`set<Name>` convention, `categories`/`categorizables`
the two ends of the category link, and `expanded` the UI expansion state. -/
structure ObjData where
  oid : OId := 0
  kind : ObjKind := .task
  parent : Option Addr := none
  children : List Addr := []
  notes : List Addr := []
  attachments : List Addr := []
  efforts : List Addr := []
  attrs : List (String × Nat) := []
  categories : List Addr := []
  categorizables : List Addr := []
  expanded : Bool := false
deriving DecidableEq, Repr

/-- The heap: total map from addresses to object states.  Python dereferences
of live objects never fail, so the heap is total; addresses that are never
reached from the input graphs are irrelevant junk. -/
abbrev Heap := Addr → ObjData

/-- Update one object in the heap. -/
def hupd (h : Heap) (a : Addr) (f : ObjData → ObjData) : Heap :=
  fun b => if b = a then f (h b) else h b

/-- `getattr(obj, name)()`: read a named scalar attribute (a missing name
reads as `0`; the source's objects always define the attributes that appear
in change sets). -/
def getAttr (o : ObjData) (name : String) : Nat :=
  (alGet o.attrs name).getD 0

/-- `getattr(obj, 'set' + Name)(v)`: write a named scalar attribute. -/
def setAttr (o : ObjData) (name : String) (v : Nat) : ObjData :=
  { o with attrs := alPut o.attrs name v }

/-- Insert a name into a change set (Python `set.add`; sets are determinized
as duplicate-free lists in insertion order). -/
def insName (s : List String) (n : String) : List String :=
  if n ∈ s then s else s ++ [n]

/-- Modelled from the spec: the `ChangeMonitor` class
(`taskcoachlib/changes/monitor.py`) is not among the sources, only its
callers are.  Per spec §4.1 a monitor owns a device guid and a ChangeSet
mapping object ids to sets of changed attribute names; `getChanges` yields
`None` for an untouched id. -/
structure ChangeMonitor where
  mguid : Guid := 0
  entries : List (OId × List String) := []
deriving DecidableEq, Repr

/-- `monitor.getChanges(obj)` keyed by the object's id (spec §4.1: a missing
id yields `None`, not an error). -/
def ChangeMonitor.getCh (m : ChangeMonitor) (i : OId) : Option (List String) :=
  alGet m.entries i

/-- `monitor.addChange(obj, name)`: record one changed attribute name. -/
def ChangeMonitor.addCh (m : ChangeMonitor) (i : OId) (n : String) : ChangeMonitor :=
  { m with entries := alPut m.entries i (insName ((alGet m.entries i).getD []) n) }

/-- Union of two change sets with `__del__` dominating (spec §4.1: if either
side marks deleted, the merged record is deletion-only). -/
def mergeSets (a b : List String) : List String :=
  if "__del__" ∈ a ∨ "__del__" ∈ b then ["__del__"] else b.foldl insName a

/-- One entry of a monitor merge: union the entry's set into the
accumulator's record for that id, `__del__` dominating. -/
def mstep (acc : ChangeMonitor) (p : OId × List String) : ChangeMonitor :=
  { acc with entries := alPut acc.entries p.1 (mergeSets ((alGet acc.entries p.1).getD []) p.2) }

/-- `self.merge(other)`: union the other monitor's ChangeSet into this one,
per-id, with `__del__` dominating (spec §4.1). -/
def ChangeMonitor.merge (self other : ChangeMonitor) : ChangeMonitor :=
  other.entries.foldl mstep self

/-- `monitor.empty()`: clear the whole change table. -/
def ChangeMonitor.emptyCh (m : ChangeMonitor) : ChangeMonitor :=
  { m with entries := [] }

/-- `monitor.resetChanges(obj)`: clear one object's record (spec §4.1). -/
def ChangeMonitor.resetCh (m : ChangeMonitor) (i : OId) : ChangeMonitor :=
  { m with entries := alDel m.entries i }

example : (ChangeMonitor.mk 3 []).addCh 7 "subject" =
    ChangeMonitor.mk 3 [(7, ["subject"])] := by decide

example :
    (ChangeMonitor.mk 1 [(7, ["subject"])]).merge
      (ChangeMonitor.mk 2 [(7, ["__del__"]), (8, ["font"])]) =
    ChangeMonitor.mk 1 [(7, ["__del__"]), (8, ["font"])] := by decide

/-! ## The composite layer (`patterns/composite.py`)

Recursive traversals over the heap graph take a `fuel` argument bounding the
recursion depth; the Python recursions terminate exactly when the composite
graph is acyclic, and every theorem below supplies (or hypothesises) enough
fuel for the graphs involved. -/

/-- `Composite.children(recursive=True)`: the direct children followed by
each child's recursive children, in child order. -/
def childrenRec (h : Heap) : Nat → Addr → List Addr
  | 0, _ => []
  | fuel + 1, a => (h a).children ++ (h a).children.flatMap (childrenRec h fuel)

/-- `CompositeCollection.rootItems()`: members whose parent is `None` or not
itself a member. -/
def rootItems (h : Heap) (coll : List Addr) : List Addr :=
  coll.filter fun a =>
    match (h a).parent with
    | none => true
    | some p => decide (p ∉ coll)

/-- `CompositeCollection.allItemsSorted()`: every root item followed by its
recursive children (parents before descendants). -/
def allItemsSorted (h : Heap) (fuel : Nat) (coll : List Addr) : List Addr :=
  (rootItems h coll).flatMap fun a => a :: childrenRec h fuel a

/-- `child.setParent(parent)`. -/
def setParentH (h : Heap) (c : Addr) (p : Option Addr) : Heap :=
  hupd h c fun o => { o with parent := p }

/-- `parent.addChild(child)`: append to the child list, then set the child's
parent back-reference (`Composite.addChild`). -/
def addChildH (h : Heap) (p c : Addr) : Heap :=
  setParentH (hupd h p fun o => { o with children := o.children ++ [c] }) c (some p)

/-- `parent.removeChild(child)`: `list.remove` on the child list; `none`
models the `ValueError` raised when the child is absent
(`Composite.removeChild` does not reset the child's parent pointer). -/
def removeChildH (h : Heap) (p c : Addr) : Option Heap :=
  if c ∈ (h p).children then
    some (hupd h p fun o => { o with children := o.children.erase c })
  else
    none

/-- The loop `for child in obj.children(): obj.removeChild(child)`
(`sync.py` pass 1 and pass 2).  `children()` returns the live list
(`Composite.children` returns `self.__children` itself), so removing while
iterating advances the iteration index over the shrinking list and only every
other child is detached.  This simulates that loop faithfully: at step `i`
the element at index `i` of the current list is removed (its first
occurrence), then the index advances.  The first argument is recursion fuel;
callers pass the initial list length, which bounds the number of loop steps,
so the fuel never runs out. -/
def detachIter : Nat → List Addr → Nat → List Addr
  | 0, l, _ => l
  | f + 1, l, i =>
      if hlt : i < l.length then detachIter f (l.erase (l.get ⟨i, hlt⟩)) (i + 1)
      else l

example : detachIter 4 [10, 20, 30, 40] 0 = [20, 40] := by decide

/-- `CompositeCollection.append(obj)` (`extend([obj])`): add the object and
its recursive children to the membership (a set: duplicates ignored), then
`_addCompositesToParent`: if the object's parent is a member and the object
is not among the parent's children, `parent.addChild(obj)`. -/
def collAppend (h : Heap) (fuel : Nat) (ml : List Addr) (a : Addr) :
    Heap × List Addr :=
  let ml2 := (a :: childrenRec h fuel a).foldl
    (fun acc x => if x ∈ acc then acc else acc ++ [x]) ml
  match (h a).parent with
  | some p =>
      if p ∈ ml2 ∧ a ∉ (h p).children then (addChildH h p a, ml2) else (h, ml2)
  | none => (h, ml2)

/-- `CompositeCollection.remove(obj)`: if the object is a member, remove it
and its recursive children from the membership, then
`_removeCompositesFromParent`: if it has a parent, `parent.removeChild(obj)`
(which raises `ValueError`, modelled by the `Bool` flag, when the object is
not among the parent's children). -/
def collRemove (h : Heap) (fuel : Nat) (ml : List Addr) (a : Addr) :
    Heap × List Addr × Bool :=
  if a ∈ ml then
    let items := a :: childrenRec h fuel a
    let ml2 := ml.filter fun x => decide (x ∉ items)
    match (h a).parent with
    | some p =>
        match removeChildH h p a with
        | some h2 => (h2, ml2, false)
        | none => (h, ml2, true)
    | none => (h, ml2, false)
  else
    (h, ml, false)

/-- `ChangeSynchronizer.allObjects` restricted to one object: the object,
its composite children closure, its notes closure, its attachments closure,
and (for a task) its efforts. -/
def allObjA (h : Heap) : Nat → Addr → List Addr
  | 0, a => [a]
  | fuel + 1, a =>
      let o := h a
      a ::
        ((if isComposite o.kind then o.children.flatMap (allObjA h fuel) else []) ++
          (if isNoteOwner o.kind then o.notes.flatMap (allObjA h fuel) else []) ++
          (if isAttachmentOwner o.kind then o.attachments.flatMap (allObjA h fuel) else []) ++
          (if o.kind = .task then o.efforts else []))

/-- `ChangeSynchronizer.allObjects(theList)`. -/
def allObjects (h : Heap) (fuel : Nat) (l : List Addr) : List Addr :=
  l.flatMap (allObjA h fuel)

/-! ## `ChangeSynchronizer` (`changes/sync.py`) -/

/-- The synchronizer's per-`sync()` working state: the heap plus the four
id→object maps, the three monitors involved (`self._monitor`,
`self.diskChanges`, `self.conflictChanges`), and an error flag modelling an
uncaught Python exception (`KeyError`/`ValueError`): once set, every further
operation is skipped. -/
structure SyncSt where
  heap : Heap
  memMap : OId → Option Addr := fun _ => none
  diskMap : OId → Option Addr := fun _ => none
  memOwnerMap : OId → Option Addr := fun _ => none
  diskOwnerMap : OId → Option Addr := fun _ => none
  monitor : ChangeMonitor := {}
  diskCh : ChangeMonitor := {}
  conflictCh : ChangeMonitor := {}
  err : Bool := false

/-- `changes is not None and name in changes`. -/
def hasName (o : Option (List String)) (n : String) : Bool :=
  match o with
  | some s => decide (n ∈ s)
  | none => false

/-- `ChangeSynchronizer.mergeObjects.addIds` on one object: record the
object in the id map (and, when reached through a notes/attachments
collection, its owner in the owner map), then recurse into children (no
owner), notes and attachments (this object as owner) and, for tasks,
efforts (no owner). -/
def addIds1 (h : Heap) : Nat → Addr → Option Addr →
    ((OId → Option Addr) × (OId → Option Addr)) →
    ((OId → Option Addr) × (OId → Option Addr))
  | 0, _, _, maps => maps
  | fuel + 1, a, owner, maps =>
      let o := h a
      let idMap := mput maps.1 o.oid a
      let ownMap := match owner with
        | some w => mput maps.2 o.oid w
        | none => maps.2
      let maps1 := (idMap, ownMap)
      let maps2 := if isComposite o.kind then
          o.children.foldl (fun m c => addIds1 h fuel c none m) maps1
        else maps1
      let maps3 := if isNoteOwner o.kind then
          o.notes.foldl (fun m c => addIds1 h fuel c (some a) m) maps2
        else maps2
      let maps4 := if isAttachmentOwner o.kind then
          o.attachments.foldl (fun m c => addIds1 h fuel c (some a) m) maps3
        else maps3
      if o.kind = .task then
        o.efforts.foldl (fun m c => addIds1 h fuel c none m) maps4
      else maps4

/-- One iteration of pass 1 (`mergeCompositeObjects`): a disk object whose
id is absent from `memMap` and not locally deleted is spliced into the mem
tree: its children are detached by the iterate-while-remove loop, it is
attached under the mem equivalent of its disk parent when that exists,
otherwise made top-level with a `__parent__` conflict; then appended to the
mem list and registered in `memMap`. -/
def pass1Step (fuel : Nat) : SyncSt × List Addr → Addr → SyncSt × List Addr :=
  fun (st, ml) a =>
    if st.err then (st, ml) else
    let o := st.heap a
    let memCh := st.monitor.getCh o.oid
    let deleted := hasName memCh "__del__"
    if (st.memMap o.oid).isNone && !deleted then
      let st1 :=
        if isComposite o.kind then
          let h1 := hupd st.heap a fun ob => { ob with children := detachIter ob.children.length ob.children 0 }
          match (h1 a).parent with
          | some p =>
              match st.memMap ((h1 p).oid) with
              | some mp => { st with heap := setParentH (addChildH h1 mp a) a (some mp) }
              | none =>
                  { st with heap := setParentH h1 a none,
                            conflictCh := st.conflictCh.addCh o.oid "__parent__" }
          | none => { st with heap := h1 }
        else st
      let hm := collAppend st1.heap fuel ml a
      ({ st1 with heap := hm.1, memMap := mput st1.memMap o.oid a }, hm.2)
    else (st, ml)

/-- Pass 1 (`mergeCompositeObjects`): iterate over a snapshot of
`diskList.allItemsSorted()`. -/
def mergeCompositeObjects (fuel : Nat) (st : SyncSt) (ml dl : List Addr) :
    SyncSt × List Addr :=
  (allItemsSorted st.heap fuel dl).foldl (pass1Step fuel) (st, ml)

/-- `getattr(owner, 'add%s' % className)(obj)`: attachment subclasses are
normalized to `Attachment`, everything else reaching this call is a note.
Modelled from the spec: the NoteOwner/AttachmentOwner mixins are not among
the sources; adding appends to the owner's owned collection. -/
def addOwnedH (h : Heap) (w x : Addr) : Heap :=
  if (h x).kind = .attachment then
    hupd h w fun o => { o with attachments := o.attachments ++ [x] }
  else
    hupd h w fun o => { o with notes := o.notes ++ [x] }

/-- `getattr(owner, 'remove%s' % className)(obj)`.  Modelled from the spec:
removes the object from the owner's owned collection. -/
def removeOwnedH (h : Heap) (w x : Addr) : Heap :=
  if (h x).kind = .attachment then
    hupd h w fun o => { o with attachments := o.attachments.erase x }
  else
    hupd h w fun o => { o with notes := o.notes.erase x }

/-- `while parent.parent() is not None: parent = parent.parent()`. -/
def climbTop (h : Heap) : Nat → Addr → Addr
  | 0, p => p
  | fuel + 1, p =>
      match (h p).parent with
      | none => p
      | some q => climbTop h fuel q

/-- One object of pass 2 (`_handleNewOwnedObjectsOnDisk`): splice a disk
note/attachment that is new on disk and not locally deleted onto its mem
owner (or mem parent), recording `__owner__`/`__del__` conflicts as in the
source, then recurse into its pre-detach children snapshot, notes and
attachments when its id made it into `memMap`. -/
def handleNO1 : Nat → SyncSt → Addr → SyncSt
  | 0, st, _ => st
  | fuel + 1, st, a =>
    if st.err then st else
    let o := st.heap a
    let snapChildren := o.children
    let memCh := st.monitor.getCh o.oid
    let deleted := hasName memCh "__del__"
    let st1 : SyncSt :=
      if (st.memMap o.oid).isNone && !deleted then
        if isComposite o.kind then
          let h1 := hupd st.heap a fun ob => { ob with children := detachIter ob.children.length ob.children 0 }
          match (h1 a).parent with
          | some p =>
              match st.memMap ((h1 p).oid) with
              | some mp =>
                  { st with heap := setParentH (addChildH h1 mp a) a (some mp),
                            memMap := mput st.memMap o.oid a }
              | none =>
                  let h2 := setParentH h1 a none
                  let top := climbTop h2 fuel p
                  match st.diskOwnerMap ((h2 top).oid) with
                  | none => { st with heap := h2, err := true }
                  | some dOwner =>
                      match st.memMap ((h2 dOwner).oid) with
                      | some mOwner =>
                          { st with heap := addOwnedH h2 mOwner a,
                                    conflictCh := st.conflictCh.addCh o.oid "__owner__",
                                    memOwnerMap := mput st.memOwnerMap o.oid mOwner,
                                    memMap := mput st.memMap o.oid a }
                      | none => { st with heap := h2, memMap := mput st.memMap o.oid a }
          | none =>
              match st.diskOwnerMap o.oid with
              | none => { st with heap := h1, err := true }
              | some dOwner =>
                  match st.memMap ((h1 dOwner).oid) with
                  | some mOwner =>
                      { st with heap := addOwnedH h1 mOwner a,
                                memOwnerMap := mput st.memOwnerMap o.oid mOwner,
                                memMap := mput st.memMap o.oid a }
                  | none =>
                      { st with heap := h1,
                                conflictCh := st.conflictCh.addCh o.oid "__del__" }
        else
          match st.diskOwnerMap o.oid with
          | none => { st with err := true }
          | some dOwner =>
              match st.memMap ((st.heap dOwner).oid) with
              | some mOwner =>
                  { st with heap := addOwnedH st.heap mOwner a,
                            memOwnerMap := mput st.memOwnerMap o.oid mOwner,
                            memMap := mput st.memMap o.oid a }
              | none =>
                  { st with conflictCh := st.conflictCh.addCh o.oid "__del__" }
      else st
    if st1.err then st1 else
    if (st1.memMap o.oid).isSome then
      let st2 := if isComposite o.kind then
          snapChildren.foldl (fun s c => handleNO1 fuel s c) st1
        else st1
      let st3 := if isNoteOwner o.kind then
          ((st2.heap a).notes).foldl (fun s c => handleNO1 fuel s c) st2
        else st2
      if isAttachmentOwner o.kind then
        ((st3.heap a).attachments).foldl (fun s c => handleNO1 fuel s c) st3
      else st3
    else st1

/-- `effort.setTask(task)`.  Modelled from the spec (the `Effort` class is
not among the sources): reassigns the effort's owning task, unlinking it
from the previous task's effort list and appending it to the new one. -/
def setTaskH (h : Heap) (e t : Addr) : Heap :=
  let h1 := match (h e).parent with
    | some old => hupd h old fun o => { o with efforts := o.efforts.erase e }
    | none => h
  setParentH (hupd h1 t fun o => { o with efforts := o.efforts ++ [e] }) e (some t)

/-- One effort of `_handleNewEffortsOnDisk`: a disk effort new on disk and
not locally deleted is re-pointed at the mem equivalent of its task when
that exists, otherwise recorded as a `__del__` conflict and forgotten. -/
def handleNE1 (st : SyncSt) (e : Addr) : SyncSt :=
  if st.err then st else
  let o := st.heap e
  let memCh := st.monitor.getCh o.oid
  let deleted := hasName memCh "__del__"
  if (st.memMap o.oid).isNone && !deleted then
    match o.parent with
    | none => { st with err := true }
    | some dt =>
        match st.memMap ((st.heap dt).oid) with
        | some mt =>
            { st with heap := setTaskH st.heap e mt,
                      memMap := mput st.memMap o.oid e }
        | none => { st with conflictCh := st.conflictCh.addCh o.oid "__del__" }
  else st

/-- One iteration of pass 2 (`mergeOwnedObjectsFromDisk`): handle the disk
object's notes, attachments and efforts collections. -/
def pass2Step (fuel : Nat) (st : SyncSt) (a : Addr) : SyncSt :=
  if st.err then st else
  let k := (st.heap a).kind
  let st1 := if isNoteOwner k then
      ((st.heap a).notes).foldl (fun s c => handleNO1 fuel s c) st
    else st
  let st2 := if isAttachmentOwner k then
      ((st1.heap a).attachments).foldl (fun s c => handleNO1 fuel s c) st1
    else st1
  if k = .task then
    ((st2.heap a).efforts).foldl handleNE1 st2
  else st2

/-- Pass 2 (`mergeOwnedObjectsFromDisk`): iterate over a fresh snapshot of
`diskList.allItemsSorted()`. -/
def mergeOwnedObjectsFromDisk (fuel : Nat) (st : SyncSt) (dl : List Addr) : SyncSt :=
  (allItemsSorted st.heap fuel dl).foldl (pass2Step fuel) st

/-- `sameParents(a, b)` of `reparentObjects`: both `None`, or equal ids. -/
def sameParentsB (h : Heap) : Option Addr → Option Addr → Bool
  | none, none => true
  | none, some _ => false
  | some _, none => false
  | some x, some y => decide ((h x).oid = (h y).oid)

/-- One iteration of pass 3 (`reparentObjects`): for a disk object whose
disk change set contains `__parent__`, remove the mem equivalent from the
mem list (which already unlinks it from its parent via
`_removeCompositesFromParent`), compute the (unused) `parentConflict` flag,
unlink it from its parent again — a `ValueError` when the collection removal
already unlinked it — then reattach it under the mem equivalent of the disk
parent (recording a `__parent__` conflict only when that parent is missing
from mem) and re-append it to the mem list.  The `parentConflict` and
non-conflict arms are syntactically identical in the source and are kept so
here. -/
def pass3Step (fuel : Nat) : SyncSt × List Addr → Addr → SyncSt × List Addr :=
  fun (st, ml) a =>
    if st.err then (st, ml) else
    let o := st.heap a
    match st.diskCh.getCh o.oid with
    | none => (st, ml)
    | some dch =>
      if "__parent__" ∈ dch then
        let memCh := st.monitor.getCh o.oid
        match st.memMap o.oid with
        | none => ({ st with err := true }, ml)
        | some mo =>
          let rm := collRemove st.heap fuel ml mo
          if rm.2.2 then ({ st with heap := rm.1, err := true }, rm.2.1) else
          let h1 := rm.1
          let ml1 := rm.2.1
          let parentConflict :=
            hasName memCh "__parent__" && !(sameParentsB h1 ((h1 mo).parent) ((h1 a).parent))
          let step2 : Option Heap :=
            match (h1 mo).parent with
            | some pp => removeChildH h1 pp mo
            | none => some h1
          match step2 with
          | none => ({ st with heap := h1, err := true }, ml1)
          | some h2 =>
            let res : SyncSt × Heap :=
              if parentConflict then
                match (h2 a).parent with
                | none => (st, setParentH h2 mo none)
                | some dp =>
                    match st.memMap ((h2 dp).oid) with
                    | some mp => (st, setParentH (addChildH h2 mp mo) mo (some mp))
                    | none =>
                        ({ st with conflictCh := st.conflictCh.addCh ((h2 mo).oid) "__parent__" },
                          setParentH h2 mo none)
              else
                match (h2 a).parent with
                | none => (st, setParentH h2 mo none)
                | some dp =>
                    match st.memMap ((h2 dp).oid) with
                    | some mp => (st, setParentH (addChildH h2 mp mo) mo (some mp))
                    | none =>
                        ({ st with conflictCh := st.conflictCh.addCh ((h2 mo).oid) "__parent__" },
                          setParentH h2 mo none)
            let ap := collAppend res.2 fuel ml1 mo
            ({ res.1 with heap := ap.1 }, ap.2)
      else (st, ml)

/-- Pass 3 (`reparentObjects`): iterate over a snapshot of
`self.allObjects(diskList)`. -/
def reparentObjects (fuel : Nat) (st : SyncSt) (ml dl : List Addr) :
    SyncSt × List Addr :=
  (allObjects st.heap fuel dl).foldl (pass3Step fuel) (st, ml)

/-- One iteration of pass 4 (`deletedObjects`): a mem object whose disk
change set contains `__del__` is removed from the mem list and from
`memMap` (and from `memOwnerMap` when present there), local changes
notwithstanding. -/
def pass4Step (fuel : Nat) : SyncSt × List Addr → Addr → SyncSt × List Addr :=
  fun (st, ml) mo =>
    if st.err then (st, ml) else
    let o := st.heap mo
    match st.diskCh.getCh o.oid with
    | none => (st, ml)
    | some dch =>
      if "__del__" ∈ dch then
        let rm := collRemove st.heap fuel ml mo
        if rm.2.2 then ({ st with heap := rm.1, err := true }, rm.2.1) else
        if (st.memMap o.oid).isNone then ({ st with heap := rm.1, err := true }, rm.2.1) else
        let st1 := { st with heap := rm.1, memMap := mdel st.memMap o.oid }
        let st2 := if (st1.memOwnerMap o.oid).isSome then
            { st1 with memOwnerMap := mdel st1.memOwnerMap o.oid }
          else st1
        (st2, rm.2.1)
      else (st, ml)

/-- Pass 4 (`deletedObjects`): iterate over a snapshot of
`memList.allItemsSorted()`. -/
def deletedObjects (fuel : Nat) (st : SyncSt) (ml : List Addr) :
    SyncSt × List Addr :=
  (allItemsSorted st.heap fuel ml).foldl (pass4Step fuel) (st, ml)

/-- An iteration source of `_handleOwnedObjectsRemovedFromDisk`: either a
materialized list (the snapshots returned by the owned-collection accessors,
modelled from the spec) or the live `children` list of a composite object
(`Composite.children` returns the underlying list itself, so removals during
the iteration shrink the iterated list). -/
inductive IterSrc
  | snap (l : List Addr)
  | liveChildren (a : Addr)

/-- The list an `IterSrc` currently denotes. -/
def srcList (h : Heap) : IterSrc → List Addr
  | .snap l => l
  | .liveChildren a => (h a).children

/-- `if cond: state = f(state)` — used to keep the intermediate states of
the pass-5 loop linear in size. -/
def condStep (c : Bool) (f : SyncSt → SyncSt) (st : SyncSt) : SyncSt :=
  if c then f st else st

/-- The deletion check at the end of one `_handleOwnedObjectsRemovedFromDisk`
iteration: when the disk change set of the object (of kind `k`) contains
`__del__`, unlink it from its parent (for a parented composite: look the
parent up in `memMap` and `removeChild`, a `ValueError`/`KeyError` being an
error) or from its owner (via `memOwnerMap`), then delete its id from
`memMap`. -/
def handleORDel (st3 : SyncSt) (k : ObjKind) (mo : Addr) : SyncSt :=
  if st3.err then st3 else
  match st3.diskCh.getCh ((st3.heap mo).oid) with
  | none => st3
  | some dch =>
    if "__del__" ∈ dch then
      let oid := (st3.heap mo).oid
      let unlinked : SyncSt :=
        if isComposite k then
          match (st3.heap mo).parent with
          | none =>
              match st3.memOwnerMap oid with
              | none => { st3 with err := true }
              | some w => { st3 with heap := removeOwnedH st3.heap w mo }
          | some pp =>
              match st3.memMap ((st3.heap pp).oid) with
              | none => { st3 with err := true }
              | some mp =>
                  match removeChildH st3.heap mp mo with
                  | none => { st3 with err := true }
                  | some h4 => { st3 with heap := h4 }
        else
          match st3.memOwnerMap oid with
          | none => { st3 with err := true }
          | some w => { st3 with heap := removeOwnedH st3.heap w mo }
      if unlinked.err then unlinked else
      if (unlinked.memMap oid).isNone then { unlinked with err := true }
      else { unlinked with memMap := mdel unlinked.memMap oid }
    else st3

/-- The `for memObject in memObjects:` loop of
`_handleOwnedObjectsRemovedFromDisk`, iterated by index over the current
value of the source list (so removals from a live children list during the
loop skip the following element, as in Python).  The body of the loop for
one mem object first recurses into its children (live list), notes and
attachments, then runs the `__del__` check (`handleORDel`).  The fuel bounds
the total number of loop steps and recursion levels; callers supply enough
for the graphs involved. -/
def handleOR : Nat → SyncSt → IterSrc → Nat → SyncSt
  | 0, st, _, _ => st
  | f + 1, st, src, i =>
    if st.err then st else
    let l := srcList st.heap src
    if hi : i < l.length then
      let mo := l.get ⟨i, hi⟩
      let k := (st.heap mo).kind
      let st1 := condStep (isComposite k)
        (fun s => handleOR f s (.liveChildren mo) 0) st
      let st2 := condStep (isNoteOwner k)
        (fun s => handleOR f s (.snap ((s.heap mo).notes)) 0) st1
      let st3 := condStep (isAttachmentOwner k)
        (fun s => handleOR f s (.snap ((s.heap mo).attachments)) 0) st2
      handleOR f (handleORDel st3 k mo) src (i + 1)
    else st

/-- One effort of `_handleEffortsRemovedFromDisk`: an effort whose disk
change set contains `__del__` is removed from its task's effort list and its
id deleted from `memMap`. -/
def handleER1 (st : SyncSt) (e : Addr) : SyncSt :=
  if st.err then st else
  let o := st.heap e
  match st.diskCh.getCh o.oid with
  | none => st
  | some dch =>
    if "__del__" ∈ dch then
      match o.parent with
      | none => { st with err := true }
      | some pt =>
          match st.memMap ((st.heap pt).oid) with
          | none => { st with err := true }
          | some mt =>
              let h1 := hupd st.heap mt fun ob => { ob with efforts := ob.efforts.erase e }
              if (st.memMap o.oid).isNone then { st with heap := h1, err := true }
              else { st with heap := h1, memMap := mdel st.memMap o.oid }
    else st

/-- One iteration of pass 5 (`deletedOwnedObjects`): handle the mem object's
notes, attachments and efforts collections. -/
def pass5Step (fuel : Nat) (st : SyncSt) (a : Addr) : SyncSt :=
  if st.err then st else
  let k := (st.heap a).kind
  let st1 := if isNoteOwner k then
      handleOR fuel st (.snap ((st.heap a).notes)) 0
    else st
  let st2 := if isAttachmentOwner k then
      handleOR fuel st1 (.snap ((st1.heap a).attachments)) 0
    else st1
  if k = .task then
    ((st2.heap a).efforts).foldl handleER1 st2
  else st2

/-- Pass 5 (`deletedOwnedObjects`): iterate over a fresh snapshot of
`memList.allItemsSorted()`. -/
def deletedOwnedObjects (fuel : Nat) (st : SyncSt) (ml : List Addr) : SyncSt :=
  (allItemsSorted st.heap fuel ml).foldl (pass5Step fuel) st

/-- Python set equality for the category comparison of `applyChanges`. -/
def sameSetB (a b : List Addr) : Bool :=
  decide (∀ x ∈ a, x ∈ b) && decide (∀ x ∈ b, x ∈ a)

/-- `addCategory`/`addCategorizable` insert into a set: add if absent.
Modelled from the spec (the categorizable classes are not among the
sources). -/
def insAddr (l : List Addr) (x : Addr) : List Addr :=
  if x ∈ l then l else l ++ [x]

/-- One changed attribute name of pass 6 (`applyChanges`) applied to the mem
object `mo` from the disk object `dObj`: `__parent__` was already handled;
`__categories__` resolves the disk categories through `memMap` (a missing one
is a `KeyError`) and either records a conflict or rewrites the category
links; `appearance` records a single `appearance` conflict whenever the
local change set also contains it (the per-sub-attribute `conflicts` list is
only printed by the source's `XXXTODO` debug path), otherwise copies the five
sub-attributes; `expandedContexts` copies the expansion state without
conflict tracking; every other name is conflict-checked against the local
change set and the current values, and applied through the setter when not
in conflict. -/
def applyOne (mo dObj : Addr) (memCh : Option (List String)) (st : SyncSt)
    (changeName : String) : SyncSt :=
  if st.err then st else
  let oid := (st.heap mo).oid
  if changeName = "__parent__" then st
  else if changeName = "__categories__" then
    let resolved := ((st.heap dObj).categories).map fun c => st.memMap ((st.heap c).oid)
    if resolved.any (fun r => r.isNone) then { st with err := true }
    else
      let diskCats := resolved.reduceOption
      if hasName memCh "__categories__" && !(sameSetB diskCats ((st.heap mo).categories)) then
        { st with conflictCh := st.conflictCh.addCh oid "__categories__" }
      else
        let h1 := ((st.heap mo).categories).foldl
          (fun h c =>
            hupd (hupd h c fun o => { o with categorizables := o.categorizables.erase mo })
              mo fun o => { o with categories := o.categories.erase c })
          st.heap
        let h2 := diskCats.foldl
          (fun h c =>
            hupd (hupd h c fun o => { o with categorizables := insAddr o.categorizables mo })
              mo fun o => { o with categories := insAddr o.categories c })
          h1
        { st with heap := h2 }
  else if changeName = "appearance" then
    if hasName memCh "appearance" then
      { st with conflictCh := st.conflictCh.addCh oid "appearance" }
    else
      let attrNames := ["foregroundColor", "backgroundColor", "font", "icon", "selectedIcon"]
      let h2 := attrNames.foldl
        (fun h n => hupd h mo fun o => setAttr o n (getAttr (h dObj) n)) st.heap
      { st with heap := h2 }
  else if changeName = "expandedContexts" then
    { st with heap := hupd st.heap mo fun o => { o with expanded := (st.heap dObj).expanded } }
  else
    if hasName memCh changeName &&
        decide (getAttr (st.heap mo) changeName ≠ getAttr (st.heap dObj) changeName) then
      { st with conflictCh := st.conflictCh.addCh oid changeName }
    else
      { st with heap := hupd st.heap mo fun o =>
          setAttr o changeName (getAttr (st.heap dObj) changeName) }

/-- One mem object of pass 6 (`applyChanges`): when its disk change set is
nonempty, fold `applyOne` over the changed names (the disk object is looked
up in `diskMap`; a missing entry is a `KeyError`). -/
def pass6Step (st : SyncSt) (mo : Addr) : SyncSt :=
  if st.err then st else
  let o := st.heap mo
  match st.diskCh.getCh o.oid with
  | none => st
  | some dch =>
    if dch = [] then st
    else
      let memCh := st.monitor.getCh o.oid
      match st.diskMap o.oid with
      | none => { st with err := true }
      | some dObj => dch.foldl (applyOne mo dObj memCh) st

/-- Pass 6 (`applyChanges`): iterate over a snapshot of
`self.allObjects(memList.rootItems())`. -/
def applyChanges (fuel : Nat) (st : SyncSt) (ml : List Addr) : SyncSt :=
  (allObjects st.heap fuel (rootItems st.heap ml)).foldl pass6Step st

/-- `ChangeSynchronizer.mergeObjects` for one (memList, diskList) pair:
build the four id maps with `addIds`, then run the six passes; returns the
updated state and the updated mem list. -/
def mergeObjects (fuel : Nat) (st : SyncSt) (ml dl : List Addr) :
    SyncSt × List Addr :=
  let mm := ml.foldl (fun m a => addIds1 st.heap fuel a none m) (st.memMap, st.memOwnerMap)
  let dm := dl.foldl (fun m a => addIds1 st.heap fuel a none m) (st.diskMap, st.diskOwnerMap)
  let st0 := { st with memMap := mm.1, memOwnerMap := mm.2,
                       diskMap := dm.1, diskOwnerMap := dm.2 }
  let p1 := mergeCompositeObjects fuel st0 ml dl
  let st2 := mergeOwnedObjectsFromDisk fuel p1.1 dl
  let p3 := reparentObjects fuel st2 p1.2 dl
  let p4 := deletedObjects fuel p3.1 p3.2
  let st5 := deletedOwnedObjects fuel p4.1 p4.2
  let st6 := applyChanges fuel st5 p4.2
  (st6, p4.2)

/-- The result of `ChangeSynchronizer.sync`: final synchronizer state, the
merged (memList, diskList) pairs, and the final `allChanges` table (the
other devices' monitors with the local and conflict changes merged in,
followed by the local device's entry, which aliases `self._monitor`). -/
structure SyncResult where
  st : SyncSt
  pairs : List (List Addr × List Addr)
  table : List (Guid × ChangeMonitor)

/-- One pair of the `for memList, diskList in lists:` merge loop; an error
(uncaught exception) leaves the remaining pairs untouched. -/
def mergePairStep (fuel : Nat) (acc : SyncSt × List (List Addr × List Addr))
    (pr : List Addr × List Addr) : SyncSt × List (List Addr × List Addr) :=
  if acc.1.err then (acc.1, acc.2 ++ [pr])
  else
    let r := mergeObjects fuel acc.1 pr.1 pr.2
    (r.1, acc.2 ++ [(r.2, pr.2)])

/-- `self._monitor.resetChanges(obj)` for one object of the cleanup loop. -/
def resetObjStep (s2 : SyncSt) (a : Addr) : SyncSt :=
  { s2 with monitor := s2.monitor.resetCh ((s2.heap a).oid) }

/-- The cleanup loop body for one pair: reset the monitor for every object
reachable from `memList.rootItems()`. -/
def resetPairStep (fuel : Nat) (s : SyncSt) (pr : List Addr × List Addr) : SyncSt :=
  (allObjects s.heap fuel (rootItems s.heap pr.1)).foldl resetObjStep s

/-- The merge loop of `sync` followed by the monitor cleanup: returns the
final synchronizer state and the merged pairs. -/
def syncCore (fuel : Nat) (st0 : SyncSt)
    (pairs : List (List Addr × List Addr)) :
    SyncSt × List (List Addr × List Addr) :=
  let res := pairs.foldl (mergePairStep fuel) (st0, [])
  let st2 := if res.1.err then res.1 else { res.1 with monitor := res.1.monitor.emptyCh }
  let st3 := if st2.err then st2 else res.2.foldl (resetPairStep fuel) st2
  (st3, res.2)

/-- `ChangeSynchronizer.sync(lists)`: pick this device's disk change set out
of the table (a fresh empty monitor when absent), merge the local monitor
into every other device's entry, run `mergeObjects` on every list pair, then
empty the local monitor and reset it for every object reachable from the
merged mem lists, and merge the computed conflict changes into every other
device's entry.  An uncaught exception (`err`) aborts the remaining steps,
as in Python. -/
def sync (fuel : Nat) (monitor : ChangeMonitor)
    (allChanges : List (Guid × ChangeMonitor)) (h : Heap)
    (pairs : List (List Addr × List Addr)) : SyncResult :=
  let diskCh := (alGet allChanges monitor.mguid).getD {}
  let others := (allChanges.filter fun p => decide (p.1 ≠ monitor.mguid)).map
    fun p => (p.1, p.2.merge monitor)
  let st0 : SyncSt := { heap := h, monitor := monitor, diskCh := diskCh }
  let core := syncCore fuel st0 pairs
  let othersFinal := if core.1.err then others
    else others.map fun p => (p.1, p.2.merge core.1.conflictCh)
  { st := core.1, pairs := core.2, table := othersFinal ++ [(monitor.mguid, core.1.monitor)] }

/-! ## Persistence layer (`persistence/taskfile.py`) -/

/-- Abstract filesystem: path → file contents, with contents abstracted to a
`Nat` token (`none` = file absent). -/
abbrev FS := String → Option Nat

/-- Write (create or overwrite) a file. -/
def fsPut (fs : FS) (p : String) (c : Nat) : FS :=
  fun q => if q = p then some c else fs q

/-- `os.remove`. -/
def fsDel (fs : FS) (p : String) : FS :=
  fun q => if q = p then none else fs q

/-- The externally visible filesystem states of one `SafeWriteFile`
lifetime writing `content` to `target`.  `cloud` is the Boolean outcome of
`_isCloud(os.path.dirname(filename))` (the marker-file search up the
directory tree is OS-level and not modelled; its result is taken as input),
and `tmp` the name produced by `_getTemporaryFileName` (a name that does not
exist yet).  The trace lists the filesystem after each step:
* non-cloud: after `open(temp, 'wb')` (creates the temp file), after the
  write, after `close`'s conditional `os.remove(target)` — the live file is
  removed *before* the rename — and after `os.rename(temp, target)`;
* cloud: after `open(filename, 'wb')` — which truncates the live file in
  place — and after the write (`close` renames nothing in this branch). -/
def safeWriteTrace (cloud : Bool) (target tmp : String) (content : Nat)
    (fs : FS) : List FS :=
  if cloud then
    let fs1 := fsPut fs target 0
    [fs1, fsPut fs1 target content]
  else
    let fs1 := fsPut fs tmp 0
    let fs2 := fsPut fs1 tmp content
    let fs3 := if (fs2 target).isSome then fsDel fs2 target else fs2
    let fs4 := fsDel (fsPut fs3 target ((fs3 tmp).getD 0)) tmp
    [fs1, fs2, fs3, fs4]

/-- The filesystem after a completed `SafeWriteFile` write+close (the last
state of `safeWriteTrace`). -/
def safeWriteFinal (cloud : Bool) (target tmp : String) (content : Nat)
    (fs : FS) : FS :=
  if cloud then
    fsPut (fsPut fs target 0) target content
  else
    let fs1 := fsPut fs tmp 0
    let fs2 := fsPut fs1 tmp content
    let fs3 := if (fs2 target).isSome then fsDel fs2 target else fs2
    fsDel (fsPut fs3 target ((fs3 tmp).getD 0)) tmp

/-- The `TaskFile` state components involved in load/save/merge. -/
structure TFState where
  filename : String := ""
  lastFilename : String := ""
  needSave : Bool := false
  changedOnDisk : Bool := false
  loading : Bool := false
  saving : Bool := false
  fs : FS

/-- `TaskFile.setFilename` (the notifier and pubsub messages carry no
state modelled here); `self.__lastFilename = filename or self.__filename`. -/
def setFilenameTF (s : TFState) (f : String) : TFState :=
  if f = s.filename then s
  else { s with lastFilename := if f = "" then s.filename else f, filename := f }

/-- `TaskFile.mergeDiskChanges`: when the main file exists, read it and run
the `ChangeSynchronizer` under a frozen monitor (the in-memory merge is the
`sync` model above; at this level only file effects matter, and the graph
merge has none); in either branch the `.delta` sidecar is then rewritten
through `SafeWriteFile` (`self._openForWrite('.delta')`) and the
changed-on-disk flag cleared.  `self.__needSave` is untouched throughout:
every dirty-marking event handler returns early while `self.__loading` (set
here for the whole call) or `self.__saving` is true. -/
def mergeDiskChangesTF (cloud : Bool) (tmpDelta : String) (deltaBytes : Nat)
    (s : TFState) : TFState :=
  let s1 := { s with loading := true }
  let s2 := { s1 with
    fs := safeWriteFinal cloud (s1.filename ++ ".delta") tmpDelta deltaBytes s1.fs }
  { s2 with changedOnDisk := false, loading := false }

/-- `TaskFile.save`: set the saving flag, run `mergeDiskChanges`, then write
the main data file through `SafeWriteFile` only when the file is dirty
(`self.__needSave`) or absent from disk; finally mark clean and clear the
saving flag. -/
def saveTF (cloud : Bool) (tmpDelta tmpMain : String) (deltaBytes mainBytes : Nat)
    (s : TFState) : TFState :=
  let s1 := { s with saving := true }
  let s2 := mergeDiskChangesTF cloud tmpDelta deltaBytes s1
  let s3 := if s2.needSave || (s2.fs s2.filename).isNone then
      { s2 with fs := safeWriteFinal cloud s2.filename tmpMain mainBytes s2.fs }
    else s2
  { s3 with needSave := false, saving := false }

/-- `TaskFile.load`: set the new filename when given; when the file exists,
read it — `readOk = false` models `self._read` raising (generic read/parse
failure or a format error), upon which the `except` clause resets the
filename to `""` and re-raises while the `finally` clause clears the loading
flag, marks the file clean and resets the changed-on-disk flag.  On success
the `.delta` sidecar is rewritten with a direct `open(..., 'wb')`; a missing
file initializes an empty graph.  Returns the final state and whether the
exception propagated. -/
def loadTF (readOk : Bool) (deltaBytes : Nat) (s : TFState)
    (newName : Option String) : TFState × Bool :=
  let s1 := { s with loading := true }
  let s2 := match newName with
    | some f => setFilenameTF s1 f
    | none => s1
  if (s2.fs s2.filename).isSome then
    if readOk then
      let s3 := { s2 with fs := fsPut s2.fs (s2.filename ++ ".delta") deltaBytes }
      ({ s3 with loading := false, needSave := false, changedOnDisk := false }, false)
    else
      let s3 := setFilenameTF s2 ""
      ({ s3 with loading := false, needSave := false, changedOnDisk := false }, true)
  else
    ({ s2 with loading := false, needSave := false, changedOnDisk := false }, false)

/-- The filename `load` reads from (after the optional `setFilename`). -/
def loadTarget (s : TFState) (nn : Option String) : String :=
  nn.getD s.filename

/-! ## Concrete worlds

Heaps are built from association lists; unlisted addresses hold the default
object and are never reached. -/

/-- Build a heap from an association list. -/
def hp (l : List (Addr × ObjData)) : Heap := fun a => (alGet l a).getD {}

/-- Reparent-conflict world (the C1 scenario): task X (id 100) sits under
P3 (id 300) in mem and under P2 (id 200) on disk; both sides recorded a
`__parent__` change for X, and P2 exists in mem. -/
def w1heap : Heap := hp
  [ (1, { oid := 100, kind := .task, parent := some 3 }),
    (2, { oid := 200, kind := .task }),
    (3, { oid := 300, kind := .task, children := [1] }),
    (11, { oid := 100, kind := .task, parent := some 12 }),
    (12, { oid := 200, kind := .task, children := [11] }),
    (13, { oid := 300, kind := .task }) ]

/-- Local monitor of the reparent-conflict world: mem moved X. -/
def w1mon : ChangeMonitor := { mguid := 7, entries := [(100, ["__parent__"])] }

/-- Change table of the reparent-conflict world: disk moved X too. -/
def w1all : List (Guid × ChangeMonitor) :=
  [ (7, { mguid := 7, entries := [(100, ["__parent__"])] }),
    (9, { mguid := 9, entries := [] }) ]

/-- The reparent-conflict world after `sync`. -/
def w1res : SyncResult := sync 10 w1mon w1all w1heap [([1, 2, 3], [11, 12, 13])]

/-- Expanded-contexts world (for C2): `expandedContexts` changed on both
sides, with different values (mem collapsed, disk expanded). -/
def w2heap : Heap := hp
  [ (4, { oid := 400, kind := .task, expanded := false }),
    (14, { oid := 400, kind := .task, expanded := true }) ]

/-- Local monitor of the expanded-contexts world. -/
def w2mon : ChangeMonitor := { mguid := 7, entries := [(400, ["expandedContexts"])] }

/-- Change table of the expanded-contexts world. -/
def w2all : List (Guid × ChangeMonitor) :=
  [ (7, { mguid := 7, entries := [(400, ["expandedContexts"])] }) ]

/-- The expanded-contexts world after `sync`. -/
def w2res : SyncResult := sync 10 w2mon w2all w2heap [([4], [14])]

/-- Sub-note deletion world (for C3): mem task (id 1000) owns note N
(id 1100) with two sub-notes n1 (id 1200) and n2 (id 1300); the disk side
deleted both sub-notes (they are absent from the disk graph and marked
`__del__` in the disk change set). -/
def w3heap : Heap := hp
  [ (31, { oid := 1000, kind := .task, notes := [32] }),
    (32, { oid := 1100, kind := .note, children := [33, 34] }),
    (33, { oid := 1200, kind := .note, parent := some 32 }),
    (34, { oid := 1300, kind := .note, parent := some 32 }),
    (41, { oid := 1000, kind := .task, notes := [42] }),
    (42, { oid := 1100, kind := .note }) ]

/-- Local monitor of the sub-note deletion world: no local changes. -/
def w3mon : ChangeMonitor := { mguid := 7, entries := [] }

/-- Change table of the sub-note deletion world. -/
def w3all : List (Guid × ChangeMonitor) :=
  [ (7, { mguid := 7, entries := [(1200, ["__del__"]), (1300, ["__del__"])] }) ]

/-- The sub-note deletion world after `sync`. -/
def w3res : SyncResult := sync 10 w3mon w3all w3heap [([31], [41])]

/-- Orphan world (for C4): the disk task (id 700) was deleted locally and
owns a note (id 800) that is new on disk. -/
def w4heap : Heap := hp
  [ (17, { oid := 700, kind := .task, notes := [18] }),
    (18, { oid := 800, kind := .note }) ]

/-- Local monitor of the orphan world: the owner task was deleted locally. -/
def w4mon : ChangeMonitor := { mguid := 7, entries := [(700, ["__del__"])] }

/-- Change table of the orphan world. -/
def w4all : List (Guid × ChangeMonitor) := [(7, { mguid := 7, entries := [] })]

/-- The orphan world after `sync`. -/
def w4res : SyncResult := sync 10 w4mon w4all w4heap [([], [17])]

/-- Appearance world (for C5): `appearance` changed on both sides, with all
five sub-attributes equal. -/
def w5heap : Heap := hp
  [ (5, { oid := 500, kind := .task, attrs := [("font", 3)] }),
    (15, { oid := 500, kind := .task, attrs := [("font", 3)] }) ]

/-- Local monitor of the appearance world. -/
def w5mon : ChangeMonitor := { mguid := 7, entries := [(500, ["appearance"])] }

/-- Change table of the appearance world. -/
def w5all : List (Guid × ChangeMonitor) :=
  [ (7, { mguid := 7, entries := [(500, ["appearance"])] }) ]

/-- The appearance world after `sync`. -/
def w5res : SyncResult := sync 10 w5mon w5all w5heap [([5], [15])]

/-- Identical-content world (for C6): the same category (id 900) on both
sides, no changes recorded anywhere. -/
def w6heap : Heap := hp
  [ (21, { oid := 900, kind := .category, attrs := [("subject", 1)] }),
    (22, { oid := 900, kind := .category, attrs := [("subject", 1)] }) ]

/-- Local monitor of the identical-content world. -/
def w6mon : ChangeMonitor := { mguid := 7, entries := [] }

/-- Change table of the identical-content world. -/
def w6all : List (Guid × ChangeMonitor) := [(7, { mguid := 7, entries := [] })]

/-- Conflict-propagation world (for C7): a subject conflict on task id 400
with a second device (guid 9) in the table. -/
def w7heap : Heap := hp
  [ (4, { oid := 400, kind := .task, attrs := [("subject", 5)] }),
    (14, { oid := 400, kind := .task, attrs := [("subject", 6)] }) ]

/-- Local monitor of the conflict-propagation world. -/
def w7mon : ChangeMonitor := { mguid := 7, entries := [(400, ["subject"])] }

/-- Change table of the conflict-propagation world. -/
def w7all : List (Guid × ChangeMonitor) :=
  [ (7, { mguid := 7, entries := [(400, ["subject"])] }),
    (9, { mguid := 9, entries := [] }) ]

/-- The conflict-propagation world after `sync`. -/
def w7res : SyncResult := sync 10 w7mon w7all w7heap [([4], [14])]

/-- A concrete clean `TaskFile` state whose main file "f" holds content 7. -/
def w9st : TFState :=
  { filename := "f", fs := fsPut (fun _ => none) "f" 7 }

/-- A concrete dirty `TaskFile` state whose main file "f" holds content 7. -/
def w10st : TFState :=
  { filename := "f", needSave := true, changedOnDisk := true,
    fs := fsPut (fun _ => none) "f" 7 }

/-- Attribute-apply world (for C2): one task (id 10) in memory (addr 1) and
on disk (addr 2) with differing `subject` values, the name changed on both
sides, as the synchronizer state entering the attribute-apply pass. -/
def w8st : SyncSt :=
  { heap := hp
      [ (1, { oid := 10, kind := .task, attrs := [("subject", 1)] }),
        (2, { oid := 10, kind := .task, attrs := [("subject", 2)] }) ],
    diskMap := fun i => if i = 10 then some 2 else none,
    monitor := { mguid := 1, entries := [(10, ["subject"])] },
    diskCh := { mguid := 2, entries := [(10, ["subject"])] } }

/-- Appearance world (for C5): one task (id 20) in memory (addr 3) and on
disk (addr 4) whose `appearance` is marked changed on both sides; the five
sub-attributes all agree except the foreground color. -/
def wApst : SyncSt :=
  { heap := hp
      [ (3, { oid := 20, kind := .task,
              attrs := [("foregroundColor", 1), ("backgroundColor", 4), ("font", 5),
                ("icon", 6), ("selectedIcon", 7)] }),
        (4, { oid := 20, kind := .task,
              attrs := [("foregroundColor", 2), ("backgroundColor", 4), ("font", 5),
                ("icon", 6), ("selectedIcon", 7)] }) ],
    diskMap := fun i => if i = 20 then some 4 else none,
    monitor := { mguid := 1, entries := [(20, ["appearance"])] },
    diskCh := { mguid := 2, entries := [(20, ["appearance"])] } }

/-- Orphan-drop world (for C4): a disk task (addr 17, id 700) that is
locally deleted owns a note (addr 18, id 800) new on disk; neither id is in
the in-memory id map, so the note's owner chain is absent from memory. -/
def w4bst : SyncSt :=
  { heap := hp
      [ (17, { oid := 700, kind := .task, notes := [18] }),
        (18, { oid := 800, kind := .note }) ],
    diskOwnerMap := fun k => if k = 800 then some 17 else none,
    monitor := { mguid := 1, entries := [(700, ["__del__"])] } }

/-! ## Definitions supporting the theorem statements -/

/-- Heap evolution relation used for C4: ids and kinds are stable, the
tracked object's parent pointer is unchanged, it joins no child list, and
its membership in every owned collection is unchanged. -/
def HR (n : Addr) (h0 h1 : Heap) : Prop :=
  (∀ b, (h1 b).oid = (h0 b).oid) ∧
  (∀ b, (h1 b).kind = (h0 b).kind) ∧
  (h1 n).parent = (h0 n).parent ∧
  (∀ b, n ∈ (h1 b).children → n ∈ (h0 b).children) ∧
  (∀ b, n ∈ (h1 b).notes ↔ n ∈ (h0 b).notes) ∧
  (∀ b, n ∈ (h1 b).attachments ↔ n ∈ (h0 b).attachments) ∧
  (∀ b, n ∈ (h1 b).efforts ↔ n ∈ (h0 b).efforts)

/-- The pass-2 orphan invariant for C4: the heap evolves along `HR`, the
monitor and disk owner map are untouched, and neither the orphan's id nor
its disk owner's id has entered the in-memory id map. -/
def P4inv (st0 : SyncSt) (n : Addr) (i j : OId) (s : SyncSt) : Prop :=
  HR n st0.heap s.heap ∧ s.monitor = st0.monitor ∧
  s.diskOwnerMap = st0.diskOwnerMap ∧
  s.memMap i = none ∧ s.memMap j = none

/-- The non-recursive first phase of `handleNO1` (the `st1` computation of
one `_handleNewOwnedObjectsOnDisk` iteration), factored out for the C4
case analysis; `handleNO1 (fuel+1) s a` runs this and then recurses (see
`handleNO1_succ`). -/
def sNO1core (fuel : Nat) (s : SyncSt) (a : Addr) : SyncSt :=
  let o := s.heap a
  let memCh := s.monitor.getCh o.oid
  let deleted := hasName memCh "__del__"
  if (s.memMap o.oid).isNone && !deleted then
    if isComposite o.kind then
      let h1 := hupd s.heap a fun ob => { ob with children := detachIter ob.children.length ob.children 0 }
      match (h1 a).parent with
      | some p =>
          match s.memMap ((h1 p).oid) with
          | some mp =>
              { s with heap := setParentH (addChildH h1 mp a) a (some mp),
                        memMap := mput s.memMap o.oid a }
          | none =>
              let h2 := setParentH h1 a none
              let top := climbTop h2 fuel p
              match s.diskOwnerMap ((h2 top).oid) with
              | none => { s with heap := h2, err := true }
              | some dOwner =>
                  match s.memMap ((h2 dOwner).oid) with
                  | some mOwner =>
                      { s with heap := addOwnedH h2 mOwner a,
                                conflictCh := s.conflictCh.addCh o.oid "__owner__",
                                memOwnerMap := mput s.memOwnerMap o.oid mOwner,
                                memMap := mput s.memMap o.oid a }
                  | none => { s with heap := h2, memMap := mput s.memMap o.oid a }
      | none =>
          match s.diskOwnerMap o.oid with
          | none => { s with heap := h1, err := true }
          | some dOwner =>
              match s.memMap ((h1 dOwner).oid) with
              | some mOwner =>
                  { s with heap := addOwnedH h1 mOwner a,
                            memOwnerMap := mput s.memOwnerMap o.oid mOwner,
                            memMap := mput s.memMap o.oid a }
              | none =>
                  { s with heap := h1,
                            conflictCh := s.conflictCh.addCh o.oid "__del__" }
    else
      match s.diskOwnerMap o.oid with
      | none => { s with err := true }
      | some dOwner =>
          match s.memMap ((s.heap dOwner).oid) with
          | some mOwner =>
              { s with heap := addOwnedH s.heap mOwner a,
                        memOwnerMap := mput s.memOwnerMap o.oid mOwner,
                        memMap := mput s.memMap o.oid a }
          | none =>
              { s with conflictCh := s.conflictCh.addCh o.oid "__del__" }
  else s

/-- The containment-with-deletion-dominance property: every name of `s` is
in `t`, unless `t` records the absorbing deletion. -/
def supProp (s t : List String) : Prop :=
  ∀ n ∈ s, n ∈ t ∨ "__del__" ∈ t

/-- Pointwise domain inclusion of id maps. -/
def mapLe (m1 m2 : OId → Option Addr) : Prop :=
  ∀ i, (m1 i).isSome = true → (m2 i).isSome = true

/-- The id map `addIds` builds for one object list, starting from empty
maps (the mem-side map of one pair, in isolation). -/
def memMapOf (h : Heap) (fuel : Nat) (ml : List Addr) : OId → Option Addr :=
  (ml.foldl (fun m a => addIds1 h fuel a none m) (fun _ => none, fun _ => none)).1

/-- Coverage of one object by an id map, recursively through its children,
notes, attachments and efforts: exactly what the new-object passes (1 and 2)
need in order to leave the state untouched. -/
def coveredB (h : Heap) (mm : OId → Option Addr) : Nat → Addr → Bool
  | 0, a => (mm (h a).oid).isSome
  | f + 1, a =>
      (mm (h a).oid).isSome &&
      ((h a).children.all (coveredB h mm f)) &&
      ((h a).notes.all (coveredB h mm f)) &&
      ((h a).attachments.all (coveredB h mm f)) &&
      ((h a).efforts.all (coveredB h mm f))

/-! ## Theorems -/

/-- A completed `SafeWriteFile` write does not touch any path other than the
target and the temp file. -/
theorem safeWriteFinal_frame (cloud : Bool) (target tmp p : String) (c : Nat)
    (fs : FS) (h1 : p ≠ target) (h2 : p ≠ tmp) :
    safeWriteFinal cloud target tmp c fs p = fs p := by
  cases cloud
  · simp only [safeWriteFinal, Bool.false_eq_true, if_false]
    split <;> simp [fsPut, fsDel, if_neg h1, if_neg h2]
  · simp [safeWriteFinal, fsPut, if_neg h1]

/-- A completed `SafeWriteFile` write leaves the new content at the target. -/
theorem safeWriteFinal_target (cloud : Bool) (target tmp : String) (c : Nat)
    (fs : FS) (h : target ≠ tmp) :
    safeWriteFinal cloud target tmp c fs target = some c := by
  have h2 : ¬ tmp = target := fun hh => h hh.symm
  cases cloud
  · simp only [safeWriteFinal, Bool.false_eq_true, if_false]
    split <;> simp [fsPut, fsDel, h, h2]
  · simp [safeWriteFinal, fsPut]

/-- C8 counterexample: a save into a cloud-synced directory opens the live
file for writing in place — immediately after the open, the target holds the
truncated (empty) file instead of the previous content `7` — and even in the
non-cloud case, between `close`'s `os.remove` and the `os.rename` the
previous version is absent from disk.  Both refute "the live file is never
truncated or opened for writing in place, so at every intermediate point of
a save the previous version of the file is still intact on disk". -/
theorem C8_safe_write_cex :
    (((safeWriteTrace true "f" "t" 9 (fsPut (fun _ => none) "f" 7)).getD 0
        (fun _ => none)) "f" = some 0) ∧
    (((safeWriteTrace false "f" "t" 9 (fsPut (fun _ => none) "f" 7)).getD 2
        (fun _ => none)) "f" = none) := by
  constructor <;> rfl

/-- C8 (amended): in a non-cloud directory, a save writes the new content to
a temporary file, so the previous version is intact after the open and after
the write; `close` then removes the previous file and renames the temp file
over the target, so between the remove and the rename the previous version
is absent, and afterwards the target holds the new content and the temp file
is gone.  In a cloud-synced directory, the open truncates the live file in
place. -/
theorem C8_safe_write_amended (fs : FS) (target tmp : String) (c : Nat)
    (hne : tmp ≠ target) :
    ((safeWriteTrace false target tmp c fs).getD 0 fs) target = fs target ∧
    ((safeWriteTrace false target tmp c fs).getD 1 fs) target = fs target ∧
    ((fs target).isSome = true →
      ((safeWriteTrace false target tmp c fs).getD 2 fs) target = none) ∧
    safeWriteFinal false target tmp c fs target = some c ∧
    safeWriteFinal false target tmp c fs tmp = none ∧
    ((safeWriteTrace true target tmp c fs).getD 0 fs) target = some 0 := by
  have hne2 : target ≠ tmp := fun h => hne h.symm
  refine ⟨?_, ?_, ?_, safeWriteFinal_target false target tmp c fs hne2, ?_, ?_⟩
  · simp [safeWriteTrace, fsPut, if_neg hne2]
  · simp [safeWriteTrace, fsPut, if_neg hne2]
  · intro hex
    simp only [safeWriteTrace, Bool.false_eq_true, if_false, List.getD,
      List.getElem?_cons_succ, List.getElem?_cons_zero, Option.getD_some]
    have hex2 : ((fsPut (fsPut fs tmp 0) tmp c) target).isSome = true := by
      simpa [fsPut, if_neg hne2] using hex
    simp [hex2, fsDel]
  · simp [safeWriteFinal, fsDel]
  · simp [safeWriteTrace, fsPut]

/-- Witness for the C8 amended theorem at a concrete filesystem. -/
theorem C8_safe_write_amended_witness :
    ((safeWriteTrace false "f" "t" 9 (fsPut (fun _ => none) "f" 7)).getD 2
        (fun _ => none)) "f" = none ∧
    safeWriteFinal false "f" "t" 9 (fsPut (fun _ => none) "f" 7) "f" = some 9 := by
  have h := C8_safe_write_amended (fsPut (fun _ => none) "f" 7) "f" "t" 9
    (by decide)
  exact ⟨h.2.2.1 (by rfl), h.2.2.2.1⟩

/-- C9: when, after the `mergeDiskChanges` step inside `save`, the file is
not dirty and the main data file exists, `save` leaves the main data file's
bytes unchanged, while the `.delta` sidecar has been rewritten. -/
theorem C9_clean_save_leaves_main (cloud : Bool) (tD tM : String) (db mb : Nat)
    (s : TFState)
    (hd1 : s.filename ≠ s.filename ++ ".delta")
    (hd2 : s.filename ≠ tD)
    (hd3 : s.filename ++ ".delta" ≠ tD)
    (hns : (mergeDiskChangesTF cloud tD db { s with saving := true }).needSave = false)
    (hex : ((mergeDiskChangesTF cloud tD db { s with saving := true }).fs
        s.filename).isSome = true) :
    (saveTF cloud tD tM db mb s).fs s.filename = s.fs s.filename ∧
    (saveTF cloud tD tM db mb s).fs (s.filename ++ ".delta") = some db := by
  have hns2 : s.needSave = false := hns
  have hex2 : (safeWriteFinal cloud (s.filename ++ ".delta") tD db s.fs
      s.filename).isSome = true := hex
  have hnn : (safeWriteFinal cloud (s.filename ++ ".delta") tD db s.fs
      s.filename).isNone = false := by
    cases hF : safeWriteFinal cloud (s.filename ++ ".delta") tD db s.fs s.filename with
    | none => rw [hF] at hex2; simp at hex2
    | some v => rfl
  have hfr := safeWriteFinal_frame cloud (s.filename ++ ".delta") tD s.filename db s.fs hd1 hd2
  have htg := safeWriteFinal_target cloud (s.filename ++ ".delta") tD db s.fs hd3
  simp only [saveTF, mergeDiskChangesTF, hns2, hnn, Bool.false_or,
    Bool.false_eq_true, if_false]
  exact ⟨hfr, htg⟩

/-- Witness for C9 at a concrete state. -/
theorem C9_clean_save_leaves_main_witness :
    (saveTF false "t2" "t3" 5 6 w9st).fs "f" = some 7 ∧
    (saveTF false "t2" "t3" 5 6 w9st).fs "f.delta" = some 5 := by
  have h := C9_clean_save_leaves_main false "t2" "t3" 5 6 w9st
    (by decide) (by decide) (by decide) (by rfl) (by rfl)
  exact ⟨by rw [show w9st.filename = "f" from rfl] at h; rw [h.1]; rfl,
    by rw [show w9st.filename ++ ".delta" = "f.delta" from rfl] at h; exact h.2⟩

/-- C10: if `TaskFile.load` raises (a read/parse failure from `self._read`),
the filename is reset to the empty string before the exception propagates,
and the dirty flag is nevertheless cleared and the changed-on-disk flag
reset. -/
theorem C10_load_failure_resets (db : Nat) (s : TFState) (nn : Option String)
    (hex : (s.fs (loadTarget s nn)).isSome = true) :
    (loadTF false db s nn).2 = true ∧
    (loadTF false db s nn).1.filename = "" ∧
    (loadTF false db s nn).1.needSave = false ∧
    (loadTF false db s nn).1.changedOnDisk = false := by
  cases nn with
  | none =>
      simp only [loadTarget, Option.getD] at hex
      simp only [loadTF, hex, if_true, Bool.false_eq_true, if_false, setFilenameTF]
      split <;> simp_all
  | some f =>
      simp only [loadTarget, Option.getD] at hex
      simp only [loadTF, setFilenameTF]
      by_cases hf : f = s.filename
      · simp only [hf, if_pos rfl]
        simp only [hf] at hex
        simp only [hex, if_true, Bool.false_eq_true, if_false]
        split <;> simp_all
      · simp only [if_neg hf]
        simp only [hex, if_true, Bool.false_eq_true, if_false]
        split <;> simp_all

/-- Witness for C10 at a concrete state. -/
theorem C10_load_failure_resets_witness :
    (loadTF false 5 w10st none).2 = true ∧
    (loadTF false 5 w10st none).1.filename = "" := by
  have h := C10_load_failure_resets 5 w10st none (by rfl)
  exact ⟨h.1, h.2.1⟩

/-- C1: at the claim's own scenario — mem moved task X (id 100) under P3
while disk moved it under P2, with P2 present in the mem map — `sync` does
not complete: `reparentObjects` calls `memObject.parent().removeChild(...)`
after `memList.remove(memObject)` has already unlinked the object from its
parent (`_removeCompositesFromParent`), so the second `list.remove` raises
an uncaught `ValueError` and the merge aborts instead of reparenting X under
P2 and recording a `__parent__` conflict. -/
theorem C1_reparent_scenario_raises : w1res.st.err = true := by rfl

/-- C3: deletion dominance fails on consecutive deleted sub-notes: in the
sub-note deletion world both sub-notes (ids 1200, 1300) carry `__del__` in
the disk change set, yet after the merge the second one is still attached to
its mem parent note (the removal loop iterates the live children list) and
still present in `memMap`, and `sync` then aborts with an uncaught
`KeyError` (`applyChanges` looks the still-attached deleted note up in
`diskMap`). -/
theorem C3_deletion_dominance_fails :
    ("__del__" ∈ ((alGet w3all 7).getD {} |>.getCh 1300).getD []) ∧
    (w3res.st.heap 32).children = [34] ∧
    (w3res.st.memMap 1300).isSome = true ∧
    w3res.st.err = true := by
  refine ⟨by decide, by rfl, by rfl, by rfl⟩

/-- C2 counterexample: `expandedContexts` is a non-sentinel attribute name
present in both the disk-side change set and the local change set of the
task (id 400), with differing current values, yet the disk value is applied
(the mem task ends up expanded) and no conflict is recorded for the task. -/
theorem C2_apply_pass_cex :
    hasName (w2mon.getCh 400) "expandedContexts" = true ∧
    hasName (((alGet w2all 7).getD {}).getCh 400) "expandedContexts" = true ∧
    (w2heap 4).expanded ≠ (w2heap 14).expanded ∧
    w2res.st.err = false ∧
    (w2res.st.heap 4).expanded = true ∧
    w2res.st.conflictCh.getCh 400 = none := by
  refine ⟨by decide, by decide, by decide, by rfl, by rfl, by rfl⟩

/-- C5 counterexample: `appearance` is in both change sets for the task
(id 500) while all five sub-attributes agree between mem and disk, yet an
`appearance` conflict is recorded for the object — refuting "a conflict is
recorded only when that sub-attribute's in-memory and disk values differ". -/
theorem C5_appearance_cex :
    (∀ n ∈ ["foregroundColor", "backgroundColor", "font", "icon", "selectedIcon"],
      getAttr (w5heap 5) n = getAttr (w5heap 15) n) ∧
    w5res.st.err = false ∧
    w5res.st.conflictCh.getCh 500 = some ["appearance"] := by
  refine ⟨by decide, by rfl, by rfl⟩

/-! ### Association-list and change-set lemmas -/

theorem alGet_alPut_self {α β : Type} [DecidableEq α] (l : List (α × β)) (k : α) (v : β) :
    alGet (alPut l k v) k = some v := by
  induction l with
  | nil => simp [alPut, alGet]
  | cons p t ih =>
      obtain ⟨k1, v1⟩ := p
      by_cases h : k1 = k
      · simp [alPut, h, alGet]
      · have h2 : ¬ k = k1 := fun hh => h hh.symm
        simp only [alPut, if_neg h, alGet, if_neg h2]
        exact ih

theorem alGet_alPut_other {α β : Type} [DecidableEq α] (l : List (α × β)) (k i : α)
    (v : β) (h : i ≠ k) : alGet (alPut l k v) i = alGet l i := by
  induction l with
  | nil => simp [alPut, alGet, if_neg h]
  | cons p t ih =>
      obtain ⟨k1, v1⟩ := p
      by_cases h1 : k1 = k
      · subst h1
        simp [alPut, alGet, if_neg h]
      · by_cases h2 : i = k1
        · simp [alPut, if_neg h1, alGet, h2]
        · simp only [alPut, if_neg h1, alGet, if_neg h2]
          exact ih

theorem alGet_none_of_all_ne {α β : Type} [DecidableEq α] (l : List (α × β)) (k : α)
    (h : ∀ p ∈ l, p.1 ≠ k) : alGet l k = none := by
  induction l with
  | nil => rfl
  | cons p t ih =>
      have hp : ¬ k = p.1 := fun hh => h p (by simp) hh.symm
      simp only [alGet, if_neg hp]
      exact ih fun q hq => h q (by simp [hq])

theorem alGet_append_left_none {α β : Type} [DecidableEq α] (l1 l2 : List (α × β)) (k : α)
    (h : alGet l1 k = none) : alGet (l1 ++ l2) k = alGet l2 k := by
  induction l1 with
  | nil => rfl
  | cons p t ih =>
      by_cases hp : k = p.1
      · simp [alGet, hp] at h
      · simp only [List.cons_append, alGet, if_neg hp] at h ⊢
        exact ih h

theorem mem_insName_of_mem {s : List String} {n x : String} (h : x ∈ s) :
    x ∈ insName s n := by
  unfold insName
  split
  · exact h
  · exact List.mem_append_left _ h

theorem mem_insName_self (s : List String) (n : String) : n ∈ insName s n := by
  unfold insName
  split
  · assumption
  · simp

theorem mem_foldl_insName_left (t : List String) (a : List String) (x : String)
    (h : x ∈ a) : x ∈ t.foldl insName a := by
  induction t generalizing a with
  | nil => exact h
  | cons y t ih => exact ih _ (mem_insName_of_mem h)

theorem mem_foldl_insName_right (t : List String) (a : List String) (x : String)
    (h : x ∈ t) : x ∈ t.foldl insName a := by
  induction t generalizing a with
  | nil => cases h
  | cons y t ih =>
      rcases List.mem_cons.mp h with h1 | h1
      · subst h1
        exact mem_foldl_insName_left t _ x (mem_insName_self a x)
      · exact ih _ h1

theorem mergeSets_disj_left (t v : List String) (n : String)
    (h : n ∈ t ∨ "__del__" ∈ t) :
    n ∈ mergeSets t v ∨ "__del__" ∈ mergeSets t v := by
  unfold mergeSets
  split
  · simp
  · rename_i hdel
    push_neg at hdel
    rcases h with h | h
    · exact Or.inl (mem_foldl_insName_left v t n h)
    · exact absurd h hdel.1

theorem mergeSets_disj_right (t v : List String) (n : String) (h : n ∈ v) :
    n ∈ mergeSets t v ∨ "__del__" ∈ mergeSets t v := by
  unfold mergeSets
  split
  · simp
  · exact Or.inl (mem_foldl_insName_right v t n h)

theorem mergeFold_pres (L : List (OId × List String)) (acc : ChangeMonitor)
    (i : OId) (s t : List String) (hget : alGet acc.entries i = some t)
    (hsup : supProp s t) :
    ∃ u, alGet (L.foldl mstep acc).entries i = some u ∧ supProp s u := by
  induction L generalizing acc t with
  | nil => exact ⟨t, hget, hsup⟩
  | cons p L ih =>
      by_cases hp : i = p.1
      · have hself : alGet (mstep acc p).entries i =
            some (mergeSets ((alGet acc.entries i).getD []) p.2) := by
          rw [hp]
          simp [mstep, alGet_alPut_self]
        rw [hget] at hself
        exact ih (mstep acc p) (mergeSets t p.2) hself
          (fun n hn => mergeSets_disj_left t p.2 n (hsup n hn))
      · have hother : alGet (mstep acc p).entries i = alGet acc.entries i := by
          simp [mstep, alGet_alPut_other _ _ _ _ hp]
        exact ih (mstep acc p) t (hother.trans hget) hsup

theorem mergeFold_sup (L : List (OId × List String)) (acc : ChangeMonitor)
    (i : OId) (s : List String) (hs : alGet L i = some s) :
    ∃ u, alGet (L.foldl mstep acc).entries i = some u ∧ supProp s u := by
  induction L generalizing acc with
  | nil => cases hs
  | cons p L ih =>
      obtain ⟨k, v⟩ := p
      by_cases hp : i = k
      · have hv : v = s := by
          simp only [alGet, if_pos hp] at hs
          exact Option.some.inj hs
        subst hv
        have hself : alGet (mstep acc (k, v)).entries i =
            some (mergeSets ((alGet acc.entries i).getD []) v) := by
          rw [hp]
          simp [mstep, alGet_alPut_self]
        exact mergeFold_pres L (mstep acc (k, v)) i v _ hself
          (fun n hn => mergeSets_disj_right _ v n hn)
      · simp only [alGet, if_neg hp] at hs
        exact ih (mstep acc (k, v)) hs

/-- Merging a source monitor into another monitor carries every recorded
name over, up to `__del__` dominance. -/
theorem merge_getCh_sup (self other : ChangeMonitor) (i : OId) (s : List String)
    (hs : other.getCh i = some s) :
    ∃ u, (self.merge other).getCh i = some u ∧ supProp s u :=
  mergeFold_sup other.entries self i s hs

/-! ### Cleanup-loop lemmas -/

theorem foldl_resetObjStep_fields (L : List Addr) (s : SyncSt) :
    (L.foldl resetObjStep s).err = s.err ∧
    (L.foldl resetObjStep s).heap = s.heap ∧
    (L.foldl resetObjStep s).conflictCh = s.conflictCh ∧
    (s.monitor.entries = [] → (L.foldl resetObjStep s).monitor.entries = []) := by
  induction L generalizing s with
  | nil => exact ⟨rfl, rfl, rfl, fun h => h⟩
  | cons a L ih =>
      have h1 := ih (resetObjStep s a)
      refine ⟨h1.1, h1.2.1, h1.2.2.1, fun he => h1.2.2.2 ?_⟩
      simp [resetObjStep, ChangeMonitor.resetCh, alDel, he]

theorem foldl_resetPairStep_fields (fuel : Nat)
    (L : List (List Addr × List Addr)) (s : SyncSt) :
    (L.foldl (resetPairStep fuel) s).err = s.err ∧
    (L.foldl (resetPairStep fuel) s).heap = s.heap ∧
    (L.foldl (resetPairStep fuel) s).conflictCh = s.conflictCh ∧
    (s.monitor.entries = [] →
      (L.foldl (resetPairStep fuel) s).monitor.entries = []) := by
  induction L generalizing s with
  | nil => exact ⟨rfl, rfl, rfl, fun h => h⟩
  | cons pr L ih =>
      simp only [List.foldl_cons]
      have h0 := foldl_resetObjStep_fields
        (allObjects s.heap fuel (rootItems s.heap pr.1)) s
      have h1 := ih (resetPairStep fuel s pr)
      refine ⟨?_, ?_, ?_, fun he => ?_⟩
      · rw [h1.1]; exact h0.1
      · rw [h1.2.1]; exact h0.2.1
      · rw [h1.2.2.1]; exact h0.2.2.1
      · exact h1.2.2.2 (h0.2.2.2 he)

/-- The first component of `syncCore`, with the two error checks combined. -/
theorem syncCore_fst (fuel : Nat) (st0 : SyncSt)
    (prs : List (List Addr × List Addr)) :
    (syncCore fuel st0 prs).1 =
      if (prs.foldl (mergePairStep fuel) (st0, [])).1.err = true
      then (prs.foldl (mergePairStep fuel) (st0, [])).1
      else ((prs.foldl (mergePairStep fuel) (st0, [])).2.foldl (resetPairStep fuel)
          { (prs.foldl (mergePairStep fuel) (st0, [])).1 with
            monitor := (prs.foldl (mergePairStep fuel) (st0, [])).1.monitor.emptyCh }) := by
  cases hb : (prs.foldl (mergePairStep fuel) (st0, [])).1.err
  · simp [syncCore, hb]
  · simp [syncCore, hb]

/-- After an error-free `syncCore`, the local monitor's table is empty. -/
theorem syncCore_monitor_entries (fuel : Nat) (st0 : SyncSt)
    (prs : List (List Addr × List Addr))
    (hok : (syncCore fuel st0 prs).1.err = false) :
    (syncCore fuel st0 prs).1.monitor.entries = [] := by
  rw [syncCore_fst] at hok ⊢
  cases hb : (prs.foldl (mergePairStep fuel) (st0, [])).1.err
  · rw [if_neg (by simp [hb])] at hok ⊢
    exact (foldl_resetPairStep_fields fuel _ _).2.2.2 (by rfl)
  · rw [if_pos hb] at hok
    rw [hok] at hb
    exact absurd hb (by decide)

/-- C7: when `sync` returns (no uncaught exception), the local monitor
records no pending change for any object id; the conflict changes computed
during the merge have been merged — `__del__` dominance aside, set-inclusion
— into the change set of every other device guid in the final table; and the
local device's own entry is the emptied local monitor (so nothing was merged
into it). -/
theorem C7_post_merge (fuel : Nat) (monitor : ChangeMonitor)
    (allChanges : List (Guid × ChangeMonitor)) (h : Heap)
    (pairs : List (List Addr × List Addr))
    (hok : (sync fuel monitor allChanges h pairs).st.err = false) :
    (∀ i, (sync fuel monitor allChanges h pairs).st.monitor.getCh i = none) ∧
    (∀ g m, (g, m) ∈ (sync fuel monitor allChanges h pairs).table →
      g ≠ monitor.mguid →
      ∀ i s, (sync fuel monitor allChanges h pairs).st.conflictCh.getCh i = some s →
        ∃ t, m.getCh i = some t ∧ supProp s t) ∧
    alGet (sync fuel monitor allChanges h pairs).table monitor.mguid =
      some (sync fuel monitor allChanges h pairs).st.monitor := by
  have hst : (sync fuel monitor allChanges h pairs).st =
      (syncCore fuel
        { heap := h, monitor := monitor,
          diskCh := (alGet allChanges monitor.mguid).getD {} } pairs).1 := rfl
  rw [hst] at hok
  have hme := syncCore_monitor_entries fuel _ pairs hok
  have htb : (sync fuel monitor allChanges h pairs).table =
      ((allChanges.filter fun p => decide (p.1 ≠ monitor.mguid)).map
          (fun p => (p.1, p.2.merge monitor))).map
        (fun p => (p.1, p.2.merge
          (syncCore fuel
            { heap := h, monitor := monitor,
              diskCh := (alGet allChanges monitor.mguid).getD {} } pairs).1.conflictCh)) ++
      [(monitor.mguid,
        (syncCore fuel
          { heap := h, monitor := monitor,
            diskCh := (alGet allChanges monitor.mguid).getD {} } pairs).1.monitor)] := by
    show (if (syncCore fuel _ pairs).1.err = true then _ else _) ++ _ = _
    rw [hok]
    simp
  refine ⟨?_, ?_, ?_⟩
  · intro i
    rw [hst]
    show alGet (syncCore fuel _ pairs).1.monitor.entries i = none
    rw [hme]
    rfl
  · intro g m hmem hg i s hcf
    rw [htb] at hmem
    rcases List.mem_append.mp hmem with hmem | hmem
    · obtain ⟨q, _, hq2⟩ := List.mem_map.mp hmem
      have hm2 : m = q.2.merge
          (sync fuel monitor allChanges h pairs).st.conflictCh := by
        rw [hst]
        exact (congrArg Prod.snd hq2).symm
      rw [hm2]
      exact merge_getCh_sup _ _ i s hcf
    · simp only [List.mem_singleton, Prod.mk.injEq] at hmem
      exact absurd hmem.1 hg
  · rw [htb, hst]
    rw [alGet_append_left_none]
    · simp [alGet]
    · apply alGet_none_of_all_ne
      intro p hp
      obtain ⟨q, hq1, hq2⟩ := List.mem_map.mp hp
      obtain ⟨r, hr1, hr2⟩ := List.mem_map.mp hq1
      have := List.mem_filter.mp hr1
      have hr3 : r.1 ≠ monitor.mguid := by
        have := this.2
        simpa using this
      rw [← hq2, ← hr2]
      exact hr3

/-! ### Idempotence lemmas (C6) -/

theorem foldl_id {α β : Type} (f : β → α → β) (b : β) (L : List α)
    (h : ∀ x ∈ L, f b x = b) : L.foldl f b = b := by
  induction L with
  | nil => rfl
  | cons x t ih =>
      rw [List.foldl_cons, h x (by simp)]
      exact ih fun y hy => h y (by simp [hy])

theorem isNone_false_of_isSome {α : Type} (o : Option α) (h : o.isSome = true) :
    o.isNone = false := by
  cases o
  · cases h
  · rfl

theorem mput_mono (m1 m2 : OId → Option Addr) (k : OId) (v : Addr)
    (h : mapLe m1 m2) : mapLe (mput m1 k v) (mput m2 k v) := by
  intro i hi
  unfold mput at hi ⊢
  by_cases hk : i = k
  · simp [hk]
  · simp only [if_neg hk] at hi ⊢
    exact h i hi

theorem addIds1_mono (h : Heap) (fuel : Nat) :
    ∀ (a : Addr) (w : Option Addr)
      (m1 m2 : (OId → Option Addr) × (OId → Option Addr)),
      mapLe m1.1 m2.1 →
      mapLe (addIds1 h fuel a w m1).1 (addIds1 h fuel a w m2).1 := by
  induction fuel with
  | zero => intro a w m1 m2 hle; exact hle
  | succ f ih =>
      have fold : ∀ (L : List Addr) (w : Option Addr)
          (m1 m2 : (OId → Option Addr) × (OId → Option Addr)),
          mapLe m1.1 m2.1 →
          mapLe (L.foldl (fun m c => addIds1 h f c w m) m1).1
            (L.foldl (fun m c => addIds1 h f c w m) m2).1 := by
        intro L
        induction L with
        | nil => intro w m1 m2 hle; exact hle
        | cons x t iht =>
            intro w m1 m2 hle
            exact iht w _ _ (ih x w m1 m2 hle)
      have hite : ∀ (c : Prop) [Decidable c]
          (x1 x2 y1 y2 : (OId → Option Addr) × (OId → Option Addr)),
          mapLe x1.1 x2.1 → mapLe y1.1 y2.1 →
          mapLe (if c then x1 else y1).1 (if c then x2 else y2).1 := by
        intro c _ x1 x2 y1 y2 hx hy
        split
        · exact hx
        · exact hy
      intro a w m1 m2 hle
      simp only [addIds1]
      have e1 : mapLe (mput m1.1 (h a).oid a,
          match w with | some ww => mput m1.2 (h a).oid ww | none => m1.2).1
          (mput m2.1 (h a).oid a,
          match w with | some ww => mput m2.2 (h a).oid ww | none => m2.2).1 :=
        mput_mono _ _ _ _ hle
      have e2 := hite (isComposite (h a).kind = true) _ _ _ _
        (fold (h a).children none _ _ e1) e1
      have e3 := hite (isNoteOwner (h a).kind = true) _ _ _ _
        (fold (h a).notes (some a) _ _ e2) e2
      have e4 := hite (isAttachmentOwner (h a).kind = true) _ _ _ _
        (fold (h a).attachments (some a) _ _ e3) e3
      exact hite ((h a).kind = ObjKind.task) _ _ _ _
        (fold (h a).efforts none _ _ e4) e4

theorem addIdsFold_mono (h : Heap) (fuel : Nat) (L : List Addr) (w : Option Addr)
    (m1 m2 : (OId → Option Addr) × (OId → Option Addr)) (hle : mapLe m1.1 m2.1) :
    mapLe (L.foldl (fun m a => addIds1 h fuel a w m) m1).1
      (L.foldl (fun m a => addIds1 h fuel a w m) m2).1 := by
  induction L generalizing m1 m2 with
  | nil => exact hle
  | cons x t ih => exact ih _ _ (addIds1_mono h fuel x w m1 m2 hle)

theorem memMapOf_le (h : Heap) (fuel : Nat) (ml : List Addr)
    (m0 : (OId → Option Addr) × (OId → Option Addr)) :
    mapLe (memMapOf h fuel ml)
      (ml.foldl (fun m a => addIds1 h fuel a none m) m0).1 := by
  have hle : mapLe (fun _ => (none : Option Addr)) m0.1 := by
    intro i hi
    cases hi
  exact addIdsFold_mono h fuel ml none _ m0 hle

theorem coveredB_head (h : Heap) (mm : OId → Option Addr) (f : Nat) (a : Addr)
    (hc : coveredB h mm f a = true) : (mm (h a).oid).isSome = true := by
  cases f with
  | zero => exact hc
  | succ f =>
      simp only [coveredB, Bool.and_eq_true] at hc
      exact hc.1.1.1.1

theorem coveredB_mono (h : Heap) (mm1 mm2 : OId → Option Addr)
    (hle : mapLe mm1 mm2) :
    ∀ (f : Nat) (a : Addr), coveredB h mm1 f a = true → coveredB h mm2 f a = true := by
  intro f
  induction f with
  | zero => intro a hc; exact hle _ hc
  | succ f ih =>
      intro a hc
      simp only [coveredB, Bool.and_eq_true, List.all_eq_true] at hc ⊢
      exact ⟨⟨⟨⟨hle _ hc.1.1.1.1, fun x hx => ih x (hc.1.1.1.2 x hx)⟩,
        fun x hx => ih x (hc.1.1.2 x hx)⟩,
        fun x hx => ih x (hc.1.2 x hx)⟩,
        fun x hx => ih x (hc.2 x hx)⟩

theorem coveredB_children (h : Heap) (mm : OId → Option Addr) (f : Nat) (a : Addr)
    (hc : coveredB h mm (f + 1) a = true) :
    ∀ x ∈ (h a).children, coveredB h mm f x = true := by
  simp only [coveredB, Bool.and_eq_true, List.all_eq_true] at hc
  exact hc.1.1.1.2

theorem coveredB_notes (h : Heap) (mm : OId → Option Addr) (f : Nat) (a : Addr)
    (hc : coveredB h mm (f + 1) a = true) :
    ∀ x ∈ (h a).notes, coveredB h mm f x = true := by
  simp only [coveredB, Bool.and_eq_true, List.all_eq_true] at hc
  exact hc.1.1.2

theorem coveredB_attachments (h : Heap) (mm : OId → Option Addr) (f : Nat) (a : Addr)
    (hc : coveredB h mm (f + 1) a = true) :
    ∀ x ∈ (h a).attachments, coveredB h mm f x = true := by
  simp only [coveredB, Bool.and_eq_true, List.all_eq_true] at hc
  exact hc.1.2

theorem coveredB_efforts (h : Heap) (mm : OId → Option Addr) (f : Nat) (a : Addr)
    (hc : coveredB h mm (f + 1) a = true) :
    ∀ x ∈ (h a).efforts, coveredB h mm f x = true := by
  simp only [coveredB, Bool.and_eq_true, List.all_eq_true] at hc
  exact hc.2

theorem pass1Step_id (fuel : Nat) (st : SyncSt) (ml : List Addr) (b : Addr)
    (he : st.err = false)
    (hc : (st.memMap ((st.heap b).oid)).isSome = true) :
    pass1Step fuel (st, ml) b = (st, ml) := by
  unfold pass1Step
  simp only [he, Bool.false_eq_true, if_false,
    isNone_false_of_isSome _ hc, Bool.false_and, if_false]

theorem mergeComposite_id (fuel : Nat) (st : SyncSt) (ml dl : List Addr)
    (he : st.err = false)
    (hc : ∀ b ∈ allItemsSorted st.heap fuel dl,
      (st.memMap ((st.heap b).oid)).isSome = true) :
    mergeCompositeObjects fuel st ml dl = (st, ml) := by
  unfold mergeCompositeObjects
  exact foldl_id _ _ _ fun b hb => pass1Step_id fuel st ml b he (hc b hb)

theorem handleNO1_id : ∀ (f : Nat) (st : SyncSt) (x : Addr), st.err = false →
    coveredB st.heap st.memMap f x = true → handleNO1 f st x = st := by
  intro f
  induction f with
  | zero => intro st x _ _; rfl
  | succ f ih =>
      intro st x he hc
      have hfold : ∀ (L : List Addr), (∀ y ∈ L, coveredB st.heap st.memMap f y = true) →
          L.foldl (fun s c => handleNO1 f s c) st = st := by
        intro L hL
        exact foldl_id _ _ _ fun y hy => ih st y he (hL y hy)
      have hsome := coveredB_head st.heap st.memMap (f + 1) x hc
      simp only [handleNO1, he, Bool.false_eq_true, if_false,
        isNone_false_of_isSome _ hsome, Bool.false_and, if_false, hsome, if_true,
        hfold _ (coveredB_children st.heap st.memMap f x hc),
        hfold _ (coveredB_notes st.heap st.memMap f x hc),
        hfold _ (coveredB_attachments st.heap st.memMap f x hc), ite_self]

theorem handleNE1_id (st : SyncSt) (e : Addr) (he : st.err = false)
    (hc : (st.memMap ((st.heap e).oid)).isSome = true) :
    handleNE1 st e = st := by
  unfold handleNE1
  simp only [he, Bool.false_eq_true, if_false,
    isNone_false_of_isSome _ hc, Bool.false_and, if_false]

theorem pass2Step_id (fuel : Nat) (st : SyncSt) (b : Addr) (he : st.err = false)
    (hc : coveredB st.heap st.memMap (fuel + 1) b = true) :
    pass2Step fuel st b = st := by
  have hno : ∀ (L : List Addr), (∀ y ∈ L, coveredB st.heap st.memMap fuel y = true) →
      L.foldl (fun s c => handleNO1 fuel s c) st = st := by
    intro L hL
    exact foldl_id _ _ _ fun y hy => handleNO1_id fuel st y he (hL y hy)
  have hne : ((st.heap b).efforts).foldl handleNE1 st = st := by
    refine foldl_id _ _ _ fun y hy => handleNE1_id st y he ?_
    exact coveredB_head st.heap st.memMap fuel y
      (coveredB_efforts st.heap st.memMap fuel b hc y hy)
  unfold pass2Step
  simp only [he, Bool.false_eq_true, if_false,
    hno _ (coveredB_notes st.heap st.memMap fuel b hc),
    hno _ (coveredB_attachments st.heap st.memMap fuel b hc),
    ite_self, hne]

theorem mergeOwned_id (fuel : Nat) (st : SyncSt) (dl : List Addr)
    (he : st.err = false)
    (hc : ∀ b ∈ allItemsSorted st.heap fuel dl,
      coveredB st.heap st.memMap (fuel + 1) b = true) :
    mergeOwnedObjectsFromDisk fuel st dl = st := by
  unfold mergeOwnedObjectsFromDisk
  exact foldl_id _ _ _ fun b hb => pass2Step_id fuel st b he (hc b hb)

theorem getCh_nil (m : ChangeMonitor) (hdc : m.entries = []) (i : OId) :
    m.getCh i = none := by
  rw [ChangeMonitor.getCh, hdc]
  rfl

theorem pass3Step_id (fuel : Nat) (st : SyncSt) (ml : List Addr) (a : Addr)
    (he : st.err = false) (hdc : st.diskCh.entries = []) :
    pass3Step fuel (st, ml) a = (st, ml) := by
  unfold pass3Step
  simp only [he, Bool.false_eq_true, if_false, getCh_nil st.diskCh hdc]

theorem reparent_id (fuel : Nat) (st : SyncSt) (ml dl : List Addr)
    (he : st.err = false) (hdc : st.diskCh.entries = []) :
    reparentObjects fuel st ml dl = (st, ml) := by
  unfold reparentObjects
  exact foldl_id _ _ _ fun b _ => pass3Step_id fuel st ml b he hdc

theorem pass4Step_id (fuel : Nat) (st : SyncSt) (ml : List Addr) (a : Addr)
    (he : st.err = false) (hdc : st.diskCh.entries = []) :
    pass4Step fuel (st, ml) a = (st, ml) := by
  unfold pass4Step
  simp only [he, Bool.false_eq_true, if_false, getCh_nil st.diskCh hdc]

theorem deleted_id (fuel : Nat) (st : SyncSt) (ml : List Addr)
    (he : st.err = false) (hdc : st.diskCh.entries = []) :
    deletedObjects fuel st ml = (st, ml) := by
  unfold deletedObjects
  exact foldl_id _ _ _ fun b _ => pass4Step_id fuel st ml b he hdc

theorem handleOR_id : ∀ (f : Nat) (st : SyncSt) (src : IterSrc) (i : Nat),
    st.err = false → st.diskCh.entries = [] → handleOR f st src i = st := by
  intro f
  induction f with
  | zero => intro st src i _ _; rfl
  | succ f ih =>
      intro st src i he hdc
      have e2 : handleOR f st src (i + 1) = st := ih st src (i + 1) he hdc
      have hcs : ∀ (c : Bool) (F : SyncSt → SyncSt), F st = st →
          condStep c F st = st := by
        intro c F hF
        unfold condStep
        split
        · exact hF
        · rfl
      have hc1 : ∀ (c : Bool) (mo : Addr),
          condStep c (fun s => handleOR f s (.liveChildren mo) 0) st = st :=
        fun c mo => hcs c _ (ih st _ 0 he hdc)
      have hc2 : ∀ (c : Bool) (mo : Addr),
          condStep c (fun s => handleOR f s (.snap ((s.heap mo).notes)) 0) st = st :=
        fun c mo => hcs c _ (ih st _ 0 he hdc)
      have hc3 : ∀ (c : Bool) (mo : Addr),
          condStep c (fun s => handleOR f s (.snap ((s.heap mo).attachments)) 0) st = st :=
        fun c mo => hcs c _ (ih st _ 0 he hdc)
      have hdel : ∀ (k : ObjKind) (mo : Addr), handleORDel st k mo = st := by
        intro k mo
        unfold handleORDel
        simp only [he, Bool.false_eq_true, if_false, getCh_nil st.diskCh hdc]
      simp only [handleOR, he, Bool.false_eq_true, if_false]
      split
      · simp only [hc1, hc2, hc3, hdel, e2]
      · rfl

theorem handleER1_id_dc (st : SyncSt) (e : Addr) (he : st.err = false)
    (hdc : st.diskCh.entries = []) : handleER1 st e = st := by
  unfold handleER1
  simp only [he, Bool.false_eq_true, if_false, getCh_nil st.diskCh hdc]

theorem pass5Step_id (fuel : Nat) (st : SyncSt) (a : Addr)
    (he : st.err = false) (hdc : st.diskCh.entries = []) :
    pass5Step fuel st a = st := by
  have hOR : ∀ sr, handleOR fuel st sr 0 = st :=
    fun sr => handleOR_id fuel st sr 0 he hdc
  have her : ((st.heap a).efforts).foldl handleER1 st = st :=
    foldl_id _ _ _ fun y _ => handleER1_id_dc st y he hdc
  unfold pass5Step
  simp only [he, Bool.false_eq_true, if_false, hOR, ite_self, her]

theorem deletedOwned_id (fuel : Nat) (st : SyncSt) (ml : List Addr)
    (he : st.err = false) (hdc : st.diskCh.entries = []) :
    deletedOwnedObjects fuel st ml = st := by
  unfold deletedOwnedObjects
  exact foldl_id _ _ _ fun b _ => pass5Step_id fuel st b he hdc

theorem pass6Step_id (st : SyncSt) (a : Addr)
    (he : st.err = false) (hdc : st.diskCh.entries = []) :
    pass6Step st a = st := by
  unfold pass6Step
  simp only [he, Bool.false_eq_true, if_false, getCh_nil st.diskCh hdc]

theorem applyChanges_id (fuel : Nat) (st : SyncSt) (ml : List Addr)
    (he : st.err = false) (hdc : st.diskCh.entries = []) :
    applyChanges fuel st ml = st := by
  unfold applyChanges
  exact foldl_id _ _ _ fun b _ => pass6Step_id st b he hdc

/-- With every disk id covered by the mem side and an empty disk change set,
`mergeObjects` only grows the four id maps and leaves everything else — the
heap, the mem list, the conflicts, the monitors — untouched. -/
theorem mergeObjects_id (fuel : Nat) (st : SyncSt) (ml dl : List Addr)
    (he : st.err = false) (hdc : st.diskCh.entries = [])
    (hcov : ∀ b ∈ allItemsSorted st.heap fuel dl,
      coveredB st.heap (memMapOf st.heap fuel ml) (fuel + 1) b = true) :
    mergeObjects fuel st ml dl =
      ({ st with
          memMap := (ml.foldl (fun m a => addIds1 st.heap fuel a none m)
            (st.memMap, st.memOwnerMap)).1,
          memOwnerMap := (ml.foldl (fun m a => addIds1 st.heap fuel a none m)
            (st.memMap, st.memOwnerMap)).2,
          diskMap := (dl.foldl (fun m a => addIds1 st.heap fuel a none m)
            (st.diskMap, st.diskOwnerMap)).1,
          diskOwnerMap := (dl.foldl (fun m a => addIds1 st.heap fuel a none m)
            (st.diskMap, st.diskOwnerMap)).2 }, ml) := by
  set st0 : SyncSt :=
    { st with
      memMap := (ml.foldl (fun m a => addIds1 st.heap fuel a none m)
        (st.memMap, st.memOwnerMap)).1,
      memOwnerMap := (ml.foldl (fun m a => addIds1 st.heap fuel a none m)
        (st.memMap, st.memOwnerMap)).2,
      diskMap := (dl.foldl (fun m a => addIds1 st.heap fuel a none m)
        (st.diskMap, st.diskOwnerMap)).1,
      diskOwnerMap := (dl.foldl (fun m a => addIds1 st.heap fuel a none m)
        (st.diskMap, st.diskOwnerMap)).2 } with hst0
  have h0he : st0.err = false := he
  have h0hd : st0.diskCh.entries = [] := hdc
  have h0heap : st0.heap = st.heap := rfl
  have hcov0 : ∀ b ∈ allItemsSorted st0.heap fuel dl,
      coveredB st0.heap st0.memMap (fuel + 1) b = true := by
    intro b hb
    rw [h0heap] at hb ⊢
    exact coveredB_mono st.heap _ _
      (memMapOf_le st.heap fuel ml (st.memMap, st.memOwnerMap)) (fuel + 1) b
      (hcov b hb)
  have hp1 : mergeCompositeObjects fuel st0 ml dl = (st0, ml) := by
    refine mergeComposite_id fuel st0 ml dl h0he fun b hb => ?_
    exact coveredB_head st0.heap st0.memMap (fuel + 1) b (hcov0 b hb)
  have hp2 : mergeOwnedObjectsFromDisk fuel st0 dl = st0 :=
    mergeOwned_id fuel st0 dl h0he hcov0
  have hp3 : reparentObjects fuel st0 ml dl = (st0, ml) :=
    reparent_id fuel st0 ml dl h0he h0hd
  have hp4 : deletedObjects fuel st0 ml = (st0, ml) :=
    deleted_id fuel st0 ml h0he h0hd
  have hp5 : deletedOwnedObjects fuel st0 ml = st0 :=
    deletedOwned_id fuel st0 ml h0he h0hd
  have hp6 : applyChanges fuel st0 ml = st0 :=
    applyChanges_id fuel st0 ml h0he h0hd
  show mergeObjects fuel st ml dl = (st0, ml)
  unfold mergeObjects
  simp only [← hst0, hp1, hp2, hp3, hp4, hp5, hp6]

theorem alGet_mem {α β : Type} [DecidableEq α] (l : List (α × β)) (k : α) (v : β)
    (h : alGet l k = some v) : (k, v) ∈ l := by
  induction l with
  | nil => cases h
  | cons p t ih =>
      obtain ⟨k1, v1⟩ := p
      by_cases hk : k = k1
      · simp only [alGet, if_pos hk] at h
        obtain rfl := Option.some.inj h
        simp [hk]
      · simp only [alGet, if_neg hk] at h
        exact List.mem_cons_of_mem _ (ih h)

/-- The merge loop under the idempotence hypotheses: the pairs are
reproduced unchanged and only the id maps of the state change. -/
theorem mergeFold_id (fuel : Nat) (h : Heap) :
    ∀ (prs : List (List Addr × List Addr)) (st : SyncSt)
      (done : List (List Addr × List Addr)),
      st.heap = h → st.err = false → st.diskCh.entries = [] →
      (∀ pr ∈ prs, ∀ b ∈ allItemsSorted h fuel pr.2,
        coveredB h (memMapOf h fuel pr.1) (fuel + 1) b = true) →
      ∃ st', prs.foldl (mergePairStep fuel) (st, done) = (st', done ++ prs) ∧
        st'.heap = h ∧ st'.err = false ∧ st'.conflictCh = st.conflictCh ∧
        st'.diskCh = st.diskCh ∧ st'.monitor = st.monitor := by
  intro prs
  induction prs with
  | nil =>
      intro st done hh he _ _
      exact ⟨st, by simp, hh, he, rfl, rfl, rfl⟩
  | cons pr prs ih =>
      intro st done hh he hdc hcov
      rw [List.foldl_cons]
      have hm := mergeObjects_id fuel st pr.1 pr.2 he hdc
        (by rw [hh]; exact hcov pr (by simp))
      have hstep : mergePairStep fuel (st, done) pr =
          ((mergeObjects fuel st pr.1 pr.2).1,
            done ++ [((mergeObjects fuel st pr.1 pr.2).2, pr.2)]) := by
        unfold mergePairStep
        simp [he]
      have hP1heap : (mergeObjects fuel st pr.1 pr.2).1.heap = h := by rw [hm]; exact hh
      have hP1err : (mergeObjects fuel st pr.1 pr.2).1.err = false := by rw [hm]; exact he
      have hP1dc : (mergeObjects fuel st pr.1 pr.2).1.diskCh = st.diskCh := by rw [hm]
      have hP1cf : (mergeObjects fuel st pr.1 pr.2).1.conflictCh = st.conflictCh := by rw [hm]
      have hP1mon : (mergeObjects fuel st pr.1 pr.2).1.monitor = st.monitor := by rw [hm]
      have hP2 : (mergeObjects fuel st pr.1 pr.2).2 = pr.1 := by rw [hm]
      rw [hstep, hP2]
      obtain ⟨st', hfold, h1, h2, h3, h4, h5⟩ :=
        ih (mergeObjects fuel st pr.1 pr.2).1 (done ++ [(pr.1, pr.2)])
          hP1heap hP1err (by rw [hP1dc]; exact hdc)
          (fun q hq => hcov q (by simp [hq]))
      refine ⟨st', ?_, h1, h2, by rw [h3, hP1cf], by rw [h4, hP1dc], by rw [h5, hP1mon]⟩
      rw [hfold]
      simp

/-- The second component of `syncCore` is the merged pair list. -/
theorem syncCore_snd (fuel : Nat) (st0 : SyncSt)
    (prs : List (List Addr × List Addr)) :
    (syncCore fuel st0 prs).2 = (prs.foldl (mergePairStep fuel) (st0, [])).2 := rfl

/-- C6: calling `sync` with a disk graph whose ids are all covered by the
in-memory side (mem == disk content) and no recorded changes on either side
(an empty local monitor and empty change sets for every device in the
table) completes without error, yields an empty conflict change set, and
leaves the in-memory state unchanged: the heap is untouched and every merged
mem list is exactly the input mem list. -/
theorem C6_idempotent (fuel : Nat) (monitor : ChangeMonitor)
    (allChanges : List (Guid × ChangeMonitor)) (h : Heap)
    (pairs : List (List Addr × List Addr))
    (hmon : monitor.entries = [])
    (htab : ∀ p ∈ allChanges, (p.2 : ChangeMonitor).entries = [])
    (hcov : ∀ pr ∈ pairs, ∀ b ∈ allItemsSorted h fuel pr.2,
      coveredB h (memMapOf h fuel pr.1) (fuel + 1) b = true) :
    (sync fuel monitor allChanges h pairs).st.err = false ∧
    (sync fuel monitor allChanges h pairs).st.conflictCh.entries = [] ∧
    (sync fuel monitor allChanges h pairs).st.heap = h ∧
    (sync fuel monitor allChanges h pairs).pairs = pairs := by
  have hdc : ((alGet allChanges monitor.mguid).getD {} : ChangeMonitor).entries = [] := by
    cases hg : alGet allChanges monitor.mguid with
    | none => rfl
    | some m => exact htab (monitor.mguid, m) (alGet_mem _ _ _ hg)
  obtain ⟨st', hfold, hh, he, hcf, _, _⟩ :=
    mergeFold_id fuel h pairs
      { heap := h, monitor := monitor,
        diskCh := (alGet allChanges monitor.mguid).getD {} } []
      rfl rfl hdc hcov
  have hres : pairs.foldl (mergePairStep fuel)
      ({ heap := h, monitor := monitor,
         diskCh := (alGet allChanges monitor.mguid).getD {} }, []) = (st', pairs) := by
    rw [hfold]
    simp
  have hst : (sync fuel monitor allChanges h pairs).st =
      (syncCore fuel
        { heap := h, monitor := monitor,
          diskCh := (alGet allChanges monitor.mguid).getD {} } pairs).1 := rfl
  have hps : (sync fuel monitor allChanges h pairs).pairs =
      (syncCore fuel
        { heap := h, monitor := monitor,
          diskCh := (alGet allChanges monitor.mguid).getD {} } pairs).2 := rfl
  have hcore : (syncCore fuel
      { heap := h, monitor := monitor,
        diskCh := (alGet allChanges monitor.mguid).getD {} } pairs).1 =
      pairs.foldl (resetPairStep fuel) { st' with monitor := st'.monitor.emptyCh } := by
    rw [syncCore_fst, hres]
    simp [he]
  have hflds := foldl_resetPairStep_fields fuel pairs
    { st' with monitor := st'.monitor.emptyCh }
  refine ⟨?_, ?_, ?_, ?_⟩
  · rw [hst, hcore, hflds.1]
    exact he
  · rw [hst, hcore, hflds.2.2.1, hcf]
  · rw [hst, hcore, hflds.2.1]
    exact hh
  · rw [hps, syncCore_snd, hres]

/-- Witness for C6 at the identical-content world (same single category on
both sides, no changes anywhere). -/
theorem C6_idempotent_witness :
    (sync 10 w6mon w6all w6heap [([21], [22])]).st.err = false ∧
    (sync 10 w6mon w6all w6heap [([21], [22])]).st.conflictCh.entries = [] ∧
    (sync 10 w6mon w6all w6heap [([21], [22])]).st.heap = w6heap ∧
    (sync 10 w6mon w6all w6heap [([21], [22])]).pairs = [([21], [22])] :=
  C6_idempotent 10 w6mon w6all w6heap [([21], [22])]
    (by decide) (by decide) (by decide)

/-! ### Attribute-apply pass lemmas (C2, C5) -/

theorem getAttr_hupd_other (h : Heap) (a y : Addr) (f : ObjData → ObjData)
    (n : String) (hy : y ≠ a) : getAttr ((hupd h a f) y) n = getAttr (h y) n := by
  unfold hupd
  rw [if_neg hy]

theorem oid_hupd (h : Heap) (a y : Addr) (f : ObjData → ObjData)
    (hf : ∀ o, (f o).oid = o.oid) : ((hupd h a f) y).oid = (h y).oid := by
  unfold hupd
  split
  · rename_i hy
    rw [hy, hf]
  · rfl

theorem getAttr_setAttr_other (o : ObjData) (b n : String) (v : Nat) (hn : n ≠ b) :
    getAttr (setAttr o b v) n = getAttr o n := by
  unfold getAttr setAttr
  rw [show (({ o with attrs := alPut o.attrs b v } : ObjData)).attrs
    = alPut o.attrs b v from rfl]
  rw [alGet_alPut_other o.attrs b n v hn]

theorem getAttr_setAttr_self (o : ObjData) (b : String) (v : Nat) :
    getAttr (setAttr o b v) b = v := by
  unfold getAttr setAttr
  rw [show (({ o with attrs := alPut o.attrs b v } : ObjData)).attrs
    = alPut o.attrs b v from rfl]
  rw [alGet_alPut_self o.attrs b v]
  rfl

/-- The category-link rewrite of the `__categories__` branch never touches
`attrs` or `oid` of any object. -/
theorem catFold_pres {α : Type} (step : Heap → α → Heap)
    (hstep : ∀ h x y, ((step h x) y).attrs = (h y).attrs ∧
      ((step h x) y).oid = (h y).oid) :
    ∀ (L : List α) (h : Heap) (y : Addr),
      ((L.foldl step h) y).attrs = (h y).attrs ∧
      ((L.foldl step h) y).oid = (h y).oid := by
  intro L
  induction L with
  | nil => intro h y; exact ⟨rfl, rfl⟩
  | cons x t ih =>
      intro h y
      rw [List.foldl_cons]
      exact ⟨(ih (step h x) y).1.trans (hstep h x y).1,
        (ih (step h x) y).2.trans (hstep h x y).2⟩

theorem hupd_self (h : Heap) (a : Addr) (f : ObjData → ObjData) :
    (hupd h a f) a = f (h a) := by
  unfold hupd
  simp

theorem hupd_other (h : Heap) (a y : Addr) (f : ObjData → ObjData) (hy : y ≠ a) :
    (hupd h a f) y = h y := by
  unfold hupd
  rw [if_neg hy]

/-- The `appearance` sub-attribute writes: frame for other addresses and for
names outside the written list. -/
theorem appFold_pres (mo dObj : Addr) (ns : List String) (h : Heap) :
    (∀ y, y ≠ mo →
      ((ns.foldl (fun h2 n => hupd h2 mo fun o => setAttr o n (getAttr (h2 dObj) n)) h) y)
        = h y) ∧
    (∀ m, m ∉ ns →
      getAttr ((ns.foldl (fun h2 n => hupd h2 mo fun o => setAttr o n (getAttr (h2 dObj) n)) h) mo) m
        = getAttr (h mo) m) := by
  induction ns generalizing h with
  | nil => exact ⟨fun y _ => rfl, fun m _ => rfl⟩
  | cons n t ih =>
      constructor
      · intro y hy
        rw [List.foldl_cons]
        rw [(ih _).1 y hy]
        exact hupd_other h mo y _ hy
      · intro m hm
        rw [List.foldl_cons]
        rw [(ih _).2 m (fun hh => hm (by simp [hh]))]
        rw [hupd_self]
        exact getAttr_setAttr_other _ n m _ (fun hh => hm (by simp [hh]))

theorem appFold_oid (mo dObj : Addr) (ns : List String) (h : Heap) (y : Addr) :
    ((ns.foldl (fun h2 n => hupd h2 mo fun o => setAttr o n (getAttr (h2 dObj) n)) h) y).oid
      = (h y).oid := by
  induction ns generalizing h with
  | nil => rfl
  | cons n t ih =>
      rw [List.foldl_cons, ih]
      exact oid_hupd h mo y _ (fun o => rfl)

/-- Recording a change never removes an already recorded name. -/
theorem addCh_pos (m : ChangeMonitor) (i2 : OId) (n2 : String) (i : OId) (n : String)
    (h : n ∈ (m.getCh i).getD []) : n ∈ ((m.addCh i2 n2).getCh i).getD [] := by
  unfold ChangeMonitor.addCh ChangeMonitor.getCh at *
  by_cases hi : i = i2
  · subst hi
    rw [alGet_alPut_self]
    cases hg : alGet m.entries i with
    | none => rw [hg] at h; cases h
    | some s =>
        rw [hg] at h
        simp only [Option.getD_some] at h ⊢
        exact mem_insName_of_mem h
  · rw [alGet_alPut_other _ _ _ _ hi]
    exact h

/-- The recorded name is in the record afterwards. -/
theorem addCh_self_mem (m : ChangeMonitor) (i : OId) (n : String) :
    n ∈ ((m.addCh i n).getCh i).getD [] := by
  unfold ChangeMonitor.addCh ChangeMonitor.getCh
  rw [alGet_alPut_self]
  exact mem_insName_self _ n

theorem applyOne_guard (x dx : Addr) (mc : Option (List String)) (st : SyncSt)
    (b : String) (he : st.err = true) : applyOne x dx mc st b = st := by
  unfold applyOne
  rw [if_pos he]

/-- Frame facts of one `applyOne` step: object ids are never changed, the
attributes of every object other than the target are untouched, recorded
conflicts are never removed, and the monitors and disk-side maps are
untouched. -/
theorem applyOne_frame (x dx : Addr) (mc : Option (List String)) (st : SyncSt)
    (b : String) :
    (∀ y, ((applyOne x dx mc st b).heap y).oid = (st.heap y).oid) ∧
    (∀ y n, y ≠ x → getAttr ((applyOne x dx mc st b).heap y) n = getAttr (st.heap y) n) ∧
    (∀ i n, n ∈ (st.conflictCh.getCh i).getD [] →
      n ∈ (((applyOne x dx mc st b).conflictCh.getCh i).getD [])) ∧
    (applyOne x dx mc st b).monitor = st.monitor ∧
    (applyOne x dx mc st b).diskCh = st.diskCh ∧
    (applyOne x dx mc st b).diskMap = st.diskMap := by
  by_cases he : st.err = true
  · rw [applyOne_guard x dx mc st b he]
    exact ⟨fun y => rfl, fun y n _ => rfl, fun i n hn => hn, rfl, rfl, rfl⟩
  · have hcat : ∀ (L : List Addr) (h0 : Heap) (y : Addr),
        ((L.foldl (fun h c =>
          hupd (hupd h c fun o => { o with categorizables := o.categorizables.erase x })
            x fun o => { o with categories := o.categories.erase c }) h0) y).attrs
          = (h0 y).attrs ∧
        ((L.foldl (fun h c =>
          hupd (hupd h c fun o => { o with categorizables := o.categorizables.erase x })
            x fun o => { o with categories := o.categories.erase c }) h0) y).oid
          = (h0 y).oid := by
      refine catFold_pres _ (fun h c y => ?_)
      unfold hupd
      constructor
      · split
        · split <;> rfl
        · split <;> rfl
      · split
        · split <;> rfl
        · split <;> rfl
    have hcat2 : ∀ (L : List Addr) (h0 : Heap) (y : Addr),
        ((L.foldl (fun h c =>
          hupd (hupd h c fun o => { o with categorizables := insAddr o.categorizables x })
            x fun o => { o with categories := insAddr o.categories c }) h0) y).attrs
          = (h0 y).attrs ∧
        ((L.foldl (fun h c =>
          hupd (hupd h c fun o => { o with categorizables := insAddr o.categorizables x })
            x fun o => { o with categories := insAddr o.categories c }) h0) y).oid
          = (h0 y).oid := by
      refine catFold_pres _ (fun h c y => ?_)
      unfold hupd
      constructor
      · split
        · split <;> rfl
        · split <;> rfl
      · split
        · split <;> rfl
        · split <;> rfl
    unfold applyOne
    rw [if_neg he]
    simp only []
    split_ifs with h1 h2 h3 h4 h5 h6 h7 h8
    · exact ⟨fun y => rfl, fun y n _ => rfl, fun i n hn => hn, rfl, rfl, rfl⟩
    · exact ⟨fun y => rfl, fun y n _ => rfl, fun i n hn => hn, rfl, rfl, rfl⟩
    · exact ⟨fun y => rfl, fun y n _ => rfl, fun i n hn => addCh_pos _ _ _ _ _ hn,
        rfl, rfl, rfl⟩
    · refine ⟨fun y => ?_, fun y n _ => ?_, fun i n hn => hn, rfl, rfl, rfl⟩
      · exact ((hcat2 _ _ y).2).trans ((hcat _ _ y).2)
      · unfold getAttr
        rw [(hcat2 _ _ y).1, (hcat _ _ y).1]
    · exact ⟨fun y => rfl, fun y n _ => rfl, fun i n hn => addCh_pos _ _ _ _ _ hn,
        rfl, rfl, rfl⟩
    · refine ⟨fun y => appFold_oid x dx _ st.heap y, fun y n hy => ?_,
        fun i n hn => hn, rfl, rfl, rfl⟩
      exact congrArg (fun o => getAttr o n)
        ((appFold_pres x dx
          ["foregroundColor", "backgroundColor", "font", "icon", "selectedIcon"]
          st.heap).1 y hy)
    · refine ⟨fun y => oid_hupd _ _ _ _ (fun o => rfl), fun y n hy => ?_,
        fun i n hn => hn, rfl, rfl, rfl⟩
      exact getAttr_hupd_other _ _ _ _ _ hy
    · exact ⟨fun y => rfl, fun y n _ => rfl, fun i n hn => addCh_pos _ _ _ _ _ hn,
        rfl, rfl, rfl⟩
    · refine ⟨fun y => oid_hupd _ _ _ _ (fun o => rfl), fun y n hy => ?_,
        fun i n hn => hn, rfl, rfl, rfl⟩
      exact getAttr_hupd_other _ _ _ _ _ hy

theorem catStepErase_pres (x : Addr) (h : Heap) (c : Addr) (y : Addr) :
    ((hupd (hupd h c fun o => { o with categorizables := o.categorizables.erase x })
        x fun o => { o with categories := o.categories.erase c }) y).attrs = (h y).attrs ∧
    ((hupd (hupd h c fun o => { o with categorizables := o.categorizables.erase x })
        x fun o => { o with categories := o.categories.erase c }) y).oid = (h y).oid := by
  unfold hupd
  constructor
  · split
    · split <;> rfl
    · split <;> rfl
  · split
    · split <;> rfl
    · split <;> rfl

theorem catStepIns_pres (x : Addr) (h : Heap) (c : Addr) (y : Addr) :
    ((hupd (hupd h c fun o => { o with categorizables := insAddr o.categorizables x })
        x fun o => { o with categories := insAddr o.categories c }) y).attrs = (h y).attrs ∧
    ((hupd (hupd h c fun o => { o with categorizables := insAddr o.categorizables x })
        x fun o => { o with categories := insAddr o.categories c }) y).oid = (h y).oid := by
  unfold hupd
  constructor
  · split
    · split <;> rfl
    · split <;> rfl
  · split
    · split <;> rfl
    · split <;> rfl

/-- Normal form of `applyOne` on a generic (not specially handled) change
name: conflict-and-skip when the name is locally changed and the values
differ, otherwise write the disk value through the setter. -/
theorem applyOne_gen (x dx : Addr) (mc : Option (List String)) (st : SyncSt) (b : String)
    (he : st.err = false) (h1 : b ≠ "__parent__") (h2 : b ≠ "__categories__")
    (h3 : b ≠ "appearance") (h4 : b ≠ "expandedContexts") :
    applyOne x dx mc st b =
      if hasName mc b && decide (getAttr (st.heap x) b ≠ getAttr (st.heap dx) b)
      then { st with conflictCh := st.conflictCh.addCh ((st.heap x).oid) b }
      else { st with heap := hupd st.heap x fun o => setAttr o b (getAttr (st.heap dx) b) } := by
  have he' : ¬st.err = true := by rw [he]; exact Bool.noConfusion
  unfold applyOne
  rw [if_neg he']
  simp only []
  rw [if_neg h1, if_neg h2, if_neg h3, if_neg h4]

/-- One `applyOne` step for a name `b` never changes the target object's
attribute `a ≠ b` (for `b = appearance` this needs the conflict branch or
`a` outside the five sub-attribute names). -/
theorem applyOne_attr_own (x dx : Addr) (mc : Option (List String)) (st : SyncSt)
    (b a : String) (hba : a ≠ b)
    (happ : b = "appearance" → hasName mc "appearance" = true ∨
      a ∉ ["foregroundColor", "backgroundColor", "font", "icon", "selectedIcon"]) :
    getAttr ((applyOne x dx mc st b).heap x) a = getAttr (st.heap x) a := by
  by_cases he : st.err = true
  · rw [applyOne_guard x dx mc st b he]
  · unfold applyOne
    rw [if_neg he]
    simp only []
    split_ifs with h1 h2 h3 h4 h5 h6 h7 h8
    · rfl
    · rfl
    · rfl
    · exact congrArg (fun l => (alGet l a).getD 0)
        (((catFold_pres _ (catStepIns_pres x) _ _ x).1).trans
          ((catFold_pres _ (catStepErase_pres x) _ _ x).1))
    · rfl
    · exact (appFold_pres x dx
        ["foregroundColor", "backgroundColor", "font", "icon", "selectedIcon"]
        st.heap).2 a ((happ h5).resolve_left h6)
    · have h9 := congrArg (fun o => getAttr o a)
        (hupd_self st.heap x (fun o => { o with expanded := (st.heap dx).expanded }))
      exact h9
    · rfl
    · have h9 := congrArg (fun o => getAttr o a)
        (hupd_self st.heap x (fun o => setAttr o b (getAttr (st.heap dx) b)))
      exact h9.trans (getAttr_setAttr_other _ _ _ _ hba)

/-- Frame facts of the change-name fold of one object in pass 6. -/
theorem applyFold_frame (x dx : Addr) (mc : Option (List String)) :
    ∀ (d : List String) (st : SyncSt),
      (∀ y, ((d.foldl (applyOne x dx mc) st).heap y).oid = (st.heap y).oid) ∧
      (∀ y n, y ≠ x → getAttr ((d.foldl (applyOne x dx mc) st).heap y) n
        = getAttr (st.heap y) n) ∧
      (∀ i n, n ∈ (st.conflictCh.getCh i).getD [] →
        n ∈ ((d.foldl (applyOne x dx mc) st).conflictCh.getCh i).getD []) ∧
      (d.foldl (applyOne x dx mc) st).monitor = st.monitor ∧
      (d.foldl (applyOne x dx mc) st).diskCh = st.diskCh ∧
      (d.foldl (applyOne x dx mc) st).diskMap = st.diskMap := by
  intro d
  induction d with
  | nil => intro st; exact ⟨fun y => rfl, fun y n _ => rfl, fun i n hn => hn, rfl, rfl, rfl⟩
  | cons b t ih =>
      intro st
      simp only [List.foldl_cons]
      obtain ⟨f1, f2, f3, f4, f5, f6⟩ := applyOne_frame x dx mc st b
      obtain ⟨g1, g2, g3, g4, g5, g6⟩ := ih (applyOne x dx mc st b)
      exact ⟨fun y => (g1 y).trans (f1 y),
        fun y n hy => (g2 y n hy).trans (f2 y n hy),
        fun i n hn => g3 i n (f3 i n hn),
        g4.trans f4, g5.trans f5, g6.trans f6⟩

theorem pass6Step_guard (st : SyncSt) (z : Addr) (he : st.err = true) :
    pass6Step st z = st := by
  unfold pass6Step
  rw [if_pos he]

/-- A fold of error-guarded steps started in the error state stays put. -/
theorem foldlSt_frozen {σ : Type} (step : SyncSt → σ → SyncSt)
    (hg : ∀ s z, s.err = true → step s z = s) :
    ∀ (L : List σ) (s : SyncSt), s.err = true → L.foldl step s = s := by
  intro L
  induction L with
  | nil => intro s _; rfl
  | cons z t ih =>
      intro s hs
      rw [List.foldl_cons, hg s z hs]
      exact ih s hs

/-- If a fold of error-guarded steps ends without the error flag, it also
started without it. -/
theorem foldlSt_err_back {σ : Type} (step : SyncSt → σ → SyncSt)
    (hg : ∀ s z, s.err = true → step s z = s) (L : List σ) (s : SyncSt)
    (h : (L.foldl step s).err = false) : s.err = false := by
  cases hs : s.err with
  | false => rfl
  | true =>
      rw [foldlSt_frozen step hg L s hs] at h
      rw [hs] at h
      exact Bool.noConfusion h

/-- Frame facts of one `pass6Step`: ids, other objects' attributes, recorded
conflicts (positively), and the monitors and disk maps are untouched. -/
theorem pass6Step_frame (st : SyncSt) (z : Addr) :
    (∀ y, ((pass6Step st z).heap y).oid = (st.heap y).oid) ∧
    (∀ y n, y ≠ z → getAttr ((pass6Step st z).heap y) n = getAttr (st.heap y) n) ∧
    (∀ i n, n ∈ (st.conflictCh.getCh i).getD [] →
      n ∈ ((pass6Step st z).conflictCh.getCh i).getD []) ∧
    (pass6Step st z).monitor = st.monitor ∧
    (pass6Step st z).diskCh = st.diskCh ∧
    (pass6Step st z).diskMap = st.diskMap := by
  by_cases he : st.err = true
  · rw [pass6Step_guard st z he]
    exact ⟨fun y => rfl, fun y n _ => rfl, fun i n hn => hn, rfl, rfl, rfl⟩
  · unfold pass6Step
    rw [if_neg he]
    simp only []
    split
    · exact ⟨fun y => rfl, fun y n _ => rfl, fun i n hn => hn, rfl, rfl, rfl⟩
    · split
      · exact ⟨fun y => rfl, fun y n _ => rfl, fun i n hn => hn, rfl, rfl, rfl⟩
      · split
        · exact ⟨fun y => rfl, fun y n _ => rfl, fun i n hn => hn, rfl, rfl, rfl⟩
        · exact applyFold_frame z _ _ _ st

/-- Normal form of `pass6Step` on an object with a nonempty disk change set
and a disk counterpart. -/
theorem pass6Step_self (st : SyncSt) (x : Addr) (dch : List String) (dObj : Addr)
    (he : st.err = false)
    (hg : st.diskCh.getCh ((st.heap x).oid) = some dch) (hn : dch ≠ [])
    (hdm : st.diskMap ((st.heap x).oid) = some dObj) :
    pass6Step st x
      = dch.foldl (applyOne x dObj (st.monitor.getCh ((st.heap x).oid))) st := by
  unfold pass6Step
  simp only [he, Bool.false_eq_true, if_false, hg, hn, hdm, ite_false]

/-- One `applyOne` step preserves the conflict-pass invariant: stable id,
the memory and disk values of the contested attribute, and the recorded
conflict. -/
theorem applyOne_pres_conflict (x dx : Addr) (mc : Option (List String)) (a : String)
    (i0 : OId) (vm vd : Nat)
    (h1 : a ≠ "__parent__") (h2 : a ≠ "__categories__") (h3 : a ≠ "appearance")
    (h4 : a ≠ "expandedContexts")
    (hmc : hasName mc a = true) (hne : vm ≠ vd) (hxd : dx ≠ x)
    (b : String)
    (hb5 : b = "appearance" → hasName mc "appearance" = true ∨
      a ∉ ["foregroundColor", "backgroundColor", "font", "icon", "selectedIcon"])
    (st : SyncSt)
    (hoid : (st.heap x).oid = i0) (hvm : getAttr (st.heap x) a = vm)
    (hvd : getAttr (st.heap dx) a = vd)
    (hmem : a ∈ (st.conflictCh.getCh i0).getD []) :
    ((applyOne x dx mc st b).heap x).oid = i0 ∧
    getAttr ((applyOne x dx mc st b).heap x) a = vm ∧
    getAttr ((applyOne x dx mc st b).heap dx) a = vd ∧
    a ∈ ((applyOne x dx mc st b).conflictCh.getCh i0).getD [] := by
  obtain ⟨f1, f2, f3, _, _, _⟩ := applyOne_frame x dx mc st b
  by_cases hba : b = a
  · subst hba
    by_cases he : st.err = true
    · rw [applyOne_guard x dx mc st b he]
      exact ⟨hoid, hvm, hvd, hmem⟩
    · have he' : st.err = false := by revert he; cases st.err <;> simp
      rw [applyOne_gen x dx mc st b he' h1 h2 h3 h4]
      have hcond : (hasName mc b && decide (getAttr (st.heap x) b ≠ getAttr (st.heap dx) b))
          = true := by
        rw [hmc, hvm, hvd]
        simp [hne]
      rw [if_pos hcond]
      exact ⟨hoid, hvm, hvd, addCh_pos _ _ _ _ _ hmem⟩
  · refine ⟨(f1 x).trans hoid, ?_, (f2 dx a hxd).trans hvd, f3 i0 a hmem⟩
    exact (applyOne_attr_own x dx mc st b a (fun h => hba h.symm) hb5).trans hvm

/-- The change-name fold preserves the conflict-pass invariant. -/
theorem applyFold_pres_conflict (x dx : Addr) (mc : Option (List String)) (a : String)
    (i0 : OId) (vm vd : Nat)
    (h1 : a ≠ "__parent__") (h2 : a ≠ "__categories__") (h3 : a ≠ "appearance")
    (h4 : a ≠ "expandedContexts")
    (hmc : hasName mc a = true) (hne : vm ≠ vd) (hxd : dx ≠ x) :
    ∀ (d : List String) (st : SyncSt),
      (a ∈ ["foregroundColor", "backgroundColor", "font", "icon", "selectedIcon"] →
        (hasName mc "appearance" = true ∨ "appearance" ∉ d)) →
      (st.heap x).oid = i0 → getAttr (st.heap x) a = vm →
      getAttr (st.heap dx) a = vd →
      a ∈ (st.conflictCh.getCh i0).getD [] →
      (((d.foldl (applyOne x dx mc) st)).heap x).oid = i0 ∧
      getAttr ((d.foldl (applyOne x dx mc) st).heap x) a = vm ∧
      getAttr ((d.foldl (applyOne x dx mc) st).heap dx) a = vd ∧
      a ∈ ((d.foldl (applyOne x dx mc) st).conflictCh.getCh i0).getD [] := by
  intro d
  induction d with
  | nil => intro st _ hoid hvm hvd hmem; exact ⟨hoid, hvm, hvd, hmem⟩
  | cons b t ih =>
      intro st hf hoid hvm hvd hmem
      simp only [List.foldl_cons]
      have hb5 : b = "appearance" → hasName mc "appearance" = true ∨
          a ∉ ["foregroundColor", "backgroundColor", "font", "icon", "selectedIcon"] := by
        intro hb
        by_cases ha5 : a ∈ ["foregroundColor", "backgroundColor", "font", "icon",
          "selectedIcon"]
        · rcases hf ha5 with hmt | hnm
          · exact Or.inl hmt
          · exact absurd (hb ▸ List.mem_cons_self b t) hnm
        · exact Or.inr ha5
      obtain ⟨p1, p2, p3, p4⟩ := applyOne_pres_conflict x dx mc a i0 vm vd h1 h2 h3 h4
        hmc hne hxd b hb5 st hoid hvm hvd hmem
      refine ih (applyOne x dx mc st b) ?_ p1 p2 p3 p4
      intro ha5
      rcases hf ha5 with hmt | hnm
      · exact Or.inl hmt
      · exact Or.inr (fun hmt2 => hnm (List.mem_cons_of_mem b hmt2))

/-- Establishment of the conflict-pass invariant: a generic name present in
the fold's list with a local change and differing values gets recorded as a
conflict, and the memory value survives. -/
theorem applyFold_conflict (x dx : Addr) (mc : Option (List String)) (a : String)
    (i0 : OId) (vm vd : Nat)
    (h1 : a ≠ "__parent__") (h2 : a ≠ "__categories__") (h3 : a ≠ "appearance")
    (h4 : a ≠ "expandedContexts")
    (hmc : hasName mc a = true) (hne : vm ≠ vd) (hxd : dx ≠ x) :
    ∀ (d : List String) (st : SyncSt),
      a ∈ d →
      (a ∈ ["foregroundColor", "backgroundColor", "font", "icon", "selectedIcon"] →
        (hasName mc "appearance" = true ∨ "appearance" ∉ d)) →
      (d.foldl (applyOne x dx mc) st).err = false →
      (st.heap x).oid = i0 → getAttr (st.heap x) a = vm →
      getAttr (st.heap dx) a = vd →
      (((d.foldl (applyOne x dx mc) st)).heap x).oid = i0 ∧
      getAttr ((d.foldl (applyOne x dx mc) st).heap x) a = vm ∧
      getAttr ((d.foldl (applyOne x dx mc) st).heap dx) a = vd ∧
      a ∈ ((d.foldl (applyOne x dx mc) st).conflictCh.getCh i0).getD [] := by
  intro d
  induction d with
  | nil => intro st ha _ _ _ _ _; exact absurd ha (List.not_mem_nil a)
  | cons b t ih =>
      intro st ha hf herr hoid hvm hvd
      have he' : st.err = false :=
        foldlSt_err_back (applyOne x dx mc)
          (fun s z h => applyOne_guard x dx mc s z h) (b :: t) st herr
      simp only [List.foldl_cons] at herr ⊢
      · by_cases hba : b = a
        · subst hba
          rw [applyOne_gen x dx mc st b he' h1 h2 h3 h4]
          have hcond : (hasName mc b &&
              decide (getAttr (st.heap x) b ≠ getAttr (st.heap dx) b)) = true := by
            rw [hmc, hvm, hvd]
            simp [hne]
          rw [if_pos hcond]
          refine applyFold_pres_conflict x dx mc b i0 vm vd h1 h2 h3 h4 hmc hne hxd t _ ?_
            hoid hvm hvd ?_
          · intro ha5
            rcases hf ha5 with hmt | hnm
            · exact Or.inl hmt
            · exact Or.inr (fun hmt2 => hnm (List.mem_cons_of_mem _ hmt2))
          · rw [show ({ st with conflictCh := st.conflictCh.addCh ((st.heap x).oid) b }
                : SyncSt).conflictCh = st.conflictCh.addCh ((st.heap x).oid) b from rfl,
              hoid]
            exact addCh_self_mem st.conflictCh i0 b
        · have hat : a ∈ t := by
            rcases List.mem_cons.mp ha with hc | hc
            · exact absurd hc.symm hba
            · exact hc
          have hb5 : b = "appearance" → hasName mc "appearance" = true ∨
              a ∉ ["foregroundColor", "backgroundColor", "font", "icon", "selectedIcon"] := by
            intro hb
            by_cases ha5 : a ∈ ["foregroundColor", "backgroundColor", "font", "icon",
              "selectedIcon"]
            · rcases hf ha5 with hmt | hnm
              · exact Or.inl hmt
              · exact absurd (hb ▸ List.mem_cons_self b t) hnm
            · exact Or.inr ha5
          obtain ⟨f1, f2, _, _, _, _⟩ := applyOne_frame x dx mc st b
          refine ih (applyOne x dx mc st b) hat
            (fun ha5 => (hf ha5).imp id
              (fun hnm => fun hmt2 => hnm (List.mem_cons_of_mem _ hmt2)))
            herr
            ((f1 x).trans hoid)
            ((applyOne_attr_own x dx mc st b a (fun h => hba h.symm) hb5).trans hvm)
            ((f2 dx a hxd).trans hvd)

/-- One `pass6Step` (of any object other than the disk counterpart)
preserves the conflict-pass invariant. -/
theorem pass6Step_pres_conflict (x dx : Addr) (M D : ChangeMonitor)
    (DM : OId → Option Addr) (a : String) (i0 : OId) (vm vd : Nat) (dch : List String)
    (h1 : a ≠ "__parent__") (h2 : a ≠ "__categories__") (h3 : a ≠ "appearance")
    (h4 : a ≠ "expandedContexts")
    (hne : vm ≠ vd) (hxd : dx ≠ x)
    (hD : D.getCh i0 = some dch) (hDM : DM i0 = some dx)
    (hM : hasName (M.getCh i0) a = true) (ha : a ∈ dch)
    (hf : a ∈ ["foregroundColor", "backgroundColor", "font", "icon", "selectedIcon"] →
      "appearance" ∉ dch)
    (z : Addr) (hz : z ≠ dx) (st : SyncSt)
    (hm : st.monitor = M) (hd : st.diskCh = D) (hdm : st.diskMap = DM)
    (hoid : (st.heap x).oid = i0) (hvm : getAttr (st.heap x) a = vm)
    (hvd : getAttr (st.heap dx) a = vd)
    (hmem : a ∈ (st.conflictCh.getCh i0).getD []) :
    (pass6Step st z).monitor = M ∧ (pass6Step st z).diskCh = D ∧
    (pass6Step st z).diskMap = DM ∧
    ((pass6Step st z).heap x).oid = i0 ∧ getAttr ((pass6Step st z).heap x) a = vm ∧
    getAttr ((pass6Step st z).heap dx) a = vd ∧
    a ∈ ((pass6Step st z).conflictCh.getCh i0).getD [] := by
  obtain ⟨g1, g2, g3, g4, g5, g6⟩ := pass6Step_frame st z
  by_cases hzx : z = x
  · subst hzx
    by_cases he : st.err = true
    · rw [pass6Step_guard st z he]
      exact ⟨hm, hd, hdm, hoid, hvm, hvd, hmem⟩
    · have he' : st.err = false := by revert he; cases st.err <;> simp
      have hg : st.diskCh.getCh ((st.heap z).oid) = some dch := by rw [hoid, hd, hD]
      have hn : dch ≠ [] := by
        intro h0
        rw [h0] at ha
        exact (List.not_mem_nil a) ha
      have hdm2 : st.diskMap ((st.heap z).oid) = some dx := by rw [hoid, hdm, hDM]
      rw [pass6Step_self st z dch dx he' hg hn hdm2]
      have hmc : hasName (st.monitor.getCh ((st.heap z).oid)) a = true := by
        rw [hoid, hm]
        exact hM
      obtain ⟨q1, q2, q3, q4⟩ := applyFold_pres_conflict z dx
        (st.monitor.getCh ((st.heap z).oid)) a i0 vm vd h1 h2 h3 h4 hmc hne hxd dch st
        (fun ha5 => Or.inr (hf ha5)) hoid hvm hvd hmem
      obtain ⟨r1, r2, r3, r4, r5, r6⟩ := applyFold_frame z dx
        (st.monitor.getCh ((st.heap z).oid)) dch st
      exact ⟨r4.trans hm, r5.trans hd, r6.trans hdm, q1, q2, q3, q4⟩
  · exact ⟨g4.trans hm, g5.trans hd, g6.trans hdm, (g1 x).trans hoid,
      (g2 x a (fun h => hzx h.symm)).trans hvm,
      (g2 dx a (fun h => hz h.symm)).trans hvd, g3 i0 a hmem⟩

/-- The pass-6 object fold preserves the conflict-pass invariant as long as
the disk counterpart is not in the iterated list. -/
theorem pass6Fold_pres_conflict (x dx : Addr) (M D : ChangeMonitor)
    (DM : OId → Option Addr) (a : String) (i0 : OId) (vm vd : Nat) (dch : List String)
    (h1 : a ≠ "__parent__") (h2 : a ≠ "__categories__") (h3 : a ≠ "appearance")
    (h4 : a ≠ "expandedContexts")
    (hne : vm ≠ vd) (hxd : dx ≠ x)
    (hD : D.getCh i0 = some dch) (hDM : DM i0 = some dx)
    (hM : hasName (M.getCh i0) a = true) (ha : a ∈ dch)
    (hf : a ∈ ["foregroundColor", "backgroundColor", "font", "icon", "selectedIcon"] →
      "appearance" ∉ dch) :
    ∀ (Lt : List Addr) (st : SyncSt), dx ∉ Lt →
      st.monitor = M → st.diskCh = D → st.diskMap = DM →
      (st.heap x).oid = i0 → getAttr (st.heap x) a = vm →
      getAttr (st.heap dx) a = vd →
      a ∈ (st.conflictCh.getCh i0).getD [] →
      (Lt.foldl pass6Step st).monitor = M ∧ (Lt.foldl pass6Step st).diskCh = D ∧
      (Lt.foldl pass6Step st).diskMap = DM ∧
      ((Lt.foldl pass6Step st).heap x).oid = i0 ∧
      getAttr ((Lt.foldl pass6Step st).heap x) a = vm ∧
      getAttr ((Lt.foldl pass6Step st).heap dx) a = vd ∧
      a ∈ ((Lt.foldl pass6Step st).conflictCh.getCh i0).getD [] := by
  intro Lt
  induction Lt with
  | nil => intro st _ hm hd hdm hoid hvm hvd hmem; exact ⟨hm, hd, hdm, hoid, hvm, hvd, hmem⟩
  | cons z t ih =>
      intro st hdx hm hd hdm hoid hvm hvd hmem
      simp only [List.foldl_cons]
      obtain ⟨p1, p2, p3, p4, p5, p6, p7⟩ := pass6Step_pres_conflict x dx M D DM a i0 vm vd
        dch h1 h2 h3 h4 hne hxd hD hDM hM ha hf z
        (fun h => hdx (h ▸ List.mem_cons_self z t)) st hm hd hdm hoid hvm hvd hmem
      exact ih (pass6Step st z) (fun h => hdx (List.mem_cons_of_mem z h))
        p1 p2 p3 p4 p5 p6 p7

/-- Establishment at pass level: when the target object is in the iterated
list and the pass finishes cleanly, the conflict is recorded and the memory
value survives. -/
theorem pass6Fold_conflict_main (x dx : Addr) (M D : ChangeMonitor)
    (DM : OId → Option Addr) (a : String) (i0 : OId) (vm vd : Nat) (dch : List String)
    (h1 : a ≠ "__parent__") (h2 : a ≠ "__categories__") (h3 : a ≠ "appearance")
    (h4 : a ≠ "expandedContexts")
    (hne : vm ≠ vd) (hxd : dx ≠ x)
    (hD : D.getCh i0 = some dch) (hDM : DM i0 = some dx)
    (hM : hasName (M.getCh i0) a = true) (ha : a ∈ dch)
    (hf : a ∈ ["foregroundColor", "backgroundColor", "font", "icon", "selectedIcon"] →
      "appearance" ∉ dch) :
    ∀ (Lt : List Addr) (st : SyncSt),
      x ∈ Lt → dx ∉ Lt →
      (Lt.foldl pass6Step st).err = false →
      st.monitor = M → st.diskCh = D → st.diskMap = DM →
      (st.heap x).oid = i0 → getAttr (st.heap x) a = vm →
      getAttr (st.heap dx) a = vd →
      getAttr ((Lt.foldl pass6Step st).heap x) a = vm ∧
      a ∈ ((Lt.foldl pass6Step st).conflictCh.getCh i0).getD [] := by
  intro Lt
  induction Lt with
  | nil => intro st hx _ _ _ _ _ _ _ _; exact absurd hx (List.not_mem_nil x)
  | cons z t ih =>
      intro st hx hdx herr hm hd hdm hoid hvm hvd
      have he' : st.err = false :=
        foldlSt_err_back pass6Step (fun s w h => pass6Step_guard s w h) (z :: t) st herr
      simp only [List.foldl_cons] at herr ⊢
      by_cases hzx : z = x
      · subst hzx
        have hg : st.diskCh.getCh ((st.heap z).oid) = some dch := by rw [hoid, hd, hD]
        have hn : dch ≠ [] := by
          intro h0
          rw [h0] at ha
          exact (List.not_mem_nil a) ha
        have hdm2 : st.diskMap ((st.heap z).oid) = some dx := by rw [hoid, hdm, hDM]
        have hself := pass6Step_self st z dch dx he' hg hn hdm2
        have he2 : (pass6Step st z).err = false :=
          foldlSt_err_back pass6Step (fun s w h => pass6Step_guard s w h) t _ herr
        rw [hself] at he2 ⊢
        have hmc : hasName (st.monitor.getCh ((st.heap z).oid)) a = true := by
          rw [hoid, hm]
          exact hM
        obtain ⟨e1, e2, e3, e4⟩ := applyFold_conflict z dx
          (st.monitor.getCh ((st.heap z).oid)) a i0 vm vd h1 h2 h3 h4 hmc hne hxd dch st
          ha (fun ha5 => Or.inr (hf ha5)) he2 hoid hvm hvd
        obtain ⟨r1, r2, r3, r4, r5, r6⟩ := applyFold_frame z dx
          (st.monitor.getCh ((st.heap z).oid)) dch st
        obtain ⟨q1, q2, q3, q4, q5, q6, q7⟩ := pass6Fold_pres_conflict z dx M D DM a i0
          vm vd dch h1 h2 h3 h4 hne hxd hD hDM hM ha hf t _
          (fun h => hdx (List.mem_cons_of_mem z h))
          (r4.trans hm) (r5.trans hd) (r6.trans hdm) e1 e2 e3 e4
        exact ⟨q5, q7⟩
      · obtain ⟨g1, g2, g3, g4, g5, g6⟩ := pass6Step_frame st z
        have hx' : x ∈ t := by
          rcases List.mem_cons.mp hx with hc | hc
          · exact absurd hc.symm hzx
          · exact hc
        exact ih (pass6Step st z) hx' (fun h => hdx (List.mem_cons_of_mem z h)) herr
          (g4.trans hm) (g5.trans hd) (g6.trans hdm) ((g1 x).trans hoid)
          ((g2 x a (fun h => hzx h.symm)).trans hvm)
          ((g2 dx a (fun h => hdx (h ▸ List.mem_cons_self z t))).trans hvd)

/-- Normal form of `applyOne` on the `appearance` change name. -/
theorem applyOne_app (x dx : Addr) (mc : Option (List String)) (st : SyncSt)
    (he : st.err = false) :
    applyOne x dx mc st "appearance" =
      if hasName mc "appearance" = true
      then { st with conflictCh := st.conflictCh.addCh ((st.heap x).oid) "appearance" }
      else { st with heap := List.foldl (fun h2 n => hupd h2 x fun o => setAttr o n (getAttr (h2 dx) n)) st.heap ["foregroundColor", "backgroundColor", "font", "icon", "selectedIcon"] } := by
  by_cases hm : hasName mc "appearance" = true
  · rw [if_pos hm]
    simp [applyOne, he, hm]
  · rw [if_neg hm]
    simp [applyOne, he, hm]

/-- The appearance sub-attribute fold writes the disk object's values into
the target, for every name of a duplicate-free written list. -/
theorem appFold_sets (x dx : Addr) (hxd : dx ≠ x) :
    ∀ (ns : List String) (h : Heap), ns.Nodup →
      ∀ n ∈ ns,
        getAttr ((ns.foldl
          (fun h2 m => hupd h2 x fun o => setAttr o m (getAttr (h2 dx) m)) h) x) n
          = getAttr (h dx) n := by
  intro ns
  induction ns with
  | nil => intro h _ n hn; exact absurd hn (List.not_mem_nil n)
  | cons m t ih =>
      intro h hnd n hn
      obtain ⟨hmnin, hnd2⟩ := List.nodup_cons.mp hnd
      simp only [List.foldl_cons]
      rcases List.mem_cons.mp hn with hnm | hnt
      · subst hnm
        have hstep := (appFold_pres x dx t
          (hupd h x fun o => setAttr o n (getAttr (h dx) n))).2 n hmnin
        refine hstep.trans ?_
        have h9 := congrArg (fun o => getAttr o n)
          (hupd_self h x (fun o => setAttr o n (getAttr (h dx) n)))
        exact h9.trans (getAttr_setAttr_self _ _ _)
      · exact (ih (hupd h x fun o => setAttr o m (getAttr (h dx) m)) hnd2 n hnt).trans
          (congrArg (fun o => getAttr o n) (hupd_other h x dx _ hxd))

/-- One `applyOne` step preserves the applied-value invariant: once the
target's attribute equals the (stable) disk value, it stays equal. -/
theorem applyOne_pres_apply (x dx : Addr) (mc : Option (List String)) (a : String)
    (i0 : OId) (vd : Nat)
    (h1 : a ≠ "__parent__") (h2 : a ≠ "__categories__") (h3 : a ≠ "appearance")
    (h4 : a ≠ "expandedContexts") (hxd : dx ≠ x)
    (b : String) (st : SyncSt)
    (hoid : (st.heap x).oid = i0) (hvx : getAttr (st.heap x) a = vd)
    (hvd : getAttr (st.heap dx) a = vd) :
    ((applyOne x dx mc st b).heap x).oid = i0 ∧
    getAttr ((applyOne x dx mc st b).heap x) a = vd ∧
    getAttr ((applyOne x dx mc st b).heap dx) a = vd := by
  obtain ⟨f1, f2, _, _, _, _⟩ := applyOne_frame x dx mc st b
  refine ⟨(f1 x).trans hoid, ?_, (f2 dx a hxd).trans hvd⟩
  by_cases he : st.err = true
  · rw [applyOne_guard x dx mc st b he]
    exact hvx
  · have he' : st.err = false := by revert he; cases st.err <;> simp
    by_cases hba : b = a
    · subst hba
      rw [applyOne_gen x dx mc st b he' h1 h2 h3 h4]
      have hcf : (hasName mc b &&
          decide (getAttr (st.heap x) b ≠ getAttr (st.heap dx) b)) = false := by
        rw [hvx, hvd]
        simp
      simp only [hcf, Bool.false_eq_true, if_false]
      have h9 := congrArg (fun o => getAttr o b)
        (hupd_self st.heap x (fun o => setAttr o b (getAttr (st.heap dx) b)))
      exact h9.trans ((getAttr_setAttr_self _ _ _).trans hvd)
    · by_cases hb3 : b = "appearance"
      · subst hb3
        by_cases hmca : hasName mc "appearance" = true
        · exact (applyOne_attr_own x dx mc st "appearance" a (fun h => hba h.symm)
            (fun _ => Or.inl hmca)).trans hvx
        · by_cases ha5 : a ∈ ["foregroundColor", "backgroundColor", "font", "icon",
            "selectedIcon"]
          · rw [applyOne_app x dx mc st he']
            rw [if_neg hmca]
            exact (appFold_sets x dx hxd
              ["foregroundColor", "backgroundColor", "font", "icon", "selectedIcon"]
              st.heap (by decide) a ha5).trans hvd
          · exact (applyOne_attr_own x dx mc st "appearance" a (fun h => hba h.symm)
              (fun _ => Or.inr ha5)).trans hvx
      · exact (applyOne_attr_own x dx mc st b a (fun h => hba h.symm)
          (fun h => absurd h hb3)).trans hvx

/-- The change-name fold preserves the applied-value invariant. -/
theorem applyFold_pres_apply (x dx : Addr) (mc : Option (List String)) (a : String)
    (i0 : OId) (vd : Nat)
    (h1 : a ≠ "__parent__") (h2 : a ≠ "__categories__") (h3 : a ≠ "appearance")
    (h4 : a ≠ "expandedContexts") (hxd : dx ≠ x) :
    ∀ (d : List String) (st : SyncSt),
      (st.heap x).oid = i0 → getAttr (st.heap x) a = vd →
      getAttr (st.heap dx) a = vd →
      ((d.foldl (applyOne x dx mc) st).heap x).oid = i0 ∧
      getAttr ((d.foldl (applyOne x dx mc) st).heap x) a = vd ∧
      getAttr ((d.foldl (applyOne x dx mc) st).heap dx) a = vd := by
  intro d
  induction d with
  | nil => intro st hoid hvx hvd; exact ⟨hoid, hvx, hvd⟩
  | cons b t ih =>
      intro st hoid hvx hvd
      simp only [List.foldl_cons]
      obtain ⟨p1, p2, p3⟩ := applyOne_pres_apply x dx mc a i0 vd h1 h2 h3 h4 hxd b st
        hoid hvx hvd
      exact ih (applyOne x dx mc st b) p1 p2 p3

/-- Establishment of the applied-value invariant: a generic name present in
the fold's list that is not locally changed (or whose values agree) gets the
disk value written through the setter. -/
theorem applyFold_apply (x dx : Addr) (mc : Option (List String)) (a : String)
    (i0 : OId) (vm vd : Nat)
    (h1 : a ≠ "__parent__") (h2 : a ≠ "__categories__") (h3 : a ≠ "appearance")
    (h4 : a ≠ "expandedContexts") (hxd : dx ≠ x)
    (hcond : hasName mc a = false ∨ vm = vd) :
    ∀ (d : List String) (st : SyncSt),
      a ∈ d →
      (a ∈ ["foregroundColor", "backgroundColor", "font", "icon", "selectedIcon"] →
        (hasName mc "appearance" = true ∨ "appearance" ∉ d)) →
      (d.foldl (applyOne x dx mc) st).err = false →
      (st.heap x).oid = i0 → getAttr (st.heap x) a = vm →
      getAttr (st.heap dx) a = vd →
      ((d.foldl (applyOne x dx mc) st).heap x).oid = i0 ∧
      getAttr ((d.foldl (applyOne x dx mc) st).heap x) a = vd ∧
      getAttr ((d.foldl (applyOne x dx mc) st).heap dx) a = vd := by
  intro d
  induction d with
  | nil => intro st ha _ _ _ _ _; exact absurd ha (List.not_mem_nil a)
  | cons b t ih =>
      intro st ha hf herr hoid hvm hvd
      have he' : st.err = false :=
        foldlSt_err_back (applyOne x dx mc)
          (fun s z h => applyOne_guard x dx mc s z h) (b :: t) st herr
      simp only [List.foldl_cons] at herr ⊢
      · by_cases hba : b = a
        · subst hba
          rw [applyOne_gen x dx mc st b he' h1 h2 h3 h4]
          have hcf : (hasName mc b &&
              decide (getAttr (st.heap x) b ≠ getAttr (st.heap dx) b)) = false := by
            rcases hcond with hc | hc
            · rw [hc]
              simp
            · rw [hvm, hvd, hc]
              simp
          simp only [hcf, Bool.false_eq_true, if_false]
          have h9 := congrArg (fun o => getAttr o b)
            (hupd_self st.heap x (fun o => setAttr o b (getAttr (st.heap dx) b)))
          refine applyFold_pres_apply x dx mc b i0 vd h1 h2 h3 h4 hxd t _
            ((oid_hupd st.heap x x
              (fun o => setAttr o b (getAttr (st.heap dx) b)) (fun o => rfl)).trans hoid)
            (h9.trans ((getAttr_setAttr_self _ _ _).trans hvd))
            ((getAttr_hupd_other st.heap x dx _ b hxd).trans hvd)
        · have hat : a ∈ t := by
            rcases List.mem_cons.mp ha with hc | hc
            · exact absurd hc.symm hba
            · exact hc
          have hb5 : b = "appearance" → hasName mc "appearance" = true ∨
              a ∉ ["foregroundColor", "backgroundColor", "font", "icon",
                "selectedIcon"] := by
            intro hb
            by_cases ha5 : a ∈ ["foregroundColor", "backgroundColor", "font", "icon",
              "selectedIcon"]
            · rcases hf ha5 with hmt | hnm
              · exact Or.inl hmt
              · exact absurd (hb ▸ List.mem_cons_self b t) hnm
            · exact Or.inr ha5
          obtain ⟨f1, f2, _, _, _, _⟩ := applyOne_frame x dx mc st b
          exact ih (applyOne x dx mc st b) hat
            (fun ha5 => (hf ha5).imp id
              (fun hnm => fun hmt2 => hnm (List.mem_cons_of_mem _ hmt2)))
            herr
            ((f1 x).trans hoid)
            ((applyOne_attr_own x dx mc st b a (fun h => hba h.symm) hb5).trans hvm)
            ((f2 dx a hxd).trans hvd)

/-- One `pass6Step` (of any object other than the disk counterpart)
preserves the applied-value invariant. -/
theorem pass6Step_pres_apply (x dx : Addr) (M D : ChangeMonitor)
    (DM : OId → Option Addr) (a : String) (i0 : OId) (vd : Nat) (dch : List String)
    (h1 : a ≠ "__parent__") (h2 : a ≠ "__categories__") (h3 : a ≠ "appearance")
    (h4 : a ≠ "expandedContexts") (hxd : dx ≠ x)
    (hD : D.getCh i0 = some dch) (hDM : DM i0 = some dx) (ha : a ∈ dch)
    (z : Addr) (hz : z ≠ dx) (st : SyncSt)
    (hm : st.monitor = M) (hd : st.diskCh = D) (hdm : st.diskMap = DM)
    (hoid : (st.heap x).oid = i0) (hvx : getAttr (st.heap x) a = vd)
    (hvd : getAttr (st.heap dx) a = vd) :
    (pass6Step st z).monitor = M ∧ (pass6Step st z).diskCh = D ∧
    (pass6Step st z).diskMap = DM ∧
    ((pass6Step st z).heap x).oid = i0 ∧ getAttr ((pass6Step st z).heap x) a = vd ∧
    getAttr ((pass6Step st z).heap dx) a = vd := by
  obtain ⟨g1, g2, g3, g4, g5, g6⟩ := pass6Step_frame st z
  by_cases hzx : z = x
  · subst hzx
    by_cases he : st.err = true
    · rw [pass6Step_guard st z he]
      exact ⟨hm, hd, hdm, hoid, hvx, hvd⟩
    · have he' : st.err = false := by revert he; cases st.err <;> simp
      have hg : st.diskCh.getCh ((st.heap z).oid) = some dch := by rw [hoid, hd, hD]
      have hn : dch ≠ [] := by
        intro h0
        rw [h0] at ha
        exact (List.not_mem_nil a) ha
      have hdm2 : st.diskMap ((st.heap z).oid) = some dx := by rw [hoid, hdm, hDM]
      rw [pass6Step_self st z dch dx he' hg hn hdm2]
      obtain ⟨q1, q2, q3⟩ := applyFold_pres_apply z dx
        (st.monitor.getCh ((st.heap z).oid)) a i0 vd h1 h2 h3 h4 hxd dch st
        hoid hvx hvd
      obtain ⟨r1, r2, r3, r4, r5, r6⟩ := applyFold_frame z dx
        (st.monitor.getCh ((st.heap z).oid)) dch st
      exact ⟨r4.trans hm, r5.trans hd, r6.trans hdm, q1, q2, q3⟩
  · exact ⟨g4.trans hm, g5.trans hd, g6.trans hdm, (g1 x).trans hoid,
      (g2 x a (fun h => hzx h.symm)).trans hvx,
      (g2 dx a (fun h => hz h.symm)).trans hvd⟩

/-- The pass-6 object fold preserves the applied-value invariant as long as
the disk counterpart is not in the iterated list. -/
theorem pass6Fold_pres_apply (x dx : Addr) (M D : ChangeMonitor)
    (DM : OId → Option Addr) (a : String) (i0 : OId) (vd : Nat) (dch : List String)
    (h1 : a ≠ "__parent__") (h2 : a ≠ "__categories__") (h3 : a ≠ "appearance")
    (h4 : a ≠ "expandedContexts") (hxd : dx ≠ x)
    (hD : D.getCh i0 = some dch) (hDM : DM i0 = some dx) (ha : a ∈ dch) :
    ∀ (Lt : List Addr) (st : SyncSt), dx ∉ Lt →
      st.monitor = M → st.diskCh = D → st.diskMap = DM →
      (st.heap x).oid = i0 → getAttr (st.heap x) a = vd →
      getAttr (st.heap dx) a = vd →
      (Lt.foldl pass6Step st).monitor = M ∧ (Lt.foldl pass6Step st).diskCh = D ∧
      (Lt.foldl pass6Step st).diskMap = DM ∧
      ((Lt.foldl pass6Step st).heap x).oid = i0 ∧
      getAttr ((Lt.foldl pass6Step st).heap x) a = vd ∧
      getAttr ((Lt.foldl pass6Step st).heap dx) a = vd := by
  intro Lt
  induction Lt with
  | nil => intro st _ hm hd hdm hoid hvx hvd; exact ⟨hm, hd, hdm, hoid, hvx, hvd⟩
  | cons z t ih =>
      intro st hdx hm hd hdm hoid hvx hvd
      simp only [List.foldl_cons]
      obtain ⟨p1, p2, p3, p4, p5, p6⟩ := pass6Step_pres_apply x dx M D DM a i0 vd dch
        h1 h2 h3 h4 hxd hD hDM ha z
        (fun h => hdx (h ▸ List.mem_cons_self z t)) st hm hd hdm hoid hvx hvd
      exact ih (pass6Step st z) (fun h => hdx (List.mem_cons_of_mem z h))
        p1 p2 p3 p4 p5 p6

/-- Establishment at pass level: when the target object is in the iterated
list, the name is not locally changed (or the values agree), and the pass
finishes cleanly, the disk value has been applied. -/
theorem pass6Fold_apply_main (x dx : Addr) (M D : ChangeMonitor)
    (DM : OId → Option Addr) (a : String) (i0 : OId) (vm vd : Nat) (dch : List String)
    (h1 : a ≠ "__parent__") (h2 : a ≠ "__categories__") (h3 : a ≠ "appearance")
    (h4 : a ≠ "expandedContexts") (hxd : dx ≠ x)
    (hD : D.getCh i0 = some dch) (hDM : DM i0 = some dx)
    (hcond : hasName (M.getCh i0) a = false ∨ vm = vd) (ha : a ∈ dch)
    (hf : a ∈ ["foregroundColor", "backgroundColor", "font", "icon", "selectedIcon"] →
      "appearance" ∉ dch) :
    ∀ (Lt : List Addr) (st : SyncSt),
      x ∈ Lt → dx ∉ Lt →
      (Lt.foldl pass6Step st).err = false →
      st.monitor = M → st.diskCh = D → st.diskMap = DM →
      (st.heap x).oid = i0 → getAttr (st.heap x) a = vm →
      getAttr (st.heap dx) a = vd →
      getAttr ((Lt.foldl pass6Step st).heap x) a = vd := by
  intro Lt
  induction Lt with
  | nil => intro st hx _ _ _ _ _ _ _ _; exact absurd hx (List.not_mem_nil x)
  | cons z t ih =>
      intro st hx hdx herr hm hd hdm hoid hvm hvd
      have he' : st.err = false :=
        foldlSt_err_back pass6Step (fun s w h => pass6Step_guard s w h) (z :: t) st herr
      simp only [List.foldl_cons] at herr ⊢
      by_cases hzx : z = x
      · subst hzx
        have hg : st.diskCh.getCh ((st.heap z).oid) = some dch := by rw [hoid, hd, hD]
        have hn : dch ≠ [] := by
          intro h0
          rw [h0] at ha
          exact (List.not_mem_nil a) ha
        have hdm2 : st.diskMap ((st.heap z).oid) = some dx := by rw [hoid, hdm, hDM]
        have hself := pass6Step_self st z dch dx he' hg hn hdm2
        have he2 : (pass6Step st z).err = false :=
          foldlSt_err_back pass6Step (fun s w h => pass6Step_guard s w h) t _ herr
        rw [hself] at he2 ⊢
        have hcond2 : hasName (st.monitor.getCh ((st.heap z).oid)) a = false ∨ vm = vd := by
          rcases hcond with hc | hc
          · exact Or.inl (by rw [hoid, hm]; exact hc)
          · exact Or.inr hc
        obtain ⟨e1, e2, e3⟩ := applyFold_apply z dx
          (st.monitor.getCh ((st.heap z).oid)) a i0 vm vd h1 h2 h3 h4 hxd hcond2 dch st
          ha (fun ha5 => Or.inr (hf ha5)) he2 hoid hvm hvd
        obtain ⟨r1, r2, r3, r4, r5, r6⟩ := applyFold_frame z dx
          (st.monitor.getCh ((st.heap z).oid)) dch st
        obtain ⟨q1, q2, q3, q4, q5, q6⟩ := pass6Fold_pres_apply z dx M D DM a i0 vd dch
          h1 h2 h3 h4 hxd hD hDM ha t _
          (fun h => hdx (List.mem_cons_of_mem z h))
          (r4.trans hm) (r5.trans hd) (r6.trans hdm) e1 e2 e3
        exact q5
      · obtain ⟨g1, g2, g3, g4, g5, g6⟩ := pass6Step_frame st z
        have hx' : x ∈ t := by
          rcases List.mem_cons.mp hx with hc | hc
          · exact absurd hc.symm hzx
          · exact hc
        exact ih (pass6Step st z) hx' (fun h => hdx (List.mem_cons_of_mem z h)) herr
          (g4.trans hm) (g5.trans hd) (g6.trans hdm) ((g1 x).trans hoid)
          ((g2 x a (fun h => hzx h.symm)).trans hvm)
          ((g2 dx a (fun h => hdx (h ▸ List.mem_cons_self z t))).trans hvd)

/-- C2 (amended): in the attribute-apply pass (`applyChanges`), for a
surviving in-memory object and a name of its disk-side change set outside
the sentinel and specially handled names (`__parent__`, `__categories__`,
`appearance`, `expandedContexts`): when the name is also in the local
change set and the in-memory value differs from the disk value, the name is
recorded in `conflictChanges` and the memory value is preserved; otherwise
the disk value is applied through the setter.  (The disk counterpart is not
among the iterated objects, the pass finishes without an uncaught
exception, and a five sub-attribute name is only covered when `appearance`
is not also pending from disk.) -/
theorem C2_apply_pass_generic
    (fuel : Nat) (st : SyncSt) (ml : List Addr) (mo dObj : Addr) (a : String)
    (dch : List String)
    (hmo : mo ∈ allObjects st.heap fuel (rootItems st.heap ml))
    (hdObj : dObj ∉ allObjects st.heap fuel (rootItems st.heap ml))
    (hxd : dObj ≠ mo)
    (hdch : st.diskCh.getCh ((st.heap mo).oid) = some dch)
    (ha : a ∈ dch)
    (h1 : a ≠ "__parent__") (h2 : a ≠ "__categories__") (h3 : a ≠ "appearance")
    (h4 : a ≠ "expandedContexts")
    (hfive : a ∈ ["foregroundColor", "backgroundColor", "font", "icon", "selectedIcon"] →
      "appearance" ∉ dch)
    (hdm : st.diskMap ((st.heap mo).oid) = some dObj)
    (herr : (applyChanges fuel st ml).err = false) :
    (hasName (st.monitor.getCh ((st.heap mo).oid)) a = true ∧
        getAttr (st.heap mo) a ≠ getAttr (st.heap dObj) a →
      getAttr ((applyChanges fuel st ml).heap mo) a = getAttr (st.heap mo) a ∧
      a ∈ ((applyChanges fuel st ml).conflictCh.getCh ((st.heap mo).oid)).getD []) ∧
    (hasName (st.monitor.getCh ((st.heap mo).oid)) a = false ∨
        getAttr (st.heap mo) a = getAttr (st.heap dObj) a →
      getAttr ((applyChanges fuel st ml).heap mo) a = getAttr (st.heap dObj) a) := by
  unfold applyChanges at herr ⊢
  constructor
  · rintro ⟨hm, hne⟩
    exact pass6Fold_conflict_main mo dObj st.monitor st.diskCh st.diskMap a
      ((st.heap mo).oid) (getAttr (st.heap mo) a) (getAttr (st.heap dObj) a) dch
      h1 h2 h3 h4 hne hxd hdch hdm hm ha hfive
      (allObjects st.heap fuel (rootItems st.heap ml)) st hmo hdObj herr
      rfl rfl rfl rfl rfl rfl
  · intro hcond
    exact pass6Fold_apply_main mo dObj st.monitor st.diskCh st.diskMap a
      ((st.heap mo).oid) (getAttr (st.heap mo) a) (getAttr (st.heap dObj) a) dch
      h1 h2 h3 h4 hxd hdch hdm hcond ha hfive
      (allObjects st.heap fuel (rootItems st.heap ml)) st hmo hdObj herr
      rfl rfl rfl rfl rfl rfl

/-- Witness for the amended C2 at the attribute-apply world: the `subject`
conflict is recorded for id 10 and the in-memory value 1 survives. -/
theorem C2_apply_pass_generic_witness :
    getAttr ((applyChanges 1 w8st [1]).heap 1) "subject" = getAttr (w8st.heap 1) "subject" ∧
    "subject" ∈ ((applyChanges 1 w8st [1]).conflictCh.getCh 10).getD [] :=
  (C2_apply_pass_generic 1 w8st [1] 1 2 "subject" ["subject"]
    (by decide) (by decide) (by decide) (by rfl) (by decide)
    (by decide) (by decide) (by decide) (by decide) (by decide) (by rfl) (by rfl)).1
    ⟨by rfl, by decide⟩

/-- One `applyOne` step preserves the appearance-conflict invariant (the
local change set contains `appearance`, so the appearance branch never
writes). -/
theorem applyOne_presA (x dx : Addr) (mc : Option (List String)) (i0 : OId)
    (vmf : String → Nat) (hmca : hasName mc "appearance" = true)
    (b : String)
    (hbd : ∀ n ∈ ["foregroundColor", "backgroundColor", "font", "icon", "selectedIcon"],
      n ≠ b)
    (st : SyncSt) (hoid : (st.heap x).oid = i0)
    (hvals : ∀ n ∈ ["foregroundColor", "backgroundColor", "font", "icon",
      "selectedIcon"], getAttr (st.heap x) n = vmf n)
    (hmem : "appearance" ∈ (st.conflictCh.getCh i0).getD []) :
    ((applyOne x dx mc st b).heap x).oid = i0 ∧
    (∀ n ∈ ["foregroundColor", "backgroundColor", "font", "icon", "selectedIcon"],
      getAttr ((applyOne x dx mc st b).heap x) n = vmf n) ∧
    "appearance" ∈ ((applyOne x dx mc st b).conflictCh.getCh i0).getD [] := by
  obtain ⟨f1, f2, f3, _, _, _⟩ := applyOne_frame x dx mc st b
  refine ⟨(f1 x).trans hoid, fun n hn => ?_, f3 i0 "appearance" hmem⟩
  exact (applyOne_attr_own x dx mc st b n (hbd n hn) (fun _ => Or.inl hmca)).trans
    (hvals n hn)

/-- The change-name fold preserves the appearance-conflict invariant. -/
theorem applyFold_presA (x dx : Addr) (mc : Option (List String)) (i0 : OId)
    (vmf : String → Nat) (hmca : hasName mc "appearance" = true) :
    ∀ (d : List String) (st : SyncSt),
      (∀ b ∈ d, ∀ n ∈ ["foregroundColor", "backgroundColor", "font", "icon",
        "selectedIcon"], n ≠ b) →
      (st.heap x).oid = i0 →
      (∀ n ∈ ["foregroundColor", "backgroundColor", "font", "icon", "selectedIcon"],
        getAttr (st.heap x) n = vmf n) →
      "appearance" ∈ (st.conflictCh.getCh i0).getD [] →
      ((d.foldl (applyOne x dx mc) st).heap x).oid = i0 ∧
      (∀ n ∈ ["foregroundColor", "backgroundColor", "font", "icon", "selectedIcon"],
        getAttr ((d.foldl (applyOne x dx mc) st).heap x) n = vmf n) ∧
      "appearance" ∈ ((d.foldl (applyOne x dx mc) st).conflictCh.getCh i0).getD [] := by
  intro d
  induction d with
  | nil => intro st _ hoid hvals hmem; exact ⟨hoid, hvals, hmem⟩
  | cons b t ih =>
      intro st hd hoid hvals hmem
      simp only [List.foldl_cons]
      obtain ⟨p1, p2, p3⟩ := applyOne_presA x dx mc i0 vmf hmca b
        (fun n hn => hd b (List.mem_cons_self b t) n hn) st hoid hvals hmem
      exact ih (applyOne x dx mc st b)
        (fun b2 hb2 => hd b2 (List.mem_cons_of_mem b hb2)) p1 p2 p3

/-- Establishment of the appearance-conflict invariant: processing the
`appearance` change name with a local `appearance` change records the
conflict unconditionally and writes nothing. -/
theorem applyFold_estA (x dx : Addr) (mc : Option (List String)) (i0 : OId)
    (vmf : String → Nat) (hmca : hasName mc "appearance" = true) :
    ∀ (d : List String) (st : SyncSt),
      "appearance" ∈ d →
      (∀ b ∈ d, ∀ n ∈ ["foregroundColor", "backgroundColor", "font", "icon",
        "selectedIcon"], n ≠ b) →
      (d.foldl (applyOne x dx mc) st).err = false →
      (st.heap x).oid = i0 →
      (∀ n ∈ ["foregroundColor", "backgroundColor", "font", "icon", "selectedIcon"],
        getAttr (st.heap x) n = vmf n) →
      ((d.foldl (applyOne x dx mc) st).heap x).oid = i0 ∧
      (∀ n ∈ ["foregroundColor", "backgroundColor", "font", "icon", "selectedIcon"],
        getAttr ((d.foldl (applyOne x dx mc) st).heap x) n = vmf n) ∧
      "appearance" ∈ ((d.foldl (applyOne x dx mc) st).conflictCh.getCh i0).getD [] := by
  intro d
  induction d with
  | nil => intro st ha _ _ _ _; exact absurd ha (List.not_mem_nil _)
  | cons b t ih =>
      intro st ha hd herr hoid hvals
      have he' : st.err = false :=
        foldlSt_err_back (applyOne x dx mc)
          (fun s z h => applyOne_guard x dx mc s z h) (b :: t) st herr
      simp only [List.foldl_cons] at herr ⊢
      by_cases hb : b = "appearance"
      · subst hb
        rw [applyOne_app x dx mc st he', if_pos hmca]
        refine applyFold_presA x dx mc i0 vmf hmca t _
          (fun b2 hb2 => hd b2 (List.mem_cons_of_mem _ hb2)) hoid hvals ?_
        rw [show ({ st with
              conflictCh := st.conflictCh.addCh ((st.heap x).oid) "appearance" }
            : SyncSt).conflictCh = st.conflictCh.addCh ((st.heap x).oid) "appearance"
            from rfl,
          hoid]
        exact addCh_self_mem st.conflictCh i0 "appearance"
      · have hat : "appearance" ∈ t := by
          rcases List.mem_cons.mp ha with hc | hc
          · exact absurd hc.symm hb
          · exact hc
        obtain ⟨f1, _, _, _, _, _⟩ := applyOne_frame x dx mc st b
        refine ih (applyOne x dx mc st b) hat
          (fun b2 hb2 => hd b2 (List.mem_cons_of_mem b hb2)) herr
          ((f1 x).trans hoid) (fun n hn => ?_)
        exact (applyOne_attr_own x dx mc st b n
          (hd b (List.mem_cons_self b t) n hn) (fun _ => Or.inl hmca)).trans (hvals n hn)

/-- One `applyOne` step preserves the appearance-applied invariant (no local
`appearance` change: the five sub-attribute values equal the stable disk
ones). -/
theorem applyOne_presB (x dx : Addr) (mc : Option (List String)) (i0 : OId)
    (vdf : String → Nat) (hmca : hasName mc "appearance" = false) (hxd : dx ≠ x)
    (b : String)
    (hbd : ∀ n ∈ ["foregroundColor", "backgroundColor", "font", "icon", "selectedIcon"],
      n ≠ b)
    (st : SyncSt) (hoid : (st.heap x).oid = i0)
    (hvals : ∀ n ∈ ["foregroundColor", "backgroundColor", "font", "icon",
      "selectedIcon"], getAttr (st.heap x) n = vdf n)
    (hdvals : ∀ n ∈ ["foregroundColor", "backgroundColor", "font", "icon",
      "selectedIcon"], getAttr (st.heap dx) n = vdf n) :
    ((applyOne x dx mc st b).heap x).oid = i0 ∧
    (∀ n ∈ ["foregroundColor", "backgroundColor", "font", "icon", "selectedIcon"],
      getAttr ((applyOne x dx mc st b).heap x) n = vdf n) ∧
    (∀ n ∈ ["foregroundColor", "backgroundColor", "font", "icon", "selectedIcon"],
      getAttr ((applyOne x dx mc st b).heap dx) n = vdf n) := by
  obtain ⟨f1, f2, _, _, _, _⟩ := applyOne_frame x dx mc st b
  refine ⟨(f1 x).trans hoid, fun n hn => ?_, fun n hn => (f2 dx n hxd).trans (hdvals n hn)⟩
  by_cases he : st.err = true
  · rw [applyOne_guard x dx mc st b he]
    exact hvals n hn
  · have he' : st.err = false := by revert he; cases st.err <;> simp
    by_cases hb : b = "appearance"
    · subst hb
      rw [applyOne_app x dx mc st he', if_neg (by rw [hmca]; exact Bool.noConfusion)]
      exact (appFold_sets x dx hxd
        ["foregroundColor", "backgroundColor", "font", "icon", "selectedIcon"]
        st.heap (by decide) n hn).trans (hdvals n hn)
    · exact (applyOne_attr_own x dx mc st b n (hbd n hn)
        (fun h => absurd h hb)).trans (hvals n hn)

/-- The change-name fold preserves the appearance-applied invariant. -/
theorem applyFold_presB (x dx : Addr) (mc : Option (List String)) (i0 : OId)
    (vdf : String → Nat) (hmca : hasName mc "appearance" = false) (hxd : dx ≠ x) :
    ∀ (d : List String) (st : SyncSt),
      (∀ b ∈ d, ∀ n ∈ ["foregroundColor", "backgroundColor", "font", "icon",
        "selectedIcon"], n ≠ b) →
      (st.heap x).oid = i0 →
      (∀ n ∈ ["foregroundColor", "backgroundColor", "font", "icon", "selectedIcon"],
        getAttr (st.heap x) n = vdf n) →
      (∀ n ∈ ["foregroundColor", "backgroundColor", "font", "icon", "selectedIcon"],
        getAttr (st.heap dx) n = vdf n) →
      ((d.foldl (applyOne x dx mc) st).heap x).oid = i0 ∧
      (∀ n ∈ ["foregroundColor", "backgroundColor", "font", "icon", "selectedIcon"],
        getAttr ((d.foldl (applyOne x dx mc) st).heap x) n = vdf n) ∧
      (∀ n ∈ ["foregroundColor", "backgroundColor", "font", "icon", "selectedIcon"],
        getAttr ((d.foldl (applyOne x dx mc) st).heap dx) n = vdf n) := by
  intro d
  induction d with
  | nil => intro st _ hoid hvals hdvals; exact ⟨hoid, hvals, hdvals⟩
  | cons b t ih =>
      intro st hd hoid hvals hdvals
      simp only [List.foldl_cons]
      obtain ⟨p1, p2, p3⟩ := applyOne_presB x dx mc i0 vdf hmca hxd b
        (fun n hn => hd b (List.mem_cons_self b t) n hn) st hoid hvals hdvals
      exact ih (applyOne x dx mc st b)
        (fun b2 hb2 => hd b2 (List.mem_cons_of_mem b hb2)) p1 p2 p3

/-- Establishment of the appearance-applied invariant: processing the
`appearance` change name with no local `appearance` change writes all five
disk sub-attribute values. -/
theorem applyFold_estB (x dx : Addr) (mc : Option (List String)) (i0 : OId)
    (vdf : String → Nat) (hmca : hasName mc "appearance" = false) (hxd : dx ≠ x) :
    ∀ (d : List String) (st : SyncSt),
      "appearance" ∈ d →
      (∀ b ∈ d, ∀ n ∈ ["foregroundColor", "backgroundColor", "font", "icon",
        "selectedIcon"], n ≠ b) →
      (d.foldl (applyOne x dx mc) st).err = false →
      (st.heap x).oid = i0 →
      (∀ n ∈ ["foregroundColor", "backgroundColor", "font", "icon", "selectedIcon"],
        getAttr (st.heap dx) n = vdf n) →
      ((d.foldl (applyOne x dx mc) st).heap x).oid = i0 ∧
      (∀ n ∈ ["foregroundColor", "backgroundColor", "font", "icon", "selectedIcon"],
        getAttr ((d.foldl (applyOne x dx mc) st).heap x) n = vdf n) ∧
      (∀ n ∈ ["foregroundColor", "backgroundColor", "font", "icon", "selectedIcon"],
        getAttr ((d.foldl (applyOne x dx mc) st).heap dx) n = vdf n) := by
  intro d
  induction d with
  | nil => intro st ha _ _ _; exact absurd ha (List.not_mem_nil _)
  | cons b t ih =>
      intro st ha hd herr hoid hdvals
      have he' : st.err = false :=
        foldlSt_err_back (applyOne x dx mc)
          (fun s z h => applyOne_guard x dx mc s z h) (b :: t) st herr
      simp only [List.foldl_cons] at herr ⊢
      by_cases hb : b = "appearance"
      · subst hb
        rw [applyOne_app x dx mc st he', if_neg (by rw [hmca]; exact Bool.noConfusion)]
        refine applyFold_presB x dx mc i0 vdf hmca hxd t _
          (fun b2 hb2 => hd b2 (List.mem_cons_of_mem _ hb2))
          ((appFold_oid x dx
            ["foregroundColor", "backgroundColor", "font", "icon", "selectedIcon"]
            st.heap x).trans hoid)
          (fun n hn => (appFold_sets x dx hxd
            ["foregroundColor", "backgroundColor", "font", "icon", "selectedIcon"]
            st.heap (by decide) n hn).trans (hdvals n hn))
          (fun n hn => ?_)
        exact (congrArg (fun o => getAttr o n)
          ((appFold_pres x dx
            ["foregroundColor", "backgroundColor", "font", "icon", "selectedIcon"]
            st.heap).1 dx hxd)).trans (hdvals n hn)
      · have hat : "appearance" ∈ t := by
          rcases List.mem_cons.mp ha with hc | hc
          · exact absurd hc.symm hb
          · exact hc
        obtain ⟨f1, f2, _, _, _, _⟩ := applyOne_frame x dx mc st b
        exact ih (applyOne x dx mc st b) hat
          (fun b2 hb2 => hd b2 (List.mem_cons_of_mem b hb2)) herr
          ((f1 x).trans hoid)
          (fun n hn => (f2 dx n hxd).trans (hdvals n hn))

/-- One `pass6Step` preserves the appearance-conflict invariant. -/
theorem pass6Step_presA (x dx : Addr) (M D : ChangeMonitor) (DM : OId → Option Addr)
    (i0 : OId) (vmf : String → Nat) (dch : List String)
    (hD : D.getCh i0 = some dch) (hDM : DM i0 = some dx)
    (hAppM : hasName (M.getCh i0) "appearance" = true)
    (hApp : "appearance" ∈ dch)
    (hdisj : ∀ n ∈ ["foregroundColor", "backgroundColor", "font", "icon",
      "selectedIcon"], n ∉ dch)
    (z : Addr) (st : SyncSt)
    (hm : st.monitor = M) (hd : st.diskCh = D) (hdm : st.diskMap = DM)
    (hoid : (st.heap x).oid = i0)
    (hvals : ∀ n ∈ ["foregroundColor", "backgroundColor", "font", "icon",
      "selectedIcon"], getAttr (st.heap x) n = vmf n)
    (hmem : "appearance" ∈ (st.conflictCh.getCh i0).getD []) :
    (pass6Step st z).monitor = M ∧ (pass6Step st z).diskCh = D ∧
    (pass6Step st z).diskMap = DM ∧
    ((pass6Step st z).heap x).oid = i0 ∧
    (∀ n ∈ ["foregroundColor", "backgroundColor", "font", "icon", "selectedIcon"],
      getAttr ((pass6Step st z).heap x) n = vmf n) ∧
    "appearance" ∈ ((pass6Step st z).conflictCh.getCh i0).getD [] := by
  obtain ⟨g1, g2, g3, g4, g5, g6⟩ := pass6Step_frame st z
  by_cases hzx : z = x
  · subst hzx
    by_cases he : st.err = true
    · rw [pass6Step_guard st z he]
      exact ⟨hm, hd, hdm, hoid, hvals, hmem⟩
    · have he' : st.err = false := by revert he; cases st.err <;> simp
      have hg : st.diskCh.getCh ((st.heap z).oid) = some dch := by rw [hoid, hd, hD]
      have hn : dch ≠ [] := by
        intro h0
        rw [h0] at hApp
        exact (List.not_mem_nil _) hApp
      have hdm2 : st.diskMap ((st.heap z).oid) = some dx := by rw [hoid, hdm, hDM]
      rw [pass6Step_self st z dch dx he' hg hn hdm2]
      have hmca : hasName (st.monitor.getCh ((st.heap z).oid)) "appearance" = true := by
        rw [hoid, hm]
        exact hAppM
      obtain ⟨q1, q2, q3⟩ := applyFold_presA z dx
        (st.monitor.getCh ((st.heap z).oid)) i0 vmf hmca dch st
        (fun b hb n hn heq => hdisj n hn (by rw [heq]; exact hb))
        hoid hvals hmem
      obtain ⟨r1, r2, r3, r4, r5, r6⟩ := applyFold_frame z dx
        (st.monitor.getCh ((st.heap z).oid)) dch st
      exact ⟨r4.trans hm, r5.trans hd, r6.trans hdm, q1, q2, q3⟩
  · exact ⟨g4.trans hm, g5.trans hd, g6.trans hdm, (g1 x).trans hoid,
      (fun n hn => (g2 x n (fun h => hzx h.symm)).trans (hvals n hn)),
      g3 i0 "appearance" hmem⟩

/-- The pass-6 object fold preserves the appearance-conflict invariant. -/
theorem pass6Fold_presA (x dx : Addr) (M D : ChangeMonitor) (DM : OId → Option Addr)
    (i0 : OId) (vmf : String → Nat) (dch : List String)
    (hD : D.getCh i0 = some dch) (hDM : DM i0 = some dx)
    (hAppM : hasName (M.getCh i0) "appearance" = true)
    (hApp : "appearance" ∈ dch)
    (hdisj : ∀ n ∈ ["foregroundColor", "backgroundColor", "font", "icon",
      "selectedIcon"], n ∉ dch) :
    ∀ (Lt : List Addr) (st : SyncSt),
      st.monitor = M → st.diskCh = D → st.diskMap = DM →
      (st.heap x).oid = i0 →
      (∀ n ∈ ["foregroundColor", "backgroundColor", "font", "icon", "selectedIcon"],
        getAttr (st.heap x) n = vmf n) →
      "appearance" ∈ (st.conflictCh.getCh i0).getD [] →
      (Lt.foldl pass6Step st).monitor = M ∧ (Lt.foldl pass6Step st).diskCh = D ∧
      (Lt.foldl pass6Step st).diskMap = DM ∧
      ((Lt.foldl pass6Step st).heap x).oid = i0 ∧
      (∀ n ∈ ["foregroundColor", "backgroundColor", "font", "icon", "selectedIcon"],
        getAttr ((Lt.foldl pass6Step st).heap x) n = vmf n) ∧
      "appearance" ∈ ((Lt.foldl pass6Step st).conflictCh.getCh i0).getD [] := by
  intro Lt
  induction Lt with
  | nil => intro st hm hd hdm hoid hvals hmem; exact ⟨hm, hd, hdm, hoid, hvals, hmem⟩
  | cons z t ih =>
      intro st hm hd hdm hoid hvals hmem
      simp only [List.foldl_cons]
      obtain ⟨p1, p2, p3, p4, p5, p6⟩ := pass6Step_presA x dx M D DM i0 vmf dch
        hD hDM hAppM hApp hdisj z st hm hd hdm hoid hvals hmem
      exact ih (pass6Step st z) p1 p2 p3 p4 p5 p6

/-- Establishment at pass level for the appearance-conflict case. -/
theorem pass6Fold_A_main (x dx : Addr) (M D : ChangeMonitor) (DM : OId → Option Addr)
    (i0 : OId) (vmf : String → Nat) (dch : List String)
    (hD : D.getCh i0 = some dch) (hDM : DM i0 = some dx)
    (hAppM : hasName (M.getCh i0) "appearance" = true)
    (hApp : "appearance" ∈ dch)
    (hdisj : ∀ n ∈ ["foregroundColor", "backgroundColor", "font", "icon",
      "selectedIcon"], n ∉ dch) :
    ∀ (Lt : List Addr) (st : SyncSt),
      x ∈ Lt →
      (Lt.foldl pass6Step st).err = false →
      st.monitor = M → st.diskCh = D → st.diskMap = DM →
      (st.heap x).oid = i0 →
      (∀ n ∈ ["foregroundColor", "backgroundColor", "font", "icon", "selectedIcon"],
        getAttr (st.heap x) n = vmf n) →
      (∀ n ∈ ["foregroundColor", "backgroundColor", "font", "icon", "selectedIcon"],
        getAttr ((Lt.foldl pass6Step st).heap x) n = vmf n) ∧
      "appearance" ∈ ((Lt.foldl pass6Step st).conflictCh.getCh i0).getD [] := by
  intro Lt
  induction Lt with
  | nil => intro st hx _ _ _ _ _ _; exact absurd hx (List.not_mem_nil x)
  | cons z t ih =>
      intro st hx herr hm hd hdm hoid hvals
      have he' : st.err = false :=
        foldlSt_err_back pass6Step (fun s w h => pass6Step_guard s w h) (z :: t) st herr
      simp only [List.foldl_cons] at herr ⊢
      by_cases hzx : z = x
      · subst hzx
        have hg : st.diskCh.getCh ((st.heap z).oid) = some dch := by rw [hoid, hd, hD]
        have hn : dch ≠ [] := by
          intro h0
          rw [h0] at hApp
          exact (List.not_mem_nil _) hApp
        have hdm2 : st.diskMap ((st.heap z).oid) = some dx := by rw [hoid, hdm, hDM]
        have hself := pass6Step_self st z dch dx he' hg hn hdm2
        have he2 : (pass6Step st z).err = false :=
          foldlSt_err_back pass6Step (fun s w h => pass6Step_guard s w h) t _ herr
        rw [hself] at he2 ⊢
        have hmca : hasName (st.monitor.getCh ((st.heap z).oid)) "appearance" = true := by
          rw [hoid, hm]
          exact hAppM
        obtain ⟨e1, e2, e3⟩ := applyFold_estA z dx
          (st.monitor.getCh ((st.heap z).oid)) i0 vmf hmca dch st hApp
          (fun b hb n hn heq => hdisj n hn (by rw [heq]; exact hb))
          he2 hoid hvals
        obtain ⟨r1, r2, r3, r4, r5, r6⟩ := applyFold_frame z dx
          (st.monitor.getCh ((st.heap z).oid)) dch st
        obtain ⟨q1, q2, q3, q4, q5, q6⟩ := pass6Fold_presA z dx M D DM i0 vmf dch
          hD hDM hAppM hApp hdisj t _
          (r4.trans hm) (r5.trans hd) (r6.trans hdm) e1 e2 e3
        exact ⟨q5, q6⟩
      · obtain ⟨g1, g2, g3, g4, g5, g6⟩ := pass6Step_frame st z
        have hx' : x ∈ t := by
          rcases List.mem_cons.mp hx with hc | hc
          · exact absurd hc.symm hzx
          · exact hc
        exact ih (pass6Step st z) hx' herr
          (g4.trans hm) (g5.trans hd) (g6.trans hdm) ((g1 x).trans hoid)
          (fun n hn => (g2 x n (fun h => hzx h.symm)).trans (hvals n hn))

/-- One `pass6Step` preserves the appearance-applied invariant. -/
theorem pass6Step_presB (x dx : Addr) (M D : ChangeMonitor) (DM : OId → Option Addr)
    (i0 : OId) (vdf : String → Nat) (dch : List String) (hxd : dx ≠ x)
    (hD : D.getCh i0 = some dch) (hDM : DM i0 = some dx)
    (hAppM : hasName (M.getCh i0) "appearance" = false)
    (hApp : "appearance" ∈ dch)
    (hdisj : ∀ n ∈ ["foregroundColor", "backgroundColor", "font", "icon",
      "selectedIcon"], n ∉ dch)
    (z : Addr) (hz : z ≠ dx) (st : SyncSt)
    (hm : st.monitor = M) (hd : st.diskCh = D) (hdm : st.diskMap = DM)
    (hoid : (st.heap x).oid = i0)
    (hvals : ∀ n ∈ ["foregroundColor", "backgroundColor", "font", "icon",
      "selectedIcon"], getAttr (st.heap x) n = vdf n)
    (hdvals : ∀ n ∈ ["foregroundColor", "backgroundColor", "font", "icon",
      "selectedIcon"], getAttr (st.heap dx) n = vdf n) :
    (pass6Step st z).monitor = M ∧ (pass6Step st z).diskCh = D ∧
    (pass6Step st z).diskMap = DM ∧
    ((pass6Step st z).heap x).oid = i0 ∧
    (∀ n ∈ ["foregroundColor", "backgroundColor", "font", "icon", "selectedIcon"],
      getAttr ((pass6Step st z).heap x) n = vdf n) ∧
    (∀ n ∈ ["foregroundColor", "backgroundColor", "font", "icon", "selectedIcon"],
      getAttr ((pass6Step st z).heap dx) n = vdf n) := by
  obtain ⟨g1, g2, g3, g4, g5, g6⟩ := pass6Step_frame st z
  by_cases hzx : z = x
  · subst hzx
    by_cases he : st.err = true
    · rw [pass6Step_guard st z he]
      exact ⟨hm, hd, hdm, hoid, hvals, hdvals⟩
    · have he' : st.err = false := by revert he; cases st.err <;> simp
      have hg : st.diskCh.getCh ((st.heap z).oid) = some dch := by rw [hoid, hd, hD]
      have hn : dch ≠ [] := by
        intro h0
        rw [h0] at hApp
        exact (List.not_mem_nil _) hApp
      have hdm2 : st.diskMap ((st.heap z).oid) = some dx := by rw [hoid, hdm, hDM]
      rw [pass6Step_self st z dch dx he' hg hn hdm2]
      have hmca : hasName (st.monitor.getCh ((st.heap z).oid)) "appearance" = false := by
        rw [hoid, hm]
        exact hAppM
      obtain ⟨q1, q2, q3⟩ := applyFold_presB z dx
        (st.monitor.getCh ((st.heap z).oid)) i0 vdf hmca hxd dch st
        (fun b hb n hn heq => hdisj n hn (by rw [heq]; exact hb))
        hoid hvals hdvals
      obtain ⟨r1, r2, r3, r4, r5, r6⟩ := applyFold_frame z dx
        (st.monitor.getCh ((st.heap z).oid)) dch st
      exact ⟨r4.trans hm, r5.trans hd, r6.trans hdm, q1, q2, q3⟩
  · exact ⟨g4.trans hm, g5.trans hd, g6.trans hdm, (g1 x).trans hoid,
      (fun n hn => (g2 x n (fun h => hzx h.symm)).trans (hvals n hn)),
      (fun n hn => (g2 dx n (fun h => hz h.symm)).trans (hdvals n hn))⟩

/-- The pass-6 object fold preserves the appearance-applied invariant. -/
theorem pass6Fold_presB (x dx : Addr) (M D : ChangeMonitor) (DM : OId → Option Addr)
    (i0 : OId) (vdf : String → Nat) (dch : List String) (hxd : dx ≠ x)
    (hD : D.getCh i0 = some dch) (hDM : DM i0 = some dx)
    (hAppM : hasName (M.getCh i0) "appearance" = false)
    (hApp : "appearance" ∈ dch)
    (hdisj : ∀ n ∈ ["foregroundColor", "backgroundColor", "font", "icon",
      "selectedIcon"], n ∉ dch) :
    ∀ (Lt : List Addr) (st : SyncSt), dx ∉ Lt →
      st.monitor = M → st.diskCh = D → st.diskMap = DM →
      (st.heap x).oid = i0 →
      (∀ n ∈ ["foregroundColor", "backgroundColor", "font", "icon", "selectedIcon"],
        getAttr (st.heap x) n = vdf n) →
      (∀ n ∈ ["foregroundColor", "backgroundColor", "font", "icon", "selectedIcon"],
        getAttr (st.heap dx) n = vdf n) →
      ((Lt.foldl pass6Step st).heap x).oid = i0 ∧
      (∀ n ∈ ["foregroundColor", "backgroundColor", "font", "icon", "selectedIcon"],
        getAttr ((Lt.foldl pass6Step st).heap x) n = vdf n) ∧
      (∀ n ∈ ["foregroundColor", "backgroundColor", "font", "icon", "selectedIcon"],
        getAttr ((Lt.foldl pass6Step st).heap dx) n = vdf n) := by
  intro Lt
  induction Lt with
  | nil => intro st _ _ _ _ hoid hvals hdvals; exact ⟨hoid, hvals, hdvals⟩
  | cons z t ih =>
      intro st hdx hm hd hdm hoid hvals hdvals
      simp only [List.foldl_cons]
      obtain ⟨p1, p2, p3, p4, p5, p6⟩ := pass6Step_presB x dx M D DM i0 vdf dch hxd
        hD hDM hAppM hApp hdisj z
        (fun h => hdx (h ▸ List.mem_cons_self z t)) st hm hd hdm hoid hvals hdvals
      exact ih (pass6Step st z) (fun h => hdx (List.mem_cons_of_mem z h))
        p1 p2 p3 p4 p5 p6

/-- Establishment at pass level for the appearance-applied case. -/
theorem pass6Fold_B_main (x dx : Addr) (M D : ChangeMonitor) (DM : OId → Option Addr)
    (i0 : OId) (vdf : String → Nat) (dch : List String) (hxd : dx ≠ x)
    (hD : D.getCh i0 = some dch) (hDM : DM i0 = some dx)
    (hAppM : hasName (M.getCh i0) "appearance" = false)
    (hApp : "appearance" ∈ dch)
    (hdisj : ∀ n ∈ ["foregroundColor", "backgroundColor", "font", "icon",
      "selectedIcon"], n ∉ dch) :
    ∀ (Lt : List Addr) (st : SyncSt),
      x ∈ Lt → dx ∉ Lt →
      (Lt.foldl pass6Step st).err = false →
      st.monitor = M → st.diskCh = D → st.diskMap = DM →
      (st.heap x).oid = i0 →
      (∀ n ∈ ["foregroundColor", "backgroundColor", "font", "icon", "selectedIcon"],
        getAttr (st.heap dx) n = vdf n) →
      ∀ n ∈ ["foregroundColor", "backgroundColor", "font", "icon", "selectedIcon"],
        getAttr ((Lt.foldl pass6Step st).heap x) n = vdf n := by
  intro Lt
  induction Lt with
  | nil => intro st hx _ _ _ _ _ _ _; exact absurd hx (List.not_mem_nil x)
  | cons z t ih =>
      intro st hx hdx herr hm hd hdm hoid hdvals
      have he' : st.err = false :=
        foldlSt_err_back pass6Step (fun s w h => pass6Step_guard s w h) (z :: t) st herr
      simp only [List.foldl_cons] at herr ⊢
      by_cases hzx : z = x
      · subst hzx
        have hg : st.diskCh.getCh ((st.heap z).oid) = some dch := by rw [hoid, hd, hD]
        have hn : dch ≠ [] := by
          intro h0
          rw [h0] at hApp
          exact (List.not_mem_nil _) hApp
        have hdm2 : st.diskMap ((st.heap z).oid) = some dx := by rw [hoid, hdm, hDM]
        have hself := pass6Step_self st z dch dx he' hg hn hdm2
        have he2 : (pass6Step st z).err = false :=
          foldlSt_err_back pass6Step (fun s w h => pass6Step_guard s w h) t _ herr
        rw [hself] at he2 ⊢
        have hmca : hasName (st.monitor.getCh ((st.heap z).oid)) "appearance" = false := by
          rw [hoid, hm]
          exact hAppM
        obtain ⟨e1, e2, e3⟩ := applyFold_estB z dx
          (st.monitor.getCh ((st.heap z).oid)) i0 vdf hmca hxd dch st hApp
          (fun b hb n hn heq => hdisj n hn (by rw [heq]; exact hb))
          he2 hoid hdvals
        obtain ⟨r1, r2, r3, r4, r5, r6⟩ := applyFold_frame z dx
          (st.monitor.getCh ((st.heap z).oid)) dch st
        obtain ⟨q1, q2, q3⟩ := pass6Fold_presB z dx M D DM i0 vdf dch hxd
          hD hDM hAppM hApp hdisj t _
          (fun h => hdx (List.mem_cons_of_mem z h))
          (r4.trans hm) (r5.trans hd) (r6.trans hdm) e1 e2 e3
        exact q2
      · obtain ⟨g1, g2, g3, g4, g5, g6⟩ := pass6Step_frame st z
        have hx' : x ∈ t := by
          rcases List.mem_cons.mp hx with hc | hc
          · exact absurd hc.symm hzx
          · exact hc
        exact ih (pass6Step st z) hx' (fun h => hdx (List.mem_cons_of_mem z h)) herr
          (g4.trans hm) (g5.trans hd) (g6.trans hdm) ((g1 x).trans hoid)
          (fun n hn => (g2 dx n (fun h => hdx (h ▸ List.mem_cons_self z t))).trans
            (hdvals n hn))

/-- C5 (amended): in the attribute-apply pass, when an object's disk-side
change set contains `appearance`: if the local change set also contains
`appearance`, a single `appearance` conflict is recorded in
`conflictChanges` unconditionally (even when every sub-attribute agrees, as
the differing ones only feed a printed debug list) and none of the five
sub-attribute values is written; if the local change set does not contain
`appearance`, the five disk sub-attribute values are all applied.  (The
disk counterpart is not among the iterated objects, none of the five
sub-attribute names is itself in the disk change set, and the pass finishes
without an uncaught exception.) -/
theorem C5_appearance_amended
    (fuel : Nat) (st : SyncSt) (ml : List Addr) (mo dObj : Addr) (dch : List String)
    (hmo : mo ∈ allObjects st.heap fuel (rootItems st.heap ml))
    (hdObj : dObj ∉ allObjects st.heap fuel (rootItems st.heap ml))
    (hxd : dObj ≠ mo)
    (hdch : st.diskCh.getCh ((st.heap mo).oid) = some dch)
    (hApp : "appearance" ∈ dch)
    (hdisj : ∀ n ∈ ["foregroundColor", "backgroundColor", "font", "icon",
      "selectedIcon"], n ∉ dch)
    (hdm : st.diskMap ((st.heap mo).oid) = some dObj)
    (herr : (applyChanges fuel st ml).err = false) :
    (hasName (st.monitor.getCh ((st.heap mo).oid)) "appearance" = true →
      "appearance" ∈
        ((applyChanges fuel st ml).conflictCh.getCh ((st.heap mo).oid)).getD [] ∧
      ∀ n ∈ ["foregroundColor", "backgroundColor", "font", "icon", "selectedIcon"],
        getAttr ((applyChanges fuel st ml).heap mo) n = getAttr (st.heap mo) n) ∧
    (hasName (st.monitor.getCh ((st.heap mo).oid)) "appearance" = false →
      ∀ n ∈ ["foregroundColor", "backgroundColor", "font", "icon", "selectedIcon"],
        getAttr ((applyChanges fuel st ml).heap mo) n = getAttr (st.heap dObj) n) := by
  unfold applyChanges at herr ⊢
  constructor
  · intro hAppM
    obtain ⟨hv, hc⟩ := pass6Fold_A_main mo dObj st.monitor st.diskCh st.diskMap
      ((st.heap mo).oid) (fun n => getAttr (st.heap mo) n) dch
      hdch hdm hAppM hApp hdisj
      (allObjects st.heap fuel (rootItems st.heap ml)) st hmo herr
      rfl rfl rfl rfl (fun n _ => rfl)
    exact ⟨hc, hv⟩
  · intro hAppM
    exact pass6Fold_B_main mo dObj st.monitor st.diskCh st.diskMap
      ((st.heap mo).oid) (fun n => getAttr (st.heap dObj) n) dch hxd
      hdch hdm hAppM hApp hdisj
      (allObjects st.heap fuel (rootItems st.heap ml)) st hmo hdObj herr
      rfl rfl rfl rfl (fun n _ => rfl)

/-- Witness for the amended C5 at the appearance world: with `appearance`
changed on both sides the conflict is recorded for id 20 even though only
the foreground color differs, and the in-memory foreground color 1
survives. -/
theorem C5_appearance_amended_witness :
    "appearance" ∈ ((applyChanges 1 wApst [3]).conflictCh.getCh 20).getD [] ∧
    getAttr ((applyChanges 1 wApst [3]).heap 3) "foregroundColor"
      = getAttr (wApst.heap 3) "foregroundColor" := by
  have h := (C5_appearance_amended 1 wApst [3] 3 4 ["appearance"]
    (by decide) (by decide) (by decide) (by rfl) (by decide) (by decide)
    (by rfl) (by rfl)).1 (by rfl)
  exact ⟨h.1, h.2 "foregroundColor" (by decide)⟩

theorem mput_other (m : OId → Option Addr) (k : OId) (v : Addr) (u : OId)
    (h : u ≠ k) : mput m k v u = m u := by
  unfold mput
  rw [if_neg h]

theorem detachIter_subset : ∀ (f : Nat) (l : List Addr) (k : Nat) (x : Addr),
    x ∈ detachIter f l k → x ∈ l := by
  intro f
  induction f with
  | zero => intro l k x hx; exact hx
  | succ f ih =>
      intro l k x hx
      unfold detachIter at hx
      split at hx
      · exact List.erase_subset _ _ (ih _ _ x hx)
      · exact hx

theorem mem_app_single {n x : Addr} (l : List Addr) (h : n ≠ x) :
    n ∈ l ++ [x] ↔ n ∈ l := by
  simp [List.mem_append, h]

theorem HR_refl (n : Addr) (h : Heap) : HR n h h :=
  ⟨fun _ => rfl, fun _ => rfl, rfl, fun _ hb => hb,
    fun _ => Iff.rfl, fun _ => Iff.rfl, fun _ => Iff.rfl⟩

theorem HR_trans {n : Addr} {h0 h1 h2 : Heap} (a : HR n h0 h1) (b : HR n h1 h2) :
    HR n h0 h2 :=
  ⟨fun x => (b.1 x).trans (a.1 x), fun x => (b.2.1 x).trans (a.2.1 x),
    b.2.2.1.trans a.2.2.1,
    fun x hx => a.2.2.2.1 x (b.2.2.2.1 x hx),
    fun x => (b.2.2.2.2.1 x).trans (a.2.2.2.2.1 x),
    fun x => (b.2.2.2.2.2.1 x).trans (a.2.2.2.2.2.1 x),
    fun x => (b.2.2.2.2.2.2 x).trans (a.2.2.2.2.2.2 x)⟩

/-- `HR` from a single object update whose field rewrite respects the
clauses. -/
theorem HR_hupd (n a : Addr) (h : Heap) (f : ObjData → ObjData)
    (f1 : ∀ o, (f o).oid = o.oid) (f2 : ∀ o, (f o).kind = o.kind)
    (f3 : a = n → ∀ o, (f o).parent = o.parent)
    (f4 : ∀ o, n ∈ (f o).children → n ∈ o.children)
    (f5 : ∀ o, n ∈ (f o).notes ↔ n ∈ o.notes)
    (f6 : ∀ o, n ∈ (f o).attachments ↔ n ∈ o.attachments)
    (f7 : ∀ o, n ∈ (f o).efforts ↔ n ∈ o.efforts) :
    HR n h (hupd h a f) := by
  refine ⟨fun b => ?_, fun b => ?_, ?_, fun b hb => ?_, fun b => ?_, fun b => ?_,
    fun b => ?_⟩
  · unfold hupd
    split
    · exact f1 _
    · rfl
  · unfold hupd
    split
    · exact f2 _
    · rfl
  · unfold hupd
    split
    · rename_i he
      exact f3 he.symm _
    · rfl
  · unfold hupd at hb
    split at hb
    · exact f4 _ hb
    · exact hb
  · unfold hupd
    split
    · exact f5 _
    · exact Iff.rfl
  · unfold hupd
    split
    · exact f6 _
    · exact Iff.rfl
  · unfold hupd
    split
    · exact f7 _
    · exact Iff.rfl

theorem HR_detach (n a : Addr) (h : Heap) :
    HR n h (hupd h a fun ob =>
      { ob with children := detachIter ob.children.length ob.children 0 }) :=
  HR_hupd n a h _ (fun _ => rfl) (fun _ => rfl) (fun _ _ => rfl)
    (fun o hb => detachIter_subset _ _ _ _ hb)
    (fun _ => Iff.rfl) (fun _ => Iff.rfl) (fun _ => Iff.rfl)

theorem HR_setParentH (n c : Addr) (p : Option Addr) (h : Heap) (hc : c ≠ n) :
    HR n h (setParentH h c p) :=
  HR_hupd n c h _ (fun _ => rfl) (fun _ => rfl) (fun he => absurd he hc)
    (fun _ hb => hb) (fun _ => Iff.rfl) (fun _ => Iff.rfl) (fun _ => Iff.rfl)

theorem HR_addChildH (n p c : Addr) (h : Heap) (hc : c ≠ n) :
    HR n h (addChildH h p c) :=
  HR_trans
    (HR_hupd n p h (fun o => { o with children := o.children ++ [c] })
      (fun _ => rfl) (fun _ => rfl) (fun _ _ => rfl)
      (fun o hb => ((mem_app_single o.children (fun he => hc he.symm)).mp hb))
      (fun _ => Iff.rfl) (fun _ => Iff.rfl) (fun _ => Iff.rfl))
    (HR_setParentH n c (some p) _ hc)

theorem HR_addOwnedH (n w x : Addr) (h : Heap) (hx : x ≠ n) :
    HR n h (addOwnedH h w x) := by
  unfold addOwnedH
  split
  · exact HR_hupd n w h _ (fun _ => rfl) (fun _ => rfl) (fun _ _ => rfl)
      (fun _ hb => hb) (fun _ => Iff.rfl)
      (fun o => mem_app_single o.attachments (fun he => hx he.symm))
      (fun _ => Iff.rfl)
  · exact HR_hupd n w h _ (fun _ => rfl) (fun _ => rfl) (fun _ _ => rfl)
      (fun _ hb => hb)
      (fun o => mem_app_single o.notes (fun he => hx he.symm))
      (fun _ => Iff.rfl) (fun _ => Iff.rfl)

theorem HR_setTaskH (n e t : Addr) (h : Heap) (he : e ≠ n) :
    HR n h (setTaskH h e t) := by
  have s1 : HR n h (match (h e).parent with
      | some old => hupd h old fun o => { o with efforts := o.efforts.erase e }
      | none => h) := by
    split
    · exact HR_hupd n _ h (fun o => { o with efforts := o.efforts.erase e })
        (fun _ => rfl) (fun _ => rfl) (fun _ _ => rfl)
        (fun _ hb => hb) (fun _ => Iff.rfl) (fun _ => Iff.rfl)
        (fun o => List.mem_erase_of_ne (fun h2 => he h2.symm))
    · exact HR_refl n h
  unfold setTaskH
  simp only []
  refine HR_trans (HR_trans s1 ?_) (HR_setParentH n e (some t) _ he)
  exact HR_hupd n t _ (fun o => { o with efforts := o.efforts ++ [e] })
    (fun _ => rfl) (fun _ => rfl) (fun _ _ => rfl)
    (fun _ hb => hb) (fun _ => Iff.rfl) (fun _ => Iff.rfl)
    (fun o => mem_app_single o.efforts (fun h2 => he h2.symm))

theorem handleNO1_guard (fuel : Nat) (s : SyncSt) (a : Addr) (he : s.err = true) :
    handleNO1 fuel s a = s := by
  cases fuel with
  | zero => rfl
  | succ f =>
      unfold handleNO1
      rw [if_pos he]

theorem handleNE1_guard (s : SyncSt) (e : Addr) (he : s.err = true) :
    handleNE1 s e = s := by
  unfold handleNE1
  rw [if_pos he]

theorem pass2Step_guard (fuel : Nat) (s : SyncSt) (a : Addr) (he : s.err = true) :
    pass2Step fuel s a = s := by
  unfold pass2Step
  rw [if_pos he]

/-- `handleNO1` restructured: the non-recursive first phase (`sNO1core`),
then the error check and the three recursion folds. -/
theorem handleNO1_succ (f : Nat) (s : SyncSt) (a : Addr) :
    handleNO1 (f + 1) s a =
      if s.err then s else
      let st1 := sNO1core f s a
      if st1.err then st1 else
      if (st1.memMap ((s.heap a).oid)).isSome then
        let st2 := if isComposite ((s.heap a).kind) then
            ((s.heap a).children).foldl (fun s2 c => handleNO1 f s2 c) st1
          else st1
        let st3 := if isNoteOwner ((s.heap a).kind) then
            ((st2.heap a).notes).foldl (fun s2 c => handleNO1 f s2 c) st2
          else st2
        if isAttachmentOwner ((s.heap a).kind) then
          ((st3.heap a).attachments).foldl (fun s2 c => handleNO1 f s2 c) st3
        else st3
      else st1 := rfl

theorem foldlP_pres {σ : Type} (P : SyncSt → Prop) (step : SyncSt → σ → SyncSt)
    (hstep : ∀ s c, P s → P (step s c)) :
    ∀ (l : List σ) (s : SyncSt), P s → P (l.foldl step s) := by
  intro l
  induction l with
  | nil => intro s hs; exact hs
  | cons c t ih =>
      intro s hs
      rw [List.foldl_cons]
      exact ih _ (hstep s c hs)

/-- The first phase of one `_handleNewOwnedObjectsOnDisk` iteration
preserves the orphan invariant. -/
theorem sNO1core_presP (st0 : SyncSt) (n own : Addr) (i j : OId)
    (hi : (st0.heap n).oid = i) (hj : (st0.heap own).oid = j)
    (hod : hasName (st0.monitor.getCh j) "__del__" = true)
    (huniq : ∀ b, (st0.heap b).oid = i → b = n)
    (huniq2 : ∀ b, (st0.heap b).oid = j → b = own)
    (hsafe : ((st0.heap n).parent = none ∧ st0.diskOwnerMap i = some own) ∨
      (isComposite (st0.heap n).kind = false ∧ (st0.heap n).parent = some own ∧
        st0.diskOwnerMap i = none))
    (f : Nat) (s : SyncSt) (a : Addr) (hP : P4inv st0 n i j s) :
    P4inv st0 n i j (sNO1core f s a) := by
  obtain ⟨hHR, hmon, hdom, hmi, hmj⟩ := hP
  have hkey_i : a ≠ n → ¬((s.heap a).oid = i) :=
    fun hne hk => hne (huniq a ((hHR.1 a).symm.trans hk))
  unfold sNO1core
  simp only []
  split_ifs with hguard hcomp
  · have hkj : ¬((s.heap a).oid = j) := by
      intro hk
      have hdel2 : hasName (s.monitor.getCh ((s.heap a).oid)) "__del__" = true := by
        rw [hmon, hk]
        exact hod
      rw [hdel2] at hguard
      simp at hguard
    split
    · rename_i p hp
      have han : a ≠ n := by
        intro hea
        rw [hea] at hp hcomp
        have hpar : (hupd s.heap n (fun ob =>
            { ob with children := detachIter ob.children.length ob.children 0 }) n).parent
            = (s.heap n).parent := by
          unfold hupd
          simp
        rw [hpar, hHR.2.2.1] at hp
        rcases hsafe with ⟨hpn, _⟩ | ⟨hnc, _, _⟩
        · rw [hpn] at hp
          exact Option.noConfusion hp
        · rw [hHR.2.1 n, hnc] at hcomp
          exact Bool.noConfusion hcomp
      split
      · rename_i mp hmp
        refine ⟨HR_trans hHR (HR_trans (HR_detach n a s.heap)
          (HR_trans (HR_addChildH n mp a _ han) (HR_setParentH n a (some mp) _ han))),
          hmon, hdom, ?_, ?_⟩
        · exact (mput_other s.memMap _ a i (fun h => hkey_i han h.symm)).trans hmi
        · exact (mput_other s.memMap _ a j (fun h => hkj h.symm)).trans hmj
      · split
        · exact ⟨HR_trans hHR (HR_trans (HR_detach n a s.heap)
            (HR_setParentH n a none _ han)), hmon, hdom, hmi, hmj⟩
        · rename_i dOwner hdo
          split
          · rename_i mOwner hmo2
            refine ⟨HR_trans hHR (HR_trans (HR_detach n a s.heap)
              (HR_trans (HR_setParentH n a none _ han) (HR_addOwnedH n mOwner a _ han))),
              hmon, hdom, ?_, ?_⟩
            · exact (mput_other s.memMap _ a i (fun h => hkey_i han h.symm)).trans hmi
            · exact (mput_other s.memMap _ a j (fun h => hkj h.symm)).trans hmj
          · refine ⟨HR_trans hHR (HR_trans (HR_detach n a s.heap)
              (HR_setParentH n a none _ han)), hmon, hdom, ?_, ?_⟩
            · exact (mput_other s.memMap _ a i (fun h => hkey_i han h.symm)).trans hmi
            · exact (mput_other s.memMap _ a j (fun h => hkj h.symm)).trans hmj
    · rename_i hp
      split
      · exact ⟨HR_trans hHR (HR_detach n a s.heap), hmon, hdom, hmi, hmj⟩
      · rename_i dOwner hdo
        split
        · rename_i mOwner hmo2
          have han : a ≠ n := by
            intro hea
            rw [hea] at hdo hmo2 hcomp
            rcases hsafe with ⟨hpn2, hdoi⟩ | ⟨hnc, _, _⟩
            · rw [hHR.1 n, hi, hdom, hdoi] at hdo
              have hde : dOwner = own := (Option.some.injEq _ _).mp hdo.symm
              rw [hde] at hmo2
              have hoo : ((hupd s.heap n (fun ob =>
                  { ob with children := detachIter ob.children.length ob.children 0 }) own).oid)
                  = (s.heap own).oid :=
                oid_hupd s.heap n own _ (fun o => rfl)
              rw [hoo, hHR.1 own, hj, hmj] at hmo2
              exact Option.noConfusion hmo2
            · rw [hHR.2.1 n, hnc] at hcomp
              exact Bool.noConfusion hcomp
          refine ⟨HR_trans hHR (HR_trans (HR_detach n a s.heap)
            (HR_addOwnedH n mOwner a _ han)), hmon, hdom, ?_, ?_⟩
          · exact (mput_other s.memMap _ a i (fun h => hkey_i han h.symm)).trans hmi
          · exact (mput_other s.memMap _ a j (fun h => hkj h.symm)).trans hmj
        · exact ⟨HR_trans hHR (HR_detach n a s.heap), hmon, hdom, hmi, hmj⟩
  · have hkj : ¬((s.heap a).oid = j) := by
      intro hk
      have hdel2 : hasName (s.monitor.getCh ((s.heap a).oid)) "__del__" = true := by
        rw [hmon, hk]
        exact hod
      rw [hdel2] at hguard
      simp at hguard
    split
    · exact ⟨hHR, hmon, hdom, hmi, hmj⟩
    · rename_i dOwner hdo
      split
      · rename_i mOwner hmo2
        have han : a ≠ n := by
          intro hea
          rw [hea] at hdo
          rcases hsafe with ⟨hpn2, hdoi⟩ | ⟨hnc, hps, hdoi⟩
          · rw [hHR.1 n, hi, hdom, hdoi] at hdo
            have hde : dOwner = own := (Option.some.injEq _ _).mp hdo.symm
            rw [hde, hHR.1 own, hj, hmj] at hmo2
            exact Option.noConfusion hmo2
          · rw [hHR.1 n, hi, hdom, hdoi] at hdo
            exact Option.noConfusion hdo
        refine ⟨HR_trans hHR (HR_addOwnedH n mOwner a s.heap han), hmon, hdom, ?_, ?_⟩
        · exact (mput_other s.memMap _ a i (fun h => hkey_i han h.symm)).trans hmi
        · exact (mput_other s.memMap _ a j (fun h => hkj h.symm)).trans hmj
      · exact ⟨hHR, hmon, hdom, hmi, hmj⟩
  · exact ⟨hHR, hmon, hdom, hmi, hmj⟩

/-- One `_handleNewEffortsOnDisk` iteration preserves the orphan
invariant. -/
theorem handleNE1_presP (st0 : SyncSt) (n own : Addr) (i j : OId)
    (hi : (st0.heap n).oid = i) (hj : (st0.heap own).oid = j)
    (hod : hasName (st0.monitor.getCh j) "__del__" = true)
    (huniq : ∀ b, (st0.heap b).oid = i → b = n)
    (huniq2 : ∀ b, (st0.heap b).oid = j → b = own)
    (hsafe : ((st0.heap n).parent = none ∧ st0.diskOwnerMap i = some own) ∨
      (isComposite (st0.heap n).kind = false ∧ (st0.heap n).parent = some own ∧
        st0.diskOwnerMap i = none))
    (s : SyncSt) (e : Addr) (hP : P4inv st0 n i j s) :
    P4inv st0 n i j (handleNE1 s e) := by
  obtain ⟨hHR, hmon, hdom, hmi, hmj⟩ := hP
  by_cases he : s.err = true
  · rw [handleNE1_guard s e he]
    exact ⟨hHR, hmon, hdom, hmi, hmj⟩
  · unfold handleNE1
    rw [if_neg he]
    simp only []
    split_ifs with hguard
    · split
      · exact ⟨hHR, hmon, hdom, hmi, hmj⟩
      · rename_i dt hdt
        split
        · rename_i mt hmt
          have hen : e ≠ n := by
            intro hen
            subst hen
            rcases hsafe with ⟨hpn, _⟩ | ⟨_, hps, _⟩
            · rw [hHR.2.2.1, hpn] at hdt
              exact Option.noConfusion hdt
            · rw [hHR.2.2.1, hps] at hdt
              have hdto : dt = own := (Option.some.injEq _ _).mp hdt.symm
              subst hdto
              rw [hHR.1 dt, hj, hmj] at hmt
              exact Option.noConfusion hmt
          have hki : (s.heap e).oid ≠ i := by
            intro hk
            exact hen (huniq e ((hHR.1 e).symm.trans hk))
          have hkj : (s.heap e).oid ≠ j := by
            intro hk
            have heo : e = own := huniq2 e ((hHR.1 e).symm.trans hk)
            have hdel2 : hasName (s.monitor.getCh ((s.heap e).oid)) "__del__" = true := by
              rw [hmon, hk]
              exact hod
            rw [hdel2] at hguard
            simp at hguard
          refine ⟨HR_trans hHR (HR_setTaskH n e mt s.heap hen), hmon, hdom, ?_, ?_⟩
          · exact (mput_other s.memMap _ e i (fun h => hki h.symm)).trans hmi
          · exact (mput_other s.memMap _ e j (fun h => hkj h.symm)).trans hmj
        · exact ⟨hHR, hmon, hdom, hmi, hmj⟩
    · exact ⟨hHR, hmon, hdom, hmi, hmj⟩

theorem condFold_pres {σ : Type} (P : SyncSt → Prop) (step : SyncSt → σ → SyncSt)
    (hstep : ∀ s c, P s → P (step s c)) (c : Prop) [Decidable c] (l : List σ)
    (s : SyncSt) (hs : P s) : P (if c then l.foldl step s else s) := by
  split
  · exact foldlP_pres P step hstep l s hs
  · exact hs

/-- `_handleNewOwnedObjectsOnDisk` preserves the orphan invariant. -/
theorem handleNO1_presP (st0 : SyncSt) (n own : Addr) (i j : OId)
    (hi : (st0.heap n).oid = i) (hj : (st0.heap own).oid = j)
    (hod : hasName (st0.monitor.getCh j) "__del__" = true)
    (huniq : ∀ b, (st0.heap b).oid = i → b = n)
    (huniq2 : ∀ b, (st0.heap b).oid = j → b = own)
    (hsafe : ((st0.heap n).parent = none ∧ st0.diskOwnerMap i = some own) ∨
      (isComposite (st0.heap n).kind = false ∧ (st0.heap n).parent = some own ∧
        st0.diskOwnerMap i = none)) :
    ∀ (fuel : Nat) (s : SyncSt) (a : Addr), P4inv st0 n i j s →
      P4inv st0 n i j (handleNO1 fuel s a) := by
  intro fuel
  induction fuel with
  | zero => intro s a hP; exact hP
  | succ f ih =>
      intro s a hP
      rw [handleNO1_succ f s a]
      by_cases he : s.err = true
      · rw [if_pos he]
        exact hP
      · rw [if_neg he]
        simp only []
        have h1 := sNO1core_presP st0 n own i j hi hj hod huniq huniq2 hsafe f s a hP
        split
        · exact h1
        · split
          · exact condFold_pres _ _ (fun s2 c => ih s2 c) _ _ _
              (condFold_pres _ _ (fun s2 c => ih s2 c) _ _ _
                (condFold_pres _ _ (fun s2 c => ih s2 c) _ _ _ h1))
          · exact h1

theorem handleNE1_confpos (s : SyncSt) (e : Addr) (i2 : OId) (q : String)
    (h : q ∈ (s.conflictCh.getCh i2).getD []) :
    q ∈ ((handleNE1 s e).conflictCh.getCh i2).getD [] := by
  by_cases he : s.err = true
  · rw [handleNE1_guard s e he]
    exact h
  · unfold handleNE1
    rw [if_neg he]
    simp only []
    split_ifs with hg
    · split
      · exact h
      · split
        · exact h
        · exact addCh_pos _ _ _ _ _ h
    · exact h

theorem sNO1core_confpos (f : Nat) (s : SyncSt) (a : Addr) (i2 : OId) (q : String)
    (h : q ∈ (s.conflictCh.getCh i2).getD []) :
    q ∈ ((sNO1core f s a).conflictCh.getCh i2).getD [] := by
  unfold sNO1core
  simp only []
  split_ifs with hg hc
  · split
    · split
      · exact h
      · split
        · exact h
        · split
          · exact addCh_pos _ _ _ _ _ h
          · exact h
    · split
      · exact h
      · split
        · exact h
        · exact addCh_pos _ _ _ _ _ h
  · split
    · exact h
    · split
      · exact h
      · exact addCh_pos _ _ _ _ _ h
  · exact h

theorem handleNO1_confpos : ∀ (fuel : Nat) (s : SyncSt) (a : Addr) (i2 : OId)
    (q : String), q ∈ (s.conflictCh.getCh i2).getD [] →
    q ∈ ((handleNO1 fuel s a).conflictCh.getCh i2).getD [] := by
  intro fuel
  induction fuel with
  | zero => intro s a i2 q h; exact h
  | succ f ih =>
      intro s a i2 q h
      rw [handleNO1_succ f s a]
      by_cases he : s.err = true
      · rw [if_pos he]
        exact h
      · rw [if_neg he]
        simp only []
        have h1 := sNO1core_confpos f s a i2 q h
        split
        · exact h1
        · split
          · exact condFold_pres (fun s2 => q ∈ (s2.conflictCh.getCh i2).getD []) _
              (fun s2 c => ih s2 c i2 q) _ _ _
              (condFold_pres (fun s2 => q ∈ (s2.conflictCh.getCh i2).getD []) _
                (fun s2 c => ih s2 c i2 q) _ _ _
                (condFold_pres (fun s2 => q ∈ (s2.conflictCh.getCh i2).getD []) _
                  (fun s2 c => ih s2 c i2 q) _ _ _ h1))
          · exact h1

/-- Establishment: the first phase of `_handleNewOwnedObjectsOnDisk` on the
orphan itself records the `__del__` conflict and adds nothing. -/
theorem sNO1core_est (st0 : SyncSt) (n own : Addr) (i j : OId)
    (hi : (st0.heap n).oid = i) (hj : (st0.heap own).oid = j)
    (hdel : hasName (st0.monitor.getCh i) "__del__" = false)
    (hpn : (st0.heap n).parent = none) (hdoi : st0.diskOwnerMap i = some own)
    (f : Nat) (s : SyncSt) (hP : P4inv st0 n i j s) :
    "__del__" ∈ ((sNO1core f s n).conflictCh.getCh i).getD [] ∧
    P4inv st0 n i j (sNO1core f s n) ∧
    (sNO1core f s n).err = s.err := by
  obtain ⟨hHR, hmon, hdom, hmi, hmj⟩ := hP
  have hoidn : (s.heap n).oid = i := (hHR.1 n).trans hi
  have hg : ((s.memMap ((s.heap n).oid)).isNone &&
      !hasName (s.monitor.getCh ((s.heap n).oid)) "__del__") = true := by
    rw [hoidn, hmi, hmon, hdel]
    rfl
  have hmem2 : "__del__" ∈
      ((s.conflictCh.addCh ((s.heap n).oid) "__del__").getCh i).getD [] := by
    rw [hoidn]
    exact addCh_self_mem s.conflictCh i "__del__"
  have hdo2 : s.diskOwnerMap ((s.heap n).oid) = some own := by
    rw [hoidn, hdom, hdoi]
  unfold sNO1core
  simp only []
  rw [if_pos hg]
  by_cases hc : isComposite ((s.heap n).kind) = true
  · rw [if_pos hc]
    have hpar0 : ((hupd s.heap n fun ob =>
        { ob with children := detachIter ob.children.length ob.children 0 }) n).parent
        = (s.heap n).parent := by
      unfold hupd
      simp
    have hpar : ((hupd s.heap n fun ob =>
        { ob with children := detachIter ob.children.length ob.children 0 }) n).parent
        = none := by
      rw [hpar0, hHR.2.2.1, hpn]
    have hmo : s.memMap (((hupd s.heap n fun ob =>
        { ob with children := detachIter ob.children.length ob.children 0 }) own).oid)
        = none := by
      rw [oid_hupd s.heap n own (fun ob =>
        { ob with children := detachIter ob.children.length ob.children 0 })
        (fun o => rfl), hHR.1 own, hj, hmj]
    simp only [hpar, hdo2, hmo]
    exact ⟨hmem2,
      ⟨HR_trans hHR (HR_detach n n s.heap), hmon, hdom, hmi, hmj⟩, trivial⟩
  · rw [if_neg hc]
    have hmo : s.memMap ((s.heap own).oid) = none := by
      rw [hHR.1 own, hj, hmj]
    simp only [hdo2, hmo]
    exact ⟨hmem2, ⟨hHR, hmon, hdom, hmi, hmj⟩, trivial⟩

/-- Establishment through the full `_handleNewOwnedObjectsOnDisk`
iteration on the orphan. -/
theorem handleNO1_est (st0 : SyncSt) (n own : Addr) (i j : OId)
    (hi : (st0.heap n).oid = i) (hj : (st0.heap own).oid = j)
    (hdel : hasName (st0.monitor.getCh i) "__del__" = false)
    (hpn : (st0.heap n).parent = none) (hdoi : st0.diskOwnerMap i = some own)
    (f : Nat) (s : SyncSt) (he : s.err = false) (hP : P4inv st0 n i j s) :
    "__del__" ∈ ((handleNO1 (f + 1) s n).conflictCh.getCh i).getD [] ∧
    P4inv st0 n i j (handleNO1 (f + 1) s n) := by
  obtain ⟨hcmem, hcP, hcerr⟩ := sNO1core_est st0 n own i j hi hj hdel hpn hdoi f s hP
  have hoidn : (s.heap n).oid = i := (hP.1.1 n).trans hi
  rw [handleNO1_succ f s n, if_neg (show ¬s.err = true by rw [he]; exact Bool.noConfusion)]
  simp only []
  rw [if_neg (show ¬(sNO1core f s n).err = true by
    rw [hcerr, he]; exact Bool.noConfusion)]
  have h2 : ((sNO1core f s n).memMap ((s.heap n).oid)).isSome = false := by
    rw [hoidn, hcP.2.2.2.1]
    rfl
  rw [if_neg (show ¬((sNO1core f s n).memMap ((s.heap n).oid)).isSome = true by
    rw [h2]; exact Bool.noConfusion)]
  exact ⟨hcmem, hcP⟩

/-- Establishment through one `_handleNewEffortsOnDisk` iteration on the
orphan effort. -/
theorem handleNE1_est (st0 : SyncSt) (n own : Addr) (i j : OId)
    (hi : (st0.heap n).oid = i) (hj : (st0.heap own).oid = j)
    (hdel : hasName (st0.monitor.getCh i) "__del__" = false)
    (hps : (st0.heap n).parent = some own)
    (s : SyncSt) (he : s.err = false) (hP : P4inv st0 n i j s) :
    "__del__" ∈ ((handleNE1 s n).conflictCh.getCh i).getD [] ∧
    P4inv st0 n i j (handleNE1 s n) := by
  obtain ⟨hHR, hmon, hdom, hmi, hmj⟩ := hP
  have hoidn : (s.heap n).oid = i := (hHR.1 n).trans hi
  have hg : ((s.memMap ((s.heap n).oid)).isNone &&
      !hasName (s.monitor.getCh ((s.heap n).oid)) "__del__") = true := by
    rw [hoidn, hmi, hmon, hdel]
    rfl
  have hmem2 : "__del__" ∈
      ((s.conflictCh.addCh ((s.heap n).oid) "__del__").getCh i).getD [] := by
    rw [hoidn]
    exact addCh_self_mem s.conflictCh i "__del__"
  unfold handleNE1
  rw [if_neg (show ¬s.err = true by rw [he]; exact Bool.noConfusion)]
  simp only []
  rw [if_pos hg]
  have hpar : (s.heap n).parent = some own := hHR.2.2.1.trans hps
  have hmo : s.memMap ((s.heap own).oid) = none := by
    rw [hHR.1 own, hj, hmj]
  simp only [hpar, hmo]
  exact ⟨hmem2, hHR, hmon, hdom, hmi, hmj⟩

theorem condFold_guard {σ : Type} (step : SyncSt → σ → SyncSt)
    (hg : ∀ s z, s.err = true → step s z = s) (c : Prop) [Decidable c] (l : List σ)
    (s : SyncSt) (hs : s.err = true) : (if c then l.foldl step s else s) = s := by
  split
  · exact foldlSt_frozen step hg l s hs
  · rfl

/-- Establishment inside a `_handleNewOwnedObjectsOnDisk` collection fold. -/
theorem foldNO_est (st0 : SyncSt) (n own : Addr) (i j : OId)
    (hi : (st0.heap n).oid = i) (hj : (st0.heap own).oid = j)
    (hdel : hasName (st0.monitor.getCh i) "__del__" = false)
    (hod : hasName (st0.monitor.getCh j) "__del__" = true)
    (huniq : ∀ b, (st0.heap b).oid = i → b = n)
    (huniq2 : ∀ b, (st0.heap b).oid = j → b = own)
    (hpn : (st0.heap n).parent = none) (hdoi : st0.diskOwnerMap i = some own)
    (f : Nat) :
    ∀ (l : List Addr) (s : SyncSt), n ∈ l →
      (l.foldl (fun s2 c => handleNO1 (f + 1) s2 c) s).err = false →
      P4inv st0 n i j s →
      "__del__" ∈
        ((l.foldl (fun s2 c => handleNO1 (f + 1) s2 c) s).conflictCh.getCh i).getD [] ∧
      P4inv st0 n i j (l.foldl (fun s2 c => handleNO1 (f + 1) s2 c) s) := by
  have hsafe : ((st0.heap n).parent = none ∧ st0.diskOwnerMap i = some own) ∨
      (isComposite (st0.heap n).kind = false ∧ (st0.heap n).parent = some own ∧
        st0.diskOwnerMap i = none) := Or.inl ⟨hpn, hdoi⟩
  intro l
  induction l with
  | nil => intro s hn _ _; exact absurd hn (List.not_mem_nil n)
  | cons c t ih =>
      intro s hn herr hP
      have he' : s.err = false :=
        foldlSt_err_back _ (fun s2 z h => handleNO1_guard (f + 1) s2 z h) (c :: t) s herr
      simp only [List.foldl_cons] at herr ⊢
      by_cases hcn : c = n
      · rw [hcn] at herr ⊢
        obtain ⟨m1, p1⟩ := handleNO1_est st0 n own i j hi hj hdel hpn hdoi f s he' hP
        exact foldlP_pres
          (fun s2 => "__del__" ∈ ((s2.conflictCh.getCh i).getD []) ∧ P4inv st0 n i j s2)
          _ (fun s2 c2 h => ⟨handleNO1_confpos (f + 1) s2 c2 i "__del__" h.1,
            handleNO1_presP st0 n own i j hi hj hod huniq huniq2 hsafe (f + 1) s2 c2 h.2⟩)
          t _ ⟨m1, p1⟩
      · have hnt : n ∈ t := by
          rcases List.mem_cons.mp hn with hc2 | hc2
          · exact absurd hc2.symm hcn
          · exact hc2
        exact ih _ hnt herr
          (handleNO1_presP st0 n own i j hi hj hod huniq huniq2 hsafe (f + 1) s c hP)

/-- Establishment inside the `_handleNewEffortsOnDisk` fold. -/
theorem foldNE_est (st0 : SyncSt) (n own : Addr) (i j : OId)
    (hi : (st0.heap n).oid = i) (hj : (st0.heap own).oid = j)
    (hdel : hasName (st0.monitor.getCh i) "__del__" = false)
    (hod : hasName (st0.monitor.getCh j) "__del__" = true)
    (huniq : ∀ b, (st0.heap b).oid = i → b = n)
    (huniq2 : ∀ b, (st0.heap b).oid = j → b = own)
    (hnc : isComposite (st0.heap n).kind = false)
    (hps : (st0.heap n).parent = some own) (hdoi : st0.diskOwnerMap i = none) :
    ∀ (l : List Addr) (s : SyncSt), n ∈ l →
      (l.foldl handleNE1 s).err = false →
      P4inv st0 n i j s →
      "__del__" ∈ ((l.foldl handleNE1 s).conflictCh.getCh i).getD [] ∧
      P4inv st0 n i j (l.foldl handleNE1 s) := by
  have hsafe : ((st0.heap n).parent = none ∧ st0.diskOwnerMap i = some own) ∨
      (isComposite (st0.heap n).kind = false ∧ (st0.heap n).parent = some own ∧
        st0.diskOwnerMap i = none) := Or.inr ⟨hnc, hps, hdoi⟩
  intro l
  induction l with
  | nil => intro s hn _ _; exact absurd hn (List.not_mem_nil n)
  | cons c t ih =>
      intro s hn herr hP
      have he' : s.err = false :=
        foldlSt_err_back _ (fun s2 z h => handleNE1_guard s2 z h) (c :: t) s herr
      simp only [List.foldl_cons] at herr ⊢
      by_cases hcn : c = n
      · rw [hcn] at herr ⊢
        obtain ⟨m1, p1⟩ := handleNE1_est st0 n own i j hi hj hdel hps s he' hP
        exact foldlP_pres
          (fun s2 => "__del__" ∈ ((s2.conflictCh.getCh i).getD []) ∧ P4inv st0 n i j s2)
          _ (fun s2 c2 h => ⟨handleNE1_confpos s2 c2 i "__del__" h.1,
            handleNE1_presP st0 n own i j hi hj hod huniq huniq2 hsafe s2 c2 h.2⟩)
          t _ ⟨m1, p1⟩
      · have hnt : n ∈ t := by
          rcases List.mem_cons.mp hn with hc2 | hc2
          · exact absurd hc2.symm hcn
          · exact hc2
        exact ih _ hnt herr
          (handleNE1_presP st0 n own i j hi hj hod huniq huniq2 hsafe s c hP)

/-- One pass-2 iteration preserves the orphan invariant. -/
theorem pass2Step_presP (st0 : SyncSt) (n own : Addr) (i j : OId)
    (hi : (st0.heap n).oid = i) (hj : (st0.heap own).oid = j)
    (hod : hasName (st0.monitor.getCh j) "__del__" = true)
    (huniq : ∀ b, (st0.heap b).oid = i → b = n)
    (huniq2 : ∀ b, (st0.heap b).oid = j → b = own)
    (hsafe : ((st0.heap n).parent = none ∧ st0.diskOwnerMap i = some own) ∨
      (isComposite (st0.heap n).kind = false ∧ (st0.heap n).parent = some own ∧
        st0.diskOwnerMap i = none))
    (fuel : Nat) (s : SyncSt) (a : Addr) (hP : P4inv st0 n i j s) :
    P4inv st0 n i j (pass2Step fuel s a) := by
  by_cases he : s.err = true
  · rw [pass2Step_guard fuel s a he]
    exact hP
  · unfold pass2Step
    rw [if_neg he]
    simp only []
    exact condFold_pres _ handleNE1
      (fun s2 c => handleNE1_presP st0 n own i j hi hj hod huniq huniq2 hsafe s2 c) _ _ _
      (condFold_pres _ _
        (fun s2 c => handleNO1_presP st0 n own i j hi hj hod huniq huniq2 hsafe fuel s2 c)
        _ _ _
        (condFold_pres _ _
          (fun s2 c => handleNO1_presP st0 n own i j hi hj hod huniq huniq2 hsafe fuel s2 c)
          _ _ _ hP))

/-- One pass-2 iteration preserves the orphan invariant together with the
recorded `__del__` conflict. -/
theorem pass2Step_presPM (st0 : SyncSt) (n own : Addr) (i j : OId)
    (hi : (st0.heap n).oid = i) (hj : (st0.heap own).oid = j)
    (hod : hasName (st0.monitor.getCh j) "__del__" = true)
    (huniq : ∀ b, (st0.heap b).oid = i → b = n)
    (huniq2 : ∀ b, (st0.heap b).oid = j → b = own)
    (hsafe : ((st0.heap n).parent = none ∧ st0.diskOwnerMap i = some own) ∨
      (isComposite (st0.heap n).kind = false ∧ (st0.heap n).parent = some own ∧
        st0.diskOwnerMap i = none))
    (fuel : Nat) (s : SyncSt) (a : Addr)
    (hPM : "__del__" ∈ ((s.conflictCh.getCh i).getD []) ∧ P4inv st0 n i j s) :
    "__del__" ∈ (((pass2Step fuel s a).conflictCh.getCh i).getD []) ∧
    P4inv st0 n i j (pass2Step fuel s a) := by
  by_cases he : s.err = true
  · rw [pass2Step_guard fuel s a he]
    exact hPM
  · unfold pass2Step
    rw [if_neg he]
    simp only []
    exact condFold_pres (fun s2 => "__del__" ∈ ((s2.conflictCh.getCh i).getD []) ∧ P4inv st0 n i j s2) handleNE1
      (fun s2 c h => ⟨handleNE1_confpos s2 c i "__del__" h.1,
        handleNE1_presP st0 n own i j hi hj hod huniq huniq2 hsafe s2 c h.2⟩) _ _ _
      (condFold_pres (fun s2 => "__del__" ∈ ((s2.conflictCh.getCh i).getD []) ∧ P4inv st0 n i j s2) _
        (fun s2 c h => ⟨handleNO1_confpos fuel s2 c i "__del__" h.1,
          handleNO1_presP st0 n own i j hi hj hod huniq huniq2 hsafe fuel s2 c h.2⟩)
        _ _ _
        (condFold_pres (fun s2 => "__del__" ∈ ((s2.conflictCh.getCh i).getD []) ∧ P4inv st0 n i j s2) _
          (fun s2 c h => ⟨handleNO1_confpos fuel s2 c i "__del__" h.1,
            handleNO1_presP st0 n own i j hi hj hod huniq huniq2 hsafe fuel s2 c h.2⟩)
          _ _ _ hPM))

/-- Establishment through the pass-2 iteration of the orphan's owner. -/
theorem pass2Step_est (st0 : SyncSt) (n own ow : Addr) (i j : OId)
    (hi : (st0.heap n).oid = i) (hj : (st0.heap own).oid = j)
    (hdel : hasName (st0.monitor.getCh i) "__del__" = false)
    (hod : hasName (st0.monitor.getCh j) "__del__" = true)
    (huniq : ∀ b, (st0.heap b).oid = i → b = n)
    (huniq2 : ∀ b, (st0.heap b).oid = j → b = own)
    (hreach :
      (isNoteOwner (st0.heap ow).kind = true ∧ n ∈ (st0.heap ow).notes ∧
        (st0.heap n).parent = none ∧ st0.diskOwnerMap i = some own) ∨
      (isAttachmentOwner (st0.heap ow).kind = true ∧ n ∈ (st0.heap ow).attachments ∧
        (st0.heap n).parent = none ∧ st0.diskOwnerMap i = some own) ∨
      ((st0.heap ow).kind = .task ∧ n ∈ (st0.heap ow).efforts ∧
        isComposite (st0.heap n).kind = false ∧ (st0.heap n).parent = some own ∧
        st0.diskOwnerMap i = none))
    (f : Nat) (s : SyncSt)
    (herr : (pass2Step (f + 1) s ow).err = false)
    (hP : P4inv st0 n i j s) :
    "__del__" ∈ (((pass2Step (f + 1) s ow).conflictCh.getCh i).getD []) ∧
    P4inv st0 n i j (pass2Step (f + 1) s ow) := by
  have he' : s.err = false := by
    cases hs : s.err with
    | false => rfl
    | true =>
        rw [pass2Step_guard (f + 1) s ow hs] at herr
        rw [hs] at herr
        exact Bool.noConfusion herr
  have hsafe : ((st0.heap n).parent = none ∧ st0.diskOwnerMap i = some own) ∨
      (isComposite (st0.heap n).kind = false ∧ (st0.heap n).parent = some own ∧
        st0.diskOwnerMap i = none) := by
    rcases hreach with ⟨_, _, hpn, hdoi⟩ | ⟨_, _, hpn, hdoi⟩ | ⟨_, _, hnc, hps, hdoi⟩
    · exact Or.inl ⟨hpn, hdoi⟩
    · exact Or.inl ⟨hpn, hdoi⟩
    · exact Or.inr ⟨hnc, hps, hdoi⟩
  unfold pass2Step at herr ⊢
  rw [if_neg (show ¬s.err = true by rw [he']; exact Bool.noConfusion)] at herr ⊢
  simp only [] at herr ⊢
  rcases hreach with ⟨hko, hmemn, hpn, hdoi⟩ | ⟨hko, hmemn, hpn, hdoi⟩ |
    ⟨hko, hmemn, hnc, hps, hdoi⟩
  · have hk1 : isNoteOwner ((s.heap ow).kind) = true := by
      rw [hP.1.2.1 ow]
      exact hko
    rw [if_pos hk1] at herr ⊢
    have hnmem : n ∈ (s.heap ow).notes := (hP.1.2.2.2.2.1 ow).mpr hmemn
    have hst1err : (((s.heap ow).notes).foldl (fun s2 c => handleNO1 (f + 1) s2 c) s).err
        = false := by
      cases h1e : (((s.heap ow).notes).foldl (fun s2 c => handleNO1 (f + 1) s2 c) s).err with
      | false => rfl
      | true =>
          rw [condFold_guard _ (fun s2 z h => handleNO1_guard (f + 1) s2 z h) _ _ _ h1e,
            condFold_guard _ (fun s2 z h => handleNE1_guard s2 z h) _ _ _ h1e] at herr
          rw [h1e] at herr
          exact Bool.noConfusion herr
    obtain ⟨m1, p1⟩ := foldNO_est st0 n own i j hi hj hdel hod huniq huniq2 hpn hdoi f
      ((s.heap ow).notes) s hnmem hst1err hP
    exact condFold_pres
      (fun s2 => "__del__" ∈ ((s2.conflictCh.getCh i).getD []) ∧ P4inv st0 n i j s2)
      handleNE1 (fun s2 c h => ⟨handleNE1_confpos s2 c i "__del__" h.1,
        handleNE1_presP st0 n own i j hi hj hod huniq huniq2 hsafe s2 c h.2⟩) _ _ _
      (condFold_pres (fun s2 => "__del__" ∈ ((s2.conflictCh.getCh i).getD []) ∧ P4inv st0 n i j s2) _
        (fun s2 c h => ⟨handleNO1_confpos (f + 1) s2 c i "__del__" h.1,
          handleNO1_presP st0 n own i j hi hj hod huniq huniq2 hsafe (f + 1) s2 c h.2⟩)
        _ _ _ ⟨m1, p1⟩)
  · have hP1 : P4inv st0 n i j (if isNoteOwner ((s.heap ow).kind) = true then
        ((s.heap ow).notes).foldl (fun s2 c => handleNO1 (f + 1) s2 c) s else s) :=
      condFold_pres _ _
        (fun s2 c => handleNO1_presP st0 n own i j hi hj hod huniq huniq2 hsafe (f + 1) s2 c)
        _ _ _ hP
    have hk2 : isAttachmentOwner ((s.heap ow).kind) = true := by
      rw [hP.1.2.1 ow]
      exact hko
    rw [if_pos hk2] at herr ⊢
    have hamem : n ∈ ((if isNoteOwner ((s.heap ow).kind) = true then
        ((s.heap ow).notes).foldl (fun s2 c => handleNO1 (f + 1) s2 c) s else s).heap
          ow).attachments :=
      (hP1.1.2.2.2.2.2.1 ow).mpr hmemn
    have hst2err : ((((if isNoteOwner ((s.heap ow).kind) = true then
        ((s.heap ow).notes).foldl (fun s2 c => handleNO1 (f + 1) s2 c) s else s).heap
          ow).attachments).foldl (fun s2 c => handleNO1 (f + 1) s2 c)
        (if isNoteOwner ((s.heap ow).kind) = true then
          ((s.heap ow).notes).foldl (fun s2 c => handleNO1 (f + 1) s2 c) s else s)).err
        = false := by
      cases h2e : ((((if isNoteOwner ((s.heap ow).kind) = true then
          ((s.heap ow).notes).foldl (fun s2 c => handleNO1 (f + 1) s2 c) s else s).heap
            ow).attachments).foldl (fun s2 c => handleNO1 (f + 1) s2 c)
          (if isNoteOwner ((s.heap ow).kind) = true then
            ((s.heap ow).notes).foldl (fun s2 c => handleNO1 (f + 1) s2 c) s else s)).err with
      | false => rfl
      | true =>
          rw [condFold_guard _ (fun s2 z h => handleNE1_guard s2 z h) _ _ _ h2e] at herr
          rw [h2e] at herr
          exact Bool.noConfusion herr
    obtain ⟨m1, p1⟩ := foldNO_est st0 n own i j hi hj hdel hod huniq huniq2 hpn hdoi f
      _ _ hamem hst2err hP1
    exact condFold_pres
      (fun s2 => "__del__" ∈ ((s2.conflictCh.getCh i).getD []) ∧ P4inv st0 n i j s2)
      handleNE1 (fun s2 c h => ⟨handleNE1_confpos s2 c i "__del__" h.1,
        handleNE1_presP st0 n own i j hi hj hod huniq huniq2 hsafe s2 c h.2⟩) _ _ _
      ⟨m1, p1⟩
  · have hP1 : P4inv st0 n i j (if isNoteOwner ((s.heap ow).kind) = true then
        ((s.heap ow).notes).foldl (fun s2 c => handleNO1 (f + 1) s2 c) s else s) :=
      condFold_pres _ _
        (fun s2 c => handleNO1_presP st0 n own i j hi hj hod huniq huniq2 hsafe (f + 1) s2 c)
        _ _ _ hP
    have hP2 : P4inv st0 n i j (if isAttachmentOwner ((s.heap ow).kind) = true then
        (((if isNoteOwner ((s.heap ow).kind) = true then
          ((s.heap ow).notes).foldl (fun s2 c => handleNO1 (f + 1) s2 c) s else s).heap
            ow).attachments).foldl (fun s2 c => handleNO1 (f + 1) s2 c)
          (if isNoteOwner ((s.heap ow).kind) = true then
            ((s.heap ow).notes).foldl (fun s2 c => handleNO1 (f + 1) s2 c) s else s)
        else (if isNoteOwner ((s.heap ow).kind) = true then
          ((s.heap ow).notes).foldl (fun s2 c => handleNO1 (f + 1) s2 c) s else s)) :=
      condFold_pres _ _
        (fun s2 c => handleNO1_presP st0 n own i j hi hj hod huniq huniq2 hsafe (f + 1) s2 c)
        _ _ _ hP1
    have hk3 : (s.heap ow).kind = ObjKind.task := (hP.1.2.1 ow).trans hko
    rw [if_pos hk3] at herr ⊢
    have hemem := (hP2.1.2.2.2.2.2.2 ow).mpr hmemn
    exact foldNE_est st0 n own i j hi hj hdel hod huniq huniq2 hnc hps hdoi
      _ _ hemem herr hP2

/-- Establishment through the whole pass-2 object fold. -/
theorem pass2Fold_main (st0 : SyncSt) (n own ow : Addr) (i j : OId)
    (hi : (st0.heap n).oid = i) (hj : (st0.heap own).oid = j)
    (hdel : hasName (st0.monitor.getCh i) "__del__" = false)
    (hod : hasName (st0.monitor.getCh j) "__del__" = true)
    (huniq : ∀ b, (st0.heap b).oid = i → b = n)
    (huniq2 : ∀ b, (st0.heap b).oid = j → b = own)
    (hreach :
      (isNoteOwner (st0.heap ow).kind = true ∧ n ∈ (st0.heap ow).notes ∧
        (st0.heap n).parent = none ∧ st0.diskOwnerMap i = some own) ∨
      (isAttachmentOwner (st0.heap ow).kind = true ∧ n ∈ (st0.heap ow).attachments ∧
        (st0.heap n).parent = none ∧ st0.diskOwnerMap i = some own) ∨
      ((st0.heap ow).kind = .task ∧ n ∈ (st0.heap ow).efforts ∧
        isComposite (st0.heap n).kind = false ∧ (st0.heap n).parent = some own ∧
        st0.diskOwnerMap i = none))
    (f : Nat) :
    ∀ (L : List Addr) (s : SyncSt), ow ∈ L →
      (L.foldl (pass2Step (f + 1)) s).err = false →
      P4inv st0 n i j s →
      "__del__" ∈ (((L.foldl (pass2Step (f + 1)) s).conflictCh.getCh i).getD []) ∧
      P4inv st0 n i j (L.foldl (pass2Step (f + 1)) s) := by
  have hsafe : ((st0.heap n).parent = none ∧ st0.diskOwnerMap i = some own) ∨
      (isComposite (st0.heap n).kind = false ∧ (st0.heap n).parent = some own ∧
        st0.diskOwnerMap i = none) := by
    rcases hreach with ⟨_, _, hpn, hdoi⟩ | ⟨_, _, hpn, hdoi⟩ | ⟨_, _, hnc, hps, hdoi⟩
    · exact Or.inl ⟨hpn, hdoi⟩
    · exact Or.inl ⟨hpn, hdoi⟩
    · exact Or.inr ⟨hnc, hps, hdoi⟩
  intro L
  induction L with
  | nil => intro s hmem _ _; exact absurd hmem (List.not_mem_nil ow)
  | cons z t ih =>
      intro s hmem herr hP
      simp only [List.foldl_cons] at herr ⊢
      by_cases hzw : z = ow
      · rw [hzw] at herr ⊢
        have hstep_err : (pass2Step (f + 1) s ow).err = false :=
          foldlSt_err_back _ (fun s2 w h => pass2Step_guard (f + 1) s2 w h) t _ herr
        have hPM := pass2Step_est st0 n own ow i j hi hj hdel hod huniq huniq2 hreach
          f s hstep_err hP
        exact foldlP_pres
          (fun s2 => "__del__" ∈ ((s2.conflictCh.getCh i).getD []) ∧ P4inv st0 n i j s2)
          _ (fun s2 c h =>
            pass2Step_presPM st0 n own i j hi hj hod huniq huniq2 hsafe (f + 1) s2 c h)
          t _ hPM
      · have hot : ow ∈ t := by
          rcases List.mem_cons.mp hmem with hc | hc
          · exact absurd hc.symm hzw
          · exact hc
        exact ih _ hot herr
          (pass2Step_presP st0 n own i j hi hj hod huniq huniq2 hsafe (f + 1) s z hP)

/-- C4: an owned object (note, attachment or effort) that is new on disk,
not locally deleted, and whose disk-side owner's id is absent from the
in-memory id map is dropped by the owned-objects merge pass
(`mergeOwnedObjectsFromDisk`, the pass the claim's cited handlers belong
to): a `__del__` change for its id is recorded in `conflictChanges`, its id
is still absent from `memMap`, its parent pointer is unchanged, and it has
been added to no child list or owned collection of any object — so it is
not attached to the merged in-memory graph.  (Side conditions: the pass
reaches it through an owner in the iterated list, its id and its owner's
id are unambiguous, the owner is locally deleted — which is why its id is
absent from `memMap` — and the pass finishes without an uncaught
exception.) -/
theorem C4_orphan_drop (f : Nat) (st : SyncSt) (dl : List Addr)
    (n own ow : Addr) (i j : OId)
    (hi : (st.heap n).oid = i) (hj : (st.heap own).oid = j)
    (hdel : hasName (st.monitor.getCh i) "__del__" = false)
    (hod : hasName (st.monitor.getCh j) "__del__" = true)
    (hmi : st.memMap i = none) (hmj : st.memMap j = none)
    (huniq : ∀ b, (st.heap b).oid = i → b = n)
    (huniq2 : ∀ b, (st.heap b).oid = j → b = own)
    (how : ow ∈ allItemsSorted st.heap (f + 1) dl)
    (hreach :
      (isNoteOwner (st.heap ow).kind = true ∧ n ∈ (st.heap ow).notes ∧
        (st.heap n).parent = none ∧ st.diskOwnerMap i = some own) ∨
      (isAttachmentOwner (st.heap ow).kind = true ∧ n ∈ (st.heap ow).attachments ∧
        (st.heap n).parent = none ∧ st.diskOwnerMap i = some own) ∨
      ((st.heap ow).kind = .task ∧ n ∈ (st.heap ow).efforts ∧
        isComposite (st.heap n).kind = false ∧ (st.heap n).parent = some own ∧
        st.diskOwnerMap i = none))
    (herr : (mergeOwnedObjectsFromDisk (f + 1) st dl).err = false) :
    "__del__" ∈
      (((mergeOwnedObjectsFromDisk (f + 1) st dl).conflictCh.getCh i).getD []) ∧
    (mergeOwnedObjectsFromDisk (f + 1) st dl).memMap i = none ∧
    ((mergeOwnedObjectsFromDisk (f + 1) st dl).heap n).parent = (st.heap n).parent ∧
    (∀ b, n ∈ ((mergeOwnedObjectsFromDisk (f + 1) st dl).heap b).children →
      n ∈ (st.heap b).children) ∧
    (∀ b, n ∈ ((mergeOwnedObjectsFromDisk (f + 1) st dl).heap b).notes ↔
      n ∈ (st.heap b).notes) ∧
    (∀ b, n ∈ ((mergeOwnedObjectsFromDisk (f + 1) st dl).heap b).attachments ↔
      n ∈ (st.heap b).attachments) ∧
    (∀ b, n ∈ ((mergeOwnedObjectsFromDisk (f + 1) st dl).heap b).efforts ↔
      n ∈ (st.heap b).efforts) := by
  have h0 : P4inv st n i j st := ⟨HR_refl n st.heap, rfl, rfl, hmi, hmj⟩
  unfold mergeOwnedObjectsFromDisk at herr ⊢
  obtain ⟨hmem, hP⟩ := pass2Fold_main st n own ow i j hi hj hdel hod huniq huniq2
    hreach f (allItemsSorted st.heap (f + 1) dl) st how herr h0
  exact ⟨hmem, hP.2.2.2.1, hP.1.2.2.1, hP.1.2.2.2.1, hP.1.2.2.2.2.1,
    hP.1.2.2.2.2.2.1, hP.1.2.2.2.2.2.2⟩

/-- Witness for C4 at the orphan-drop world: the new disk note (id 800)
whose owner task (id 700) was deleted in memory is recorded as a `__del__`
conflict and its id does not enter `memMap`. -/
theorem C4_orphan_drop_witness :
    "__del__" ∈
      (((mergeOwnedObjectsFromDisk 1 w4bst [17]).conflictCh.getCh 800).getD []) ∧
    (mergeOwnedObjectsFromDisk 1 w4bst [17]).memMap 800 = none := by
  have hout : ∀ b : Addr, b ≠ 17 → b ≠ 18 → w4bst.heap b = {} := by
    intro b h17 h18
    have hz : alGet [ (17, ({ oid := 700, kind := .task, notes := [18] } : ObjData)),
        (18, { oid := 800, kind := .note }) ] b = none := by
      apply alGet_none_of_all_ne
      intro p hp
      rcases List.mem_cons.mp hp with h | h
      · rw [h]
        exact fun hc => h17 hc.symm
      · rcases List.mem_cons.mp h with h2 | h2
        · rw [h2]
          exact fun hc => h18 hc.symm
        · exact absurd h2 (List.not_mem_nil p)
    show (alGet [ (17, ({ oid := 700, kind := .task, notes := [18] } : ObjData)),
        (18, { oid := 800, kind := .note }) ] b).getD {} = {}
    rw [hz]
    rfl
  have huniq : ∀ b, (w4bst.heap b).oid = 800 → b = 18 := by
    intro b hb
    by_cases h17 : b = 17
    · rw [h17] at hb
      exact absurd hb (by decide)
    · by_cases h18 : b = 18
      · exact h18
      · rw [hout b h17 h18] at hb
        exact absurd hb (by decide)
  have huniq2 : ∀ b, (w4bst.heap b).oid = 700 → b = 17 := by
    intro b hb
    by_cases h17 : b = 17
    · exact h17
    · by_cases h18 : b = 18
      · rw [h18] at hb
        exact absurd hb (by decide)
      · rw [hout b h17 h18] at hb
        exact absurd hb (by decide)
  have h := C4_orphan_drop 0 w4bst [17] 18 17 17 800 700 (by decide) (by decide)
    (by decide) (by decide) rfl rfl huniq huniq2 (by decide)
    (Or.inl ⟨by decide, by decide, by decide, by decide⟩) (by decide)
  exact ⟨h.1, h.2.1⟩

/-- Witness for C7 at the conflict-propagation world: after the merge the
local monitor is empty, the other device's entry (guid 9) contains the
`subject` conflict for id 400, and the local entry is the emptied monitor. -/
theorem C7_post_merge_witness :
    w7res.st.monitor.getCh 400 = none ∧
    ("subject" ∈ (((alGet w7res.table 9).getD {}).getCh 400).getD [] ∨
      "__del__" ∈ (((alGet w7res.table 9).getD {}).getCh 400).getD []) ∧
    alGet w7res.table 7 = some w7res.st.monitor := by
  have h := C7_post_merge 10 w7mon w7all w7heap [([4], [14])] (by rfl)
  have hmem : ((9 : Guid), (alGet w7res.table 9).getD {}) ∈ w7res.table := by decide
  have h9 : (9 : Guid) ≠ w7mon.mguid := by decide
  have hcf : w7res.st.conflictCh.getCh 400 = some ["subject"] := by rfl
  obtain ⟨t, ht, hsup⟩ := h.2.1 9 _ hmem h9 400 ["subject"] hcf
  refine ⟨h.1 400, ?_, h.2.2⟩
  rw [ht]
  simpa using hsup "subject" (by simp)

end TaskCoach
